import Mathlib

/-!
The request lifecycle, the debounce effect and the optimistic update of the
react-showcase widgets.

A shallow embedding of the hooks of the showcase widgets.  A hook's `useState`
cells and `useRef` boxes become the fields of a record, every callback that the
source registers (effect body, `then`/`catch` handler, timer callback, click
handler) becomes a function on that record, and a widget is the transition
system whose events are the callbacks the browser may invoke.  JavaScript runs
each callback to completion, so one event is one atomic step.
-/

/-! ## Browser timers -/

namespace Browser

/-- One armed `setTimeout` entry: the id handed back to the caller, the earliest
instant (ms) at which the callback may run, and what the callback closed over. -/
structure Timer (α : Type) where
  id : Nat
  deadline : Nat
  payload : α
deriving DecidableEq, Repr

/-- The timer table of the page.  Ids are positive and never reused. -/
structure Timers (α : Type) where
  nextId : Nat
  armed : List (Timer α)
deriving DecidableEq, Repr

/-- The empty timer table of a fresh page. -/
def Timers.empty {α : Type} : Timers α := { nextId := 1, armed := [] }

/-- `setTimeout(cb, delay)` called at instant `now`: returns the new table and the id. -/
def Timers.setTimeout {α : Type} (ts : Timers α) (now delay : Nat) (payload : α) :
    Timers α × Nat :=
  ({ nextId := ts.nextId + 1,
     armed := ts.armed ++ [{ id := ts.nextId, deadline := now + delay, payload := payload }] },
   ts.nextId)

/-- `clearTimeout(id)`: drops the entry with that id, if it is still armed. -/
def Timers.clearTimeout {α : Type} (ts : Timers α) (id : Nat) : Timers α :=
  { ts with armed := ts.armed.filter (fun t => t.id != id) }

/-- The entry the browser may run at instant `now` under id `id`, if any. -/
def Timers.due {α : Type} (ts : Timers α) (now id : Nat) : Option (Timer α) :=
  ts.armed.find? (fun t => t.id == id && decide (t.deadline ≤ now))

/-- An entry of the record a debounced component keeps of its debounce effect:
the effect ran at instant `time` for the raw value `raw` (and armed its timer),
or a timer callback ran at instant `time` and committed `value` downstream. -/
inductive Debounce where
  | set (time : Nat) (raw : String)
  | commit (time : Nat) (value : String)
deriving DecidableEq, Repr

/-- Instant of an entry. -/
def Debounce.time : Debounce → Nat
  | .set time _ => time
  | .commit time _ => time

/-- The raw value of the newest `set` entry of a history (newest first). -/
def lastSet : List Debounce → Option String
  | [] => none
  | .set _ raw :: _ => some raw
  | .commit _ _ :: rest => lastSet rest

/-- The value of the newest `commit` entry of a history (newest first). -/
def lastCommit : List Debounce → Option String
  | [] => none
  | .commit _ value :: _ => some value
  | .set _ _ :: rest => lastCommit rest

/-- In the history `h` (newest first) every commit sits right on top of the
`set` entry whose raw value it commits, through `f`, at least `delay` later. -/
def Settled (f : String → String) (delay : Nat) (h : List Debounce) : Prop :=
  ∀ newer t v older, h = newer ++ Debounce.commit t v :: older →
    ∃ t0 raw rest, older = Debounce.set t0 raw :: rest ∧ v = f raw ∧ t0 + delay ≤ t

/-- The history `h` (newest first) is in order of time and nothing in it is later than `now`. -/
def Chronological (now : Nat) (h : List Debounce) : Prop :=
  h.Pairwise (fun a b => b.time ≤ a.time) ∧ ∀ e ∈ h, e.time ≤ now

end Browser

/-! ## `src/app/stale-while-revalidate/page.tsx` -/

namespace StaleWhileRevalidate

structure User where
  id : String
  name : String
  email : String
  updatedAt : Nat
deriving DecidableEq, Repr

def users : List User :=
  [ { id := "01", name := "Stephan", email := "stephc93@mail.com", updatedAt := 1766306575718 },
    { id := "02", name := "Mohiko", email := "mohi-san@mail.com", updatedAt := 1766302272513 },
    { id := "03", name := "Boris", email := "bojohn87@mail.com", updatedAt := 1766306523590 } ]

/-- `fetchUser(userId)`; `shouldFail` is the draw `Math.random() < 0.2`.  The
result is what the promise settles with (the delay is the scheduler's business). -/
def fetchUser (shouldFail : Bool) (userId : String) : Except String User :=
  if shouldFail then .error "Request failed"
  else
    match users.find? (fun u => u.id == userId) with
    | some user => .ok user
    | none => .error "User not found"

inductive Status where
  | idle
  | loading
  | refreshing
  | error
deriving DecidableEq, Repr

/-- A `fetchUser` call that has been issued: what its `then`/`catch` closures captured. -/
structure Request where
  requestId : Nat
  userId : String
deriving DecidableEq, Repr

/-- The entries of `localStorage` under this widget's keys.  Every entry is
written as `JSON.stringify(fetched)` and read back through `JSON.parse`; the
record keeps the parsed object, and `getItem` returning `null` is `none`
(the JSON text of an object is never the empty string, so the test
`if (cached)` is a test for presence). -/
abbrev Storage := String → Option User

def Storage.setItem (st : Storage) (key : String) (value : User) : Storage :=
  fun k => if k = key then some value else st k

/-- State of one `useUser` instance: the prop of the latest render, the two
`useState` cells, the `useRef` counter, the storage, and the issued calls that
have not settled yet. -/
structure UseUser where
  userId : String
  user : Option User
  status : Status
  requestIdRef : Nat
  localStorage : Storage
  inFlight : List Request

/-- The hook before its first effect has run. -/
def UseUser.initial (userId : String) (storage : Storage) : UseUser :=
  { userId := userId, user := none, status := .idle, requestIdRef := 0,
    localStorage := storage, inFlight := [] }

/-- The body of `useEffect(() => {...}, [userId])`, lines 56-82. -/
def effect (userId : String) (s : UseUser) : UseUser :=
  let s := { s with userId := userId, status := .loading }
  let cached := s.localStorage userId
  let s :=
    match cached with
    | some c => { s with user := some c, status := .refreshing }
    | none => { s with status := .loading }
  let requestId := s.requestIdRef + 1
  { s with requestIdRef := requestId,
           inFlight := s.inFlight ++ [{ requestId := requestId, userId := userId }] }

/-- The function `refresh`, lines 84-102. -/
def refresh (s : UseUser) : UseUser :=
  let s := { s with status := .refreshing }
  let requestId := s.requestIdRef + 1
  { s with requestIdRef := requestId,
           inFlight := s.inFlight ++ [{ requestId := requestId, userId := s.userId }] }

/-- The `then` handler (lines 70-76 and, word for word, 90-96). -/
def onFulfilled (requestId : Nat) (userId : String) (fetched : User) (s : UseUser) : UseUser :=
  if requestId = s.requestIdRef then
    { s with user := some fetched, status := .idle,
             localStorage := s.localStorage.setItem userId fetched }
  else s

/-- The `catch` handler (lines 77-81 and 97-101). -/
def onRejected (requestId : Nat) (s : UseUser) : UseUser :=
  if requestId = s.requestIdRef then { s with status := .error } else s

/-- Delivery of the settlement `res` of the call `r` to its handlers. -/
def complete (r : Request) (res : Except String User) (s : UseUser) : UseUser :=
  match res with
  | .ok fetched => onFulfilled r.requestId r.userId fetched s
  | .error _ => onRejected r.requestId s

/-- What can happen to a mounted `useUser`. -/
inductive Event where
  /-- the parent renders the card with this `userId` -/
  | render (userId : String)
  /-- the Retry button calls `refresh` -/
  | refresh
  /-- the promise of the issued call `r` settles -/
  | settle (r : Request) (shouldFail : Bool)
deriving DecidableEq, Repr

def step (s : UseUser) : Event → UseUser
  | .render userId => if userId = s.userId then s else effect userId s
  | .refresh => refresh s
  | .settle r shouldFail =>
      if r ∈ s.inFlight then
        complete r (fetchUser shouldFail r.userId) { s with inFlight := s.inFlight.erase r }
      else s

def run (s : UseUser) (evs : List Event) : UseUser := evs.foldl step s

/-- First render of the hook followed by its mount effect. -/
def mount (userId : String) (storage : Storage) : UseUser :=
  effect userId (UseUser.initial userId storage)

end StaleWhileRevalidate

/-! ## JavaScript strings -/

namespace JS

/-- ECMAScript `WhiteSpace` and `LineTerminator` code points, the ones
`String.prototype.trim` strips. -/
def isWhiteSpace (c : Char) : Bool :=
  let n := c.toNat
  n == 0x9 || n == 0xA || n == 0xB || n == 0xC || n == 0xD || n == 0x20 || n == 0xA0 ||
    n == 0x1680 || (decide (0x2000 ≤ n) && decide (n ≤ 0x200A)) || n == 0x2028 ||
    n == 0x2029 || n == 0x202F || n == 0x205F || n == 0x3000 || n == 0xFEFF

/-- `s.trim()`. -/
def trim (s : String) : String :=
  String.mk ((s.toList.dropWhile isWhiteSpace).reverse.dropWhile isWhiteSpace).reverse

/-- `s.length`: the number of UTF-16 code units of `s`. -/
def length (s : String) : Nat :=
  (s.toList.map (fun c => if c.toNat < 0x10000 then 1 else 2)).sum

end JS

/-! ## `src/public/ServersidePagination.tsx` -/

namespace ServersidePagination

structure Item where
  id : String
  name : String
deriving DecidableEq, Repr

inductive Status where
  | idle
  | loading
  | error
deriving DecidableEq, Repr

/-- What a `searchApi` promise resolves with. -/
structure SearchResult where
  items : List Item
  totalPages : Nat
deriving DecidableEq, Repr

/-- An issued `searchApi(query, page)` call and the `requestId` its handlers captured. -/
structure Request where
  requestId : Nat
  query : String
  page : Int
deriving DecidableEq, Repr

/-- State of the `App` component: its six `useState` cells, the `useRef`
counter, the clock and timer table of the page (a debounce timer closes over
the `input` of the render that armed it), the id `t` held by the cleanup of the
latest debounce effect, the calls not yet settled, whether the component is
still mounted, and the record of what the debounce effect did (newest first;
no transition reads it). -/
structure App where
  input : String
  query : String
  page : Int
  items : List Item
  totalPages : Nat
  status : Status
  requestIdRef : Nat
  now : Nat
  timers : Browser.Timers String
  cleanupTimer : Nat
  inFlight : List Request
  mounted : Bool
  history : List Browser.Debounce
deriving DecidableEq, Repr

/-- The body of the debounce effect, lines 75-78: arm the commit of `input`, keep the id. -/
def debounceEffect (s : App) : App :=
  let (timers, t) := s.timers.setTimeout s.now 300 s.input
  { s with timers := timers, cleanupTimer := t,
           history := .set s.now s.input :: s.history }

/-- The cleanup returned by the debounce effect, line 80. -/
def debounceCleanup (s : App) : App :=
  { s with timers := s.timers.clearTimeout s.cleanupTimer }

/-- The body of the search effect, lines 84-97, up to the call being issued. -/
def searchEffect (s : App) : App :=
  let requestId := s.requestIdRef + 1
  let s := { s with requestIdRef := requestId }
  let s := { s with status := .loading }
  { s with inFlight := s.inFlight ++ [{ requestId := requestId, query := s.query, page := s.page }] }

/-- The `then` handler, lines 88-93. -/
def onFulfilled (requestId : Nat) (res : SearchResult) (s : App) : App :=
  if requestId ≠ s.requestIdRef then s
  else { s with items := res.items, totalPages := res.totalPages, status := .idle }

/-- The `catch` handler, lines 94-97. -/
def onRejected (requestId : Nat) (s : App) : App :=
  if requestId ≠ s.requestIdRef then s else { s with status := .error }

/-- Delivery of the settlement `res` of the call `r` to its handlers. -/
def complete (r : Request) (res : Option SearchResult) (s : App) : App :=
  match res with
  | some res => onFulfilled r.requestId res s
  | none => onRejected r.requestId s

/-- A render in which `query` or `page` differs from the previous one runs the search effect. -/
def commitQueryPage (query : String) (page : Int) (s : App) : App :=
  if query = s.query ∧ page = s.page then s
  else searchEffect { s with query := query, page := page }

/-- The callback of the debounce timer, lines 76-77, closed over `input`. -/
def debounceCallback (input : String) (s : App) : App :=
  commitQueryPage (JS.trim input) 1
    { s with history := .commit s.now (JS.trim input) :: s.history }

/-- `onChange` of the text box: `setInput(e.target.value)`; a render with a new
`input` runs the cleanup of the previous debounce effect and then the effect. -/
def setInput (value : String) (s : App) : App :=
  if value = s.input then s
  else debounceEffect (debounceCleanup { s with input := value })

/-- Click on Prev (`disabled` when `page === 1`). -/
def clickPrev (s : App) : App :=
  if s.page = 1 then s else commitQueryPage s.query (s.page - 1) s

/-- Click on Next (`disabled` when `page === totalPages`). -/
def clickNext (s : App) : App :=
  if s.page = (s.totalPages : Int) then s else commitQueryPage s.query (s.page + 1) s

/-- The browser runs the timer `id`, provided it is armed and its delay has
elapsed; the state updates of its callback are ignored once the component is gone. -/
def fire (id : Nat) (s : App) : App :=
  match s.timers.due s.now id with
  | some t =>
      let s := { s with timers := s.timers.clearTimeout id }
      if s.mounted then debounceCallback t.payload s else s
  | none => s

/-- Unmount: the cleanup of the debounce effect runs, the component is gone. -/
def unmount (s : App) : App :=
  { debounceCleanup s with mounted := false }

inductive Event where
  | type (value : String)
  | clickPrev
  | clickNext
  /-- `dt` milliseconds pass -/
  | advance (dt : Nat)
  | fire (id : Nat)
  | settle (r : Request) (res : Option SearchResult)
  | unmount
deriving DecidableEq, Repr

/-- One event.  After unmount there is no DOM to type or click in and React
ignores state updates; the clock and the timers of the page go on. -/
def step (s : App) : Event → App
  | .advance dt => { s with now := s.now + dt }
  | .fire id => fire id s
  | .type value => if s.mounted then setInput value s else s
  | .clickPrev => if s.mounted then clickPrev s else s
  | .clickNext => if s.mounted then clickNext s else s
  | .settle r res =>
      if s.mounted ∧ r ∈ s.inFlight then
        complete r res { s with inFlight := s.inFlight.erase r }
      else s
  | .unmount => if s.mounted then unmount s else s

def run (s : App) (evs : List Event) : App := evs.foldl step s

/-- First render at instant `now` followed by the two mount effects, in source order. -/
def mount (now : Nat) : App :=
  searchEffect (debounceEffect
    { input := "", query := "", page := 1, items := [], totalPages := 1, status := .idle,
      requestIdRef := 0, now := now, timers := Browser.Timers.empty, cleanupTimer := 0,
      inFlight := [], mounted := true, history := [] })

/-- What the debounce effect of `App` maintains: the timer table is empty or
holds the one timer of the latest effect run, which closes over the current
`input`; the history is settled and in order; its newest `set` is the current
`input`. -/
structure DebounceInv (s : App) : Prop where
  armed : s.timers.armed = [] ∨
    (s.mounted = true ∧ ∃ t0 rest,
      s.timers.armed = [{ id := s.cleanupTimer, deadline := t0 + 300, payload := s.input }] ∧
      s.history = Browser.Debounce.set t0 s.input :: rest)
  settled : Browser.Settled JS.trim 300 s.history
  chron : Browser.Chronological s.now s.history
  current : Browser.lastSet s.history = some s.input

end ServersidePagination

/-! ## `src/app/movie-explorer/page.tsx` -/

namespace MovieExplorer

structure Movie where
  imdbId : String
  title : String
  year : String
  poster : String
deriving DecidableEq, Repr

/-- One record of `data.description`; the fields stand for `#IMDB_ID`, `#TITLE`,
`#YEAR` and `#IMG_POSTER`, each of which the JSON document may omit. -/
structure RawMovie where
  imdbId : Option String
  title : Option String
  year : Option String
  poster : Option String
deriving DecidableEq, Repr

/-- Truthiness of an optional string field: present and not `""`. -/
def truthy (v : Option String) : Bool :=
  match v with
  | some str => str != ""
  | none => false

/-- The `filter(...).map(...)` of lines 44-58. -/
def formatMovieList (movies : List RawMovie) : List Movie :=
  (movies.filter (fun movie =>
      truthy movie.title && truthy movie.year && truthy movie.imdbId && truthy movie.poster)).map
    (fun movie =>
      { imdbId := movie.imdbId.getD "", title := movie.title.getD "",
        year := movie.year.getD "", poster := movie.poster.getD "" })

/-- How the `try` block of `fetchData` ends: `fetch` and `res.json()` fulfil and
`data.description` is the list `movies`, or something throws an error whose
`name` is given (`"AbortError"` when the transport honours `controller.abort()`). -/
inductive Outcome where
  | ok (movies : List RawMovie)
  | error (name : String)
deriving DecidableEq, Repr

/-- A `fetch` that has been started: its `AbortController` (numbered in order of
creation), the query of its URL, and whether `abort()` has been called on it. -/
structure Fetch where
  controller : Nat
  query : String
  aborted : Bool
deriving DecidableEq, Repr

/-- State of one `useFetchMovieData` instance: the argument of the latest
render, the two `useState` cells, the started fetches that have not settled,
the controller held by the cleanup of the latest effect run (`none` when that
run returned early), and the number of controllers created so far. -/
structure UseFetchMovieData where
  query : String
  isLoading : Bool
  movieList : List Movie
  fetches : List Fetch
  cleanup : Option Nat
  controllers : Nat
deriving DecidableEq, Repr

/-- The cleanup of the previous effect run, lines 70-72: `controller.abort()`. -/
def runCleanup (s : UseFetchMovieData) : UseFetchMovieData :=
  match s.cleanup with
  | some c =>
      { s with fetches := s.fetches.map (fun f => if f.controller = c then { f with aborted := true } else f),
               cleanup := none }
  | none => s

/-- The effect body, lines 28-73, up to the first `await` of `fetchData`. -/
def effect (query : String) (s : UseFetchMovieData) : UseFetchMovieData :=
  let s := { s with query := query }
  if JS.length query < 3 then { s with cleanup := none }
  else
    let controller := s.controllers + 1
    let s := { s with controllers := controller }
    let s := { s with isLoading := true }
    { s with fetches := s.fetches ++ [{ controller := controller, query := query, aborted := false }],
             cleanup := some controller }

/-- The rest of the `try` block once both awaits have fulfilled, lines 43-61. -/
def onResolved (movies : List RawMovie) (s : UseFetchMovieData) : UseFetchMovieData :=
  let formattedMovieList := formatMovieList movies
  let s := { s with movieList := formattedMovieList }
  { s with isLoading := false }

/-- The `catch` block, lines 62-65 (`console.log` has no effect on the state). -/
def onRejected (_name : String) (s : UseFetchMovieData) : UseFetchMovieData :=
  { s with isLoading := false }

/-- Continuation of `fetchData` after its awaits. -/
def complete (o : Outcome) (s : UseFetchMovieData) : UseFetchMovieData :=
  match o with
  | .ok movies => onResolved movies s
  | .error name => onRejected name s

/-- A render with argument `query`: when it differs from the previous one the
old cleanup runs and then the effect. -/
def render (query : String) (s : UseFetchMovieData) : UseFetchMovieData :=
  if query = s.query then s else effect query (runCleanup s)

/-- The fetch of controller `c` settles with `o`. -/
def settle (c : Nat) (o : Outcome) (s : UseFetchMovieData) : UseFetchMovieData :=
  match s.fetches.find? (fun f => f.controller == c) with
  | some f => complete o { s with fetches := s.fetches.erase f }
  | none => s

/-- First render with argument `query` and the mount effect. -/
def UseFetchMovieData.mount (query : String) : UseFetchMovieData :=
  effect query
    { query := query, isLoading := false, movieList := [], fetches := [], cleanup := none,
      controllers := 0 }

inductive HookEvent where
  | render (query : String)
  | settle (controller : Nat) (o : Outcome)
deriving DecidableEq, Repr

def hookStep (s : UseFetchMovieData) : HookEvent → UseFetchMovieData
  | .render query => render query s
  | .settle c o => settle c o s

def hookRun (s : UseFetchMovieData) (evs : List HookEvent) : UseFetchMovieData :=
  evs.foldl hookStep s

/-- State of the `MovieList` component as far as the search goes: the cells
`search` and `debouncedSearch`, the hook fed with `debouncedSearch`, the clock
and timer table (a debounce timer closes over the `search` of the render that
armed it), the id held by the cleanup of the latest debounce effect, whether
the component is still mounted, and the record of what the debounce effect did
(newest first; no transition reads it). -/
structure MovieList where
  search : String
  debouncedSearch : String
  hook : UseFetchMovieData
  now : Nat
  timers : Browser.Timers String
  cleanupTimer : Nat
  mounted : Bool
  history : List Browser.Debounce
deriving DecidableEq, Repr

/-- The body of the debounce effect, lines 219-221. -/
def debounceEffect (s : MovieList) : MovieList :=
  let (timers, timeoutId) := s.timers.setTimeout s.now 300 s.search
  { s with timers := timers, cleanupTimer := timeoutId,
           history := .set s.now s.search :: s.history }

/-- The cleanup of the debounce effect, lines 223-225. -/
def debounceCleanup (s : MovieList) : MovieList :=
  { s with timers := s.timers.clearTimeout s.cleanupTimer }

/-- `handleSearch`, lines 213-216: `setSearch(e.target.value.trim())`; a render
with a new `search` runs the old cleanup and then the debounce effect. -/
def handleSearch (value : String) (s : MovieList) : MovieList :=
  let input := JS.trim value
  if input = s.search then s
  else debounceEffect (debounceCleanup { s with search := input })

/-- The timer callback, line 220, closed over `search`; the render that follows
passes the new `debouncedSearch` to the hook. -/
def debounceCallback (search : String) (s : MovieList) : MovieList :=
  { s with debouncedSearch := search, hook := render search s.hook,
           history := .commit s.now search :: s.history }

/-- The browser runs the timer `id`, provided it is armed and its delay has
elapsed; the state updates of its callback are ignored once the component is gone. -/
def fire (id : Nat) (s : MovieList) : MovieList :=
  match s.timers.due s.now id with
  | some t =>
      let s := { s with timers := s.timers.clearTimeout id }
      if s.mounted then debounceCallback t.payload s else s
  | none => s

/-- Unmount: both cleanups run. -/
def unmount (s : MovieList) : MovieList :=
  { debounceCleanup s with hook := runCleanup s.hook, mounted := false }

inductive Event where
  | handleSearch (value : String)
  | advance (dt : Nat)
  | fire (id : Nat)
  | settle (controller : Nat) (o : Outcome)
  | unmount
deriving DecidableEq, Repr

/-- One event.  After unmount there is no DOM to type in and React ignores
state updates; the clock and the timers of the page go on. -/
def step (s : MovieList) : Event → MovieList
  | .advance dt => { s with now := s.now + dt }
  | .fire id => fire id s
  | .handleSearch value => if s.mounted then handleSearch value s else s
  | .settle c o => if s.mounted then { s with hook := settle c o s.hook } else s
  | .unmount => if s.mounted then unmount s else s

def run (s : MovieList) (evs : List Event) : MovieList := evs.foldl step s

/-- First render at instant `now` and the mount effects. -/
def mount (now : Nat) : MovieList :=
  debounceEffect
    { search := "", debouncedSearch := "", hook := UseFetchMovieData.mount "", now := now,
      timers := Browser.Timers.empty, cleanupTimer := 0, mounted := true, history := [] }

/-- What the debounce effect of `MovieList` maintains: the timer table is empty
or holds the one timer of the latest effect run, which closes over the current
`search`; the history is settled and in order; its newest `set` is the current
`search`. -/
structure DebounceInv (s : MovieList) : Prop where
  armed : s.timers.armed = [] ∨
    (s.mounted = true ∧ ∃ t0 rest,
      s.timers.armed = [{ id := s.cleanupTimer, deadline := t0 + 300, payload := s.search }] ∧
      s.history = Browser.Debounce.set t0 s.search :: rest)
  settled : Browser.Settled id 300 s.history
  chron : Browser.Chronological s.now s.history
  current : Browser.lastSet s.history = some s.search

end MovieExplorer

/-! ## `src/public/OptimisticList.tsx` -/

namespace OptimisticList

structure Item where
  id : String
  title : String
  completed : Bool
deriving DecidableEq, Repr

inductive Status where
  | idle
  | pending
  | error
deriving DecidableEq, Repr

/-- What the timer callback of one `toggle` call closes over: its `requestId`
and the `item` of the render in which `toggle` was called. -/
structure Attempt where
  requestId : Nat
  item : Item
deriving DecidableEq, Repr

/-- State of one `useOptimisticItem` instance: the three `useState` cells, the
two `useRef` boxes, the clock and timer table of the page, the `fakeApi` calls
that have been made and have not settled, and whether the row is still mounted. -/
structure UseOptimisticItem where
  item : Item
  status : Status
  undoVisible : Bool
  requestIdRef : Nat
  undoTimerRef : Option Nat
  now : Nat
  timers : Browser.Timers Attempt
  calls : List Attempt
  mounted : Bool
deriving DecidableEq, Repr

/-- Truthiness of `undoTimerRef.current` (`number | null`). -/
def truthy (ref : Option Nat) : Bool :=
  match ref with
  | some id => id != 0
  | none => false

/-- The function `toggle`, lines 29-54, up to the timer being armed. -/
def toggle (s : UseOptimisticItem) : UseOptimisticItem :=
  let item := s.item
  let next := { item with completed := !item.completed }
  let s := { s with item := next }
  let s := { s with status := .pending }
  let s := { s with undoVisible := true }
  let s := { s with requestIdRef := s.requestIdRef + 1 }
  let requestId := s.requestIdRef
  let (timers, id) := s.timers.setTimeout s.now 3000 { requestId := requestId, item := item }
  { s with timers := timers, undoTimerRef := some id }

/-- The timer callback, line 39: `fakeApi()` is called. -/
def timerCallback (a : Attempt) (s : UseOptimisticItem) : UseOptimisticItem :=
  { s with calls := s.calls ++ [a] }

/-- The `then` handler, lines 40-45. -/
def onFulfilled (a : Attempt) (s : UseOptimisticItem) : UseOptimisticItem :=
  if a.requestId = s.requestIdRef then { s with status := .idle, undoVisible := false } else s

/-- The `catch` handler, lines 46-52; `a.item` is the `item` the closure captured. -/
def onRejected (a : Attempt) (s : UseOptimisticItem) : UseOptimisticItem :=
  if a.requestId = s.requestIdRef then
    { s with item := a.item, status := .error, undoVisible := false }
  else s

/-- The function `undo`, lines 56-66. -/
def undo (s : UseOptimisticItem) : UseOptimisticItem :=
  let s :=
    if truthy s.undoTimerRef then
      { s with timers := s.timers.clearTimeout (s.undoTimerRef.getD 0), undoTimerRef := none }
    else s
  let s := { s with requestIdRef := s.requestIdRef + 1 }
  let s := { s with item := { s.item with completed := !s.item.completed } }
  let s := { s with undoVisible := false }
  { s with status := .idle }

/-- The cleanup of the mount effect, lines 69-73. -/
def unmount (s : UseOptimisticItem) : UseOptimisticItem :=
  let s :=
    if truthy s.undoTimerRef then
      { s with timers := s.timers.clearTimeout (s.undoTimerRef.getD 0) }
    else s
  { s with mounted := false }

/-- The browser runs the timer `id`, provided it is armed and its delay has elapsed. -/
def fire (id : Nat) (s : UseOptimisticItem) : UseOptimisticItem :=
  match s.timers.due s.now id with
  | some t => timerCallback t.payload { s with timers := s.timers.clearTimeout id }
  | none => s

/-- The `fakeApi` call of attempt `a` settles; `fail` is the draw
`Math.random() < 0.25`.  The state updates of the handlers are ignored once the
row is gone. -/
def settle (a : Attempt) (fail : Bool) (s : UseOptimisticItem) : UseOptimisticItem :=
  if a ∈ s.calls then
    let s := { s with calls := s.calls.erase a }
    if s.mounted then (if fail then onRejected a s else onFulfilled a s) else s
  else s

inductive Event where
  | toggle
  | undo
  | advance (dt : Nat)
  | fire (id : Nat)
  | settle (a : Attempt) (fail : Bool)
  | unmount
deriving DecidableEq, Repr

/-- One event.  The checkbox and the Undo button exist only while the row is
mounted; which of them the markup enables is not taken into account here. -/
def step (s : UseOptimisticItem) : Event → UseOptimisticItem
  | .toggle => if s.mounted then toggle s else s
  | .undo => if s.mounted then undo s else s
  | .advance dt => { s with now := s.now + dt }
  | .fire id => fire id s
  | .settle a fail => settle a fail s
  | .unmount => if s.mounted then unmount s else s

def run (s : UseOptimisticItem) (evs : List Event) : UseOptimisticItem := evs.foldl step s

/-- First render of `useOptimisticItem(initial)` at instant `now`. -/
def mount (initial : Item) (now : Nat) : UseOptimisticItem :=
  { item := initial, status := .idle, undoVisible := false, requestIdRef := 0,
    undoTimerRef := none, now := now, timers := Browser.Timers.empty, calls := [],
    mounted := true }

/-- Every armed timer and every outstanding call belongs to an attempt that has
been counted, and no armed timer carries an id that is still to be handed out. -/
structure Wf (s : UseOptimisticItem) : Prop where
  timers : ∀ t ∈ s.timers.armed, t.payload.requestId ≤ s.requestIdRef
  calls : ∀ a ∈ s.calls, a.requestId ≤ s.requestIdRef
  ids : ∀ t ∈ s.timers.armed, t.id < s.timers.nextId

/-- The attempt of epoch `E` is confirmed no earlier than instant `T`: its timer,
while armed, is due at `T`, and its call, once made, was made at `T` or later. -/
structure Grace (E T : Nat) (s : UseOptimisticItem) : Prop where
  epoch : E ≤ s.requestIdRef
  timers : ∀ t ∈ s.timers.armed, t.payload.requestId = E → t.deadline = T
  calls : ∀ a ∈ s.calls, a.requestId = E → T ≤ s.now

end OptimisticList

/-! ## `src/public/OptimisticList.tsx`: runs in which one attempt is followed -/

namespace OptimisticList

/-- An event other than a call of `toggle` or `undo` or the unmount: time
passing, a timer running, a `fakeApi` call settling. -/
def Event.quiet : Event → Bool
  | .toggle => false
  | .undo => false
  | .unmount => false
  | .advance _ => true
  | .fire _ => true
  | .settle _ _ => true

/-- A quiet event that is not the run of timer `timer`. -/
def Event.leaves (timer : Nat) : Event → Bool
  | .fire id => id != timer
  | ev => ev.quiet

/-- The attempt of epoch `E`, whose timer has id `timer`, can still be undone:
the row is mounted, the counter is at `E`, `undoTimerRef` holds `timer`, the
item is the toggled one, no call of the attempt has been made, and a timer of
the attempt, if armed, is the one with id `timer`. -/
structure Undoable (E timer : Nat) (next : Item) (s : UseOptimisticItem) : Prop where
  mounted : s.mounted = true
  epoch : s.requestIdRef = E
  ref : s.undoTimerRef = some timer
  item : s.item = next
  calls : ∀ a ∈ s.calls, a.requestId < E
  timers : ∀ t ∈ s.timers.armed, t.payload.requestId ≤ E ∧ (t.payload.requestId = E → t.id = timer)

/-- The attempt of epoch `E` is over: the counter has moved on, and neither an
armed timer nor an outstanding call belongs to it. -/
structure Cancelled (E : Nat) (s : UseOptimisticItem) : Prop where
  epoch : E < s.requestIdRef
  timers : ∀ t ∈ s.timers.armed, t.payload.requestId ≠ E
  calls : ∀ a ∈ s.calls, a.requestId ≠ E

end OptimisticList

/-! ## `src/app/test/problem-6.js` and `src/app/test/solution-6.js` -/

namespace Browser

/-- How `await fetch(url, { method: "POST" })` followed by the test of `res.ok`
ends: a response with `ok` true, a response with `ok` false, or a rejected
`fetch`. -/
inductive FetchResult where
  | ok
  | notOk
  | rejected
deriving DecidableEq, Repr

/-- Whether control reaches the `catch` block. -/
def FetchResult.failed : FetchResult → Bool
  | .ok => false
  | .notOk => true
  | .rejected => true

end Browser

namespace Solution6

/-- State of the corrected `LikeButton`: its two `useState` cells (with the
queued updates applied), the `loading` of the latest render, which is the
constant the handler of that render closes over and the `disabled` of the
button, the fetches under way (numbered in order of issue), the number of
fetches issued, and the number of fetches that have ended without failure (a
record no transition reads). -/
structure LikeButton where
  likes : Int
  loading : Bool
  rendered : Bool
  requests : List Nat
  issued : Nat
  succeeded : Nat
deriving DecidableEq, Repr

/-- `handleLike`, lines 7-16, up to the `await`; the `loading` of line 8 is the
constant of the render the handler belongs to. -/
def handleLike (s : LikeButton) : LikeButton :=
  if s.rendered then s
  else
    let s := { s with loading := true }
    let s := { s with likes := s.likes + 1 }
    { s with issued := s.issued + 1, requests := s.requests ++ [s.issued + 1] }

/-- The rest of `handleLike` after the `await`, lines 18-26. -/
def continuation (r : Browser.FetchResult) (s : LikeButton) : LikeButton :=
  let s := if r.failed then { s with likes := s.likes - 1 }
           else { s with succeeded := s.succeeded + 1 }
  { s with loading := false }

/-- The fetch numbered `id` ends with `r`. -/
def settle (id : Nat) (r : Browser.FetchResult) (s : LikeButton) : LikeButton :=
  if id ∈ s.requests then continuation r { s with requests := s.requests.erase id } else s

/-- React renders the component with the current state: from now on the handler
and the button see the current `loading`. -/
def render (s : LikeButton) : LikeButton :=
  { s with rendered := s.loading }

inductive Event where
  /-- `handleLike` is invoked -/
  | handleLike
  /-- React renders the component -/
  | render
  | settle (id : Nat) (r : Browser.FetchResult)
deriving DecidableEq, Repr

def step (s : LikeButton) : Event → LikeButton
  | .handleLike => handleLike s
  | .render => render s
  | .settle id r => settle id r s

def run (s : LikeButton) (evs : List Event) : LikeButton := evs.foldl step s

/-- First render of `LikeButton` with the prop `initialLikes`. -/
def mount (initialLikes : Int) : LikeButton :=
  { likes := initialLikes, loading := false, rendered := false, requests := [], issued := 0,
    succeeded := 0 }

end Solution6

namespace Problem6

/-- A fetch under way: its number and the `likes` its `handleLike` call closed over. -/
structure Request where
  id : Nat
  likes : Int
deriving DecidableEq, Repr

/-- State of the naive `LikeButton`: its two `useState` cells, the fetches
under way, and the number of fetches issued. -/
structure LikeButton where
  likes : Int
  loading : Bool
  requests : List Request
  issued : Nat
deriving DecidableEq, Repr

/-- `handleLike`, lines 7-14, up to the `await`; `likes` is the value of the
render the handler belongs to, which is the current one. -/
def handleLike (s : LikeButton) : LikeButton :=
  let likes := s.likes
  let s := { s with likes := likes + 1 }
  let s := { s with loading := true }
  { s with issued := s.issued + 1, requests := s.requests ++ [{ id := s.issued + 1, likes := likes }] }

/-- The rest of `handleLike` after the `await`, lines 16-23. -/
def continuation (q : Request) (r : Browser.FetchResult) (s : LikeButton) : LikeButton :=
  let s := if r.failed then { s with likes := q.likes } else s
  { s with loading := false }

/-- The fetch numbered `id` ends with `r`. -/
def settle (id : Nat) (r : Browser.FetchResult) (s : LikeButton) : LikeButton :=
  match s.requests.find? (fun q => q.id == id) with
  | some q => continuation q r { s with requests := s.requests.erase q }
  | none => s

/-- A click on the button, which is `disabled` while `loading`. -/
def click (s : LikeButton) : LikeButton :=
  if s.loading then s else handleLike s

inductive Event where
  /-- `handleLike` is invoked -/
  | handleLike
  /-- the button is clicked -/
  | click
  | settle (id : Nat) (r : Browser.FetchResult)
deriving DecidableEq, Repr

def step (s : LikeButton) : Event → LikeButton
  | .handleLike => handleLike s
  | .click => click s
  | .settle id r => settle id r s

def run (s : LikeButton) (evs : List Event) : LikeButton := evs.foldl step s

/-- First render of `LikeButton` with the prop `initialLikes`. -/
def mount (initialLikes : Int) : LikeButton :=
  { likes := initialLikes, loading := false, requests := [], issued := 0 }

end Problem6

/-! ## `src/public/ServersidePagination.tsx`: the mock backend -/

namespace JS

/-- `s.includes(sub)`. -/
def includes (s sub : String) : Bool :=
  s.toList.tails.any (fun t => sub.toList.isPrefixOf t)

/-- `xs.slice(start, stop)` for integer arguments: a negative index counts from the end. -/
def slice {α : Type} (xs : List α) (start stop : Int) : List α :=
  let len : Int := xs.length
  let k := if start < 0 then max (len + start) 0 else min start len
  let final := if stop < 0 then max (len + stop) 0 else min stop len
  (xs.drop k.toNat).take (final - k).toNat

/-- `Math.ceil(a / b)` for lengths `a` and a positive `b`. -/
def ceilDiv (a b : Nat) : Nat := (a + b - 1) / b

/-- `s.toLowerCase()` on strings whose letters are ASCII: the built-in maps the
letters `A`-`Z` to `a`-`z` and leaves the other characters of such a string alone. -/
def toLowerCaseAscii (s : String) : String := String.mk (s.toList.map Char.toLower)

end JS

namespace ServersidePagination

def DATA : List Item :=
  [ { id := "i-01", name := "Michael Anderson" },
    { id := "i-02", name := "Sophia Ramirez" },
    { id := "i-03", name := "Daniel Thompson" },
    { id := "i-04", name := "Olivia Chen" },
    { id := "i-05", name := "Robert Williams" },
    { id := "i-06", name := "Isabella Martinez" },
    { id := "i-07", name := "James O’Connor" },
    { id := "i-08", name := "Emily Johnson" },
    { id := "i-09", name := "Carlos Mendoza" },
    { id := "i-10", name := "Hannah Brooks" },
    { id := "i-11", name := "David Kim" },
    { id := "i-12", name := "Natalie Foster" },
    { id := "i-13", name := "Anthony Russo" },
    { id := "i-14", name := "Aisha Patel" },
    { id := "i-15", name := "Benjamin Clarke" } ]

def PAGE_SIZE : Nat := 5

/-- The `filter` of lines 39-41; `toLowerCase` is the built-in `String.prototype.toLowerCase`. -/
def filtered (toLowerCase : String → String) (query : String) : List Item :=
  DATA.filter (fun item => JS.includes (toLowerCase item.name) (toLowerCase query))

/-- Line 43. -/
def totalPagesOf (toLowerCase : String → String) (query : String) : Nat :=
  max 1 (JS.ceilDiv (filtered toLowerCase query).length PAGE_SIZE)

/-- `searchApi(query, page)`, lines 28-52: what the promise settles with, `none`
for a rejection; `shouldFail` is the draw `Math.random() < 0.2` (after
`reject()` the later `resolve` has no effect). -/
def searchApi (toLowerCase : String → String) (shouldFail : Bool) (query : String)
    (page : Int) : Option SearchResult :=
  if shouldFail then none
  else
    let filtered := filtered toLowerCase query
    let totalPages := max 1 (JS.ceilDiv filtered.length PAGE_SIZE)
    let start := (page - 1) * PAGE_SIZE
    some { items := JS.slice filtered start (start + PAGE_SIZE), totalPages := totalPages }

end ServersidePagination

/-! ## `src/app/movie-explorer/page.tsx`: validation and favorites -/

namespace MovieExplorer

/-- A record is accepted when its identifier, title, year and poster are all
present and non-empty; the movie then carries these four values. -/
def accepted (raw : RawMovie) : Option Movie :=
  match raw.imdbId, raw.title, raw.year, raw.poster with
  | some imdbId, some title, some year, some poster =>
      if imdbId ≠ "" ∧ title ≠ "" ∧ year ≠ "" ∧ poster ≠ "" then
        some { imdbId := imdbId, title := title, year := year, poster := poster }
      else none
  | _, _, _, _ => none

/-- State of one `usePersistFavorites` instance: the `useState` cell, the
`useRef` flag, the entry of `localStorage` under `"favorites"` (kept parsed, as
for `useUser`; `none` when `getItem` returns `null`), and a record of the
`getItem` calls made and of the values written, in order. -/
structure UsePersistFavorites where
  favorites : List Movie
  isFirstLoad : Bool
  stored : Option (List Movie)
  reads : Nat
  writes : List (List Movie)
deriving DecidableEq, Repr

/-- The hook at its first render, before any effect has run. -/
def UsePersistFavorites.initial (stored : Option (List Movie)) : UsePersistFavorites :=
  { favorites := [], isFirstLoad := true, stored := stored, reads := 0, writes := [] }

/-- The first effect, lines 85-92; the second component is the state update it
queues with `setFavorites`, if any. -/
def readEffect (s : UsePersistFavorites) : UsePersistFavorites × Option (List Movie) :=
  let saved := s.stored
  let s := { s with reads := s.reads + 1 }
  let queued := match saved with
    | some parsed => some parsed
    | none => none
  ({ s with isFirstLoad := false }, queued)

/-- The second effect, lines 94-98, of a render whose `favorites` is `favorites`. -/
def writeEffect (favorites : List Movie) (s : UsePersistFavorites) : UsePersistFavorites :=
  if s.isFirstLoad then s
  else { s with stored := some favorites, writes := s.writes ++ [favorites] }

/-- The effect pass of the first render: both effects run, in source order, and
the second one belongs to the render whose `favorites` is the initial `[]`. -/
def mountEffects (stored : Option (List Movie)) : UsePersistFavorites × Option (List Movie) :=
  let s := UsePersistFavorites.initial stored
  let favorites := s.favorites
  let (s, queued) := readEffect s
  (writeEffect favorites s, queued)

/-- A state update `setFavorites(value)` is committed: every caller passes a
fresh array, so the render that follows runs the second effect. -/
def setFavorites (value : List Movie) (s : UsePersistFavorites) : UsePersistFavorites :=
  writeEffect value { s with favorites := value }

/-- Mount: the first effect pass, then the render for the update it queued. -/
def UsePersistFavorites.mount (stored : Option (List Movie)) : UsePersistFavorites :=
  match mountEffects stored with
  | (s, some parsed) => setFavorites parsed s
  | (s, none) => s

end MovieExplorer

/-! ## `src/app/todo-list/page.tsx` -/

namespace TodoList

structure Todo where
  id : String
  title : String
  completed : Bool
  createdAt : Nat
deriving DecidableEq, Repr

/-- The actions of `TodoAction`; `added` also carries what `crypto.randomUUID()`
and `Date.now()` return when the reducer runs. -/
inductive TodoAction where
  | added (title : String) (uuid : String) (now : Nat)
  | completed (id : String)
  | edited (id : String) (title : String)
  | deleted (id : String)
deriving DecidableEq, Repr

/-- `todoReducer`, lines 26-55 (the same text in `todo-app/page.tsx`, lines 25-54). -/
def todoReducer (state : List Todo) (action : TodoAction) : List Todo :=
  match action with
  | .added title uuid now =>
      { id := uuid, title := title, completed := false, createdAt := now } :: state
  | .completed id =>
      state.map (fun todo => if todo.id = id then { todo with completed := !todo.completed } else todo)
  | .edited id title =>
      state.map (fun todo => if todo.id = id then { todo with title := title } else todo)
  | .deleted id => state.filter (fun todo => todo.id != id)

/-- State of one `TodoItem`: the prop `todo` of the latest render and the two
`useState` cells. -/
structure TodoItem where
  todo : Todo
  isEditing : Bool
  editValue : String
deriving DecidableEq, Repr

/-- First render of `TodoItem` for `todo`. -/
def TodoItem.mount (todo : Todo) : TodoItem :=
  { todo := todo, isEditing := false, editValue := todo.title }

/-- `handleBlur`, lines 99-103; `onEdit` makes the parent dispatch `edited`,
after which this item is rendered with the new title. -/
def handleBlur (s : TodoItem) : TodoItem :=
  let trimmed := JS.trim s.editValue
  let s := if trimmed ≠ "" ∧ trimmed ≠ s.todo.title
           then { s with todo := { s.todo with title := trimmed } } else s
  { s with isEditing := false }

inductive Event where
  /-- double click on the title (`onDoubleClick`, line 123) -/
  | doubleClick
  /-- typing in the text box (`onChange`, line 115) -/
  | change (value : String)
  /-- the Enter key in the text box (`onKeyDown`, line 117) -/
  | enter
  /-- the text box loses the focus (`onBlur`, line 116) -/
  | blur
deriving DecidableEq, Repr

/-- One event; the title is rendered while `isEditing` is false and the text
box while it is true. -/
def step (s : TodoItem) : Event → TodoItem
  | .doubleClick => if s.isEditing then s else { s with isEditing := true }
  | .change value => if s.isEditing then { s with editValue := value } else s
  | .enter => if s.isEditing then handleBlur s else s
  | .blur => if s.isEditing then handleBlur s else s

def run (s : TodoItem) (evs : List Event) : TodoItem := evs.foldl step s

end TodoList

/-! ## `src/app/test/problem-4.js` -/

namespace Problem4

/-- State of the flawed `EditableTitle`: the prop `title` of the latest render,
the `useState` cell, the dependency values `[title, value]` of the render whose
effect ran last (`none` before the first effect), the number of times React has
called the component, and whether React can tell on the spot that a `setValue`
with the current value changes nothing: it can after the mount and after a
render made in vain, and it cannot once a render has processed a state update. -/
structure EditableTitle where
  title : String
  value : String
  deps : Option (String × String)
  renders : Nat
  eager : Bool
deriving DecidableEq, Repr

/-- What a `setValue` call leaves scheduled: nothing, a render that processes
the new state, or a render that will find the state unchanged. -/
inductive Scheduled where
  | nothing
  | update
  | check
deriving DecidableEq, Repr

/-- `setValue(next)`. -/
def setValue (next : String) (s : EditableTitle) : EditableTitle × Scheduled :=
  if next = s.value then (if s.eager then (s, .nothing) else (s, .check))
  else ({ s with value := next }, .update)

/-- The effects of a committed render: the effect of lines 6-8 runs when
`[title, value]` differs from the previous dependencies, and calls
`setValue(title)`. -/
def effectPass (s : EditableTitle) : EditableTitle × Scheduled :=
  if s.deps = some (s.title, s.value) then (s, .nothing)
  else setValue s.title { s with deps := some (s.title, s.value) }

/-- The renders that follow a `setValue`, until nothing is scheduled; `none`
when `fuel` renders do not suffice.  A render that processes an update is
committed and its effects run; a render that finds the state unchanged is
abandoned after the component has been called, and no effect runs. -/
def settleRenders : Nat → Scheduled → EditableTitle → Option EditableTitle
  | _, .nothing, s => some s
  | 0, .update, _ => none
  | 0, .check, _ => none
  | _ + 1, .check, s => some { s with renders := s.renders + 1, eager := true }
  | fuel + 1, .update, s =>
      match effectPass { s with renders := s.renders + 1, eager := false } with
      | (s, next) => settleRenders fuel next s

/-- Mount with the prop `title`: the first render, its effects, and the renders
that follow. -/
def mount (fuel : Nat) (title : String) : Option EditableTitle :=
  match effectPass { title := title, value := title, deps := none, renders := 1, eager := true } with
  | (s, next) => settleRenders fuel next s

/-- `onChange` of the text box, line 10: `setValue(e.target.value)`, and the
renders that follow. -/
def change (fuel : Nat) (value : String) (s : EditableTitle) : Option EditableTitle :=
  match setValue value s with
  | (s, next) => settleRenders fuel next s

end Problem4

/-! ## `src/public/ServersidePagination.tsx`: all pages of a query -/

namespace ServersidePagination

/-- The items `searchApi` resolves with for `page`, when it does not fail. -/
def pageItems (toLowerCase : String → String) (query : String) (page : Nat) : List Item :=
  match searchApi toLowerCase false query (page : Int) with
  | some res => res.items
  | none => []

/-- The items of the pages `1, 2, ..., totalPages` of a query, one after the other. -/
def allPages (toLowerCase : String → String) (query : String) : List Item :=
  (List.range (totalPagesOf toLowerCase query)).flatMap
    (fun i => pageItems toLowerCase query (i + 1))

end ServersidePagination

/-! ## Captured epochs of the requests under way -/

namespace StaleWhileRevalidate

/-- The calls under way were issued with increasing `requestId`s, none above the counter. -/
structure Epochs (s : UseUser) : Prop where
  increasing : (s.inFlight.map (fun r => r.requestId)).Pairwise (fun a b => a < b)
  bounded : ∀ r ∈ s.inFlight, r.requestId ≤ s.requestIdRef

end StaleWhileRevalidate

namespace ServersidePagination

/-- The calls under way were issued with increasing `requestId`s, none above the counter. -/
structure Epochs (s : App) : Prop where
  increasing : (s.inFlight.map (fun r => r.requestId)).Pairwise (fun a b => a < b)
  bounded : ∀ r ∈ s.inFlight, r.requestId ≤ s.requestIdRef

end ServersidePagination

namespace OptimisticList

/-- The `requestId`s of the attempts under way: those whose timer is armed, in
the order of arming, then those whose `fakeApi` call has not settled. -/
def epochs (s : UseOptimisticItem) : List Nat :=
  s.timers.armed.map (fun t => t.payload.requestId) ++ s.calls.map (fun a => a.requestId)

/-- The armed timers belong to attempts of increasing `requestId`, the calls
under way to attempts of pairwise different `requestId`s, and no attempt has
both a timer and a call. -/
structure Epochs (s : UseOptimisticItem) : Prop where
  timers : (s.timers.armed.map (fun t => t.payload.requestId)).Pairwise (fun a b => a < b)
  calls : (s.calls.map (fun a => a.requestId)).Nodup
  apart : ∀ t ∈ s.timers.armed, ∀ a ∈ s.calls, t.payload.requestId ≠ a.requestId

/-- One event under the gating of the markup of `Row`: the checkbox is
`disabled` while `status` is `pending` (line 93) and the Undo button is
rendered only while `undoVisible` (line 106). -/
def uiStep (s : UseOptimisticItem) : Event → UseOptimisticItem
  | .toggle => if s.status = .pending then s else step s .toggle
  | .undo => if s.undoVisible then step s .undo else s
  | ev => step s ev

/-- The confirmed value after an event in state `s`, `confirmed` being the one
before: a success whose guard holds accepts the item displayed. -/
def confirmedStep (confirmed : Item) (s : UseOptimisticItem) : Event → Item
  | .settle a false =>
      if a ∈ s.calls ∧ s.mounted = true ∧ a.requestId = s.requestIdRef then s.item
      else confirmed
  | _ => confirmed

/-- A run under the gating of the markup, together with the confirmed value. -/
def uiRun (start : UseOptimisticItem × Item) (evs : List Event) : UseOptimisticItem × Item :=
  evs.foldl (fun sc ev => (uiStep sc.1 ev, confirmedStep sc.2 sc.1 ev)) start

/-- What the displayed item is in terms of the confirmed value `c`, and what
the attempt of the current epoch, if under way, closed over. -/
structure Confirmed (c : Item) (s : UseOptimisticItem) : Prop where
  settled : s.status ≠ .pending → s.item = c
  proposed : s.status = .pending → s.item = { c with completed := !c.completed }
  timers : ∀ t ∈ s.timers.armed, t.payload.requestId = s.requestIdRef →
    t.payload.item = c ∧ s.status = .pending
  calls : ∀ a ∈ s.calls, a.requestId = s.requestIdRef → a.item = c ∧ s.status = .pending
  undo : s.undoVisible = true → s.status = .pending

end OptimisticList

/-! ## Theorems: the request counter as a guard -/

namespace StaleWhileRevalidate

theorem useUser_step_requestIdRef_le (s : UseUser) (ev : Event) :
    s.requestIdRef ≤ (step s ev).requestIdRef := by
  cases ev with
  | render userId =>
      simp only [step, effect]
      split
      · exact Nat.le_refl _
      · cases s.localStorage userId <;> simp
  | refresh => simp [step, refresh]
  | settle r shouldFail =>
      simp only [step, complete, onFulfilled, onRejected]
      repeat' split
      all_goals simp

theorem useUser_run_requestIdRef_le (evs : List Event) (s : UseUser) :
    s.requestIdRef ≤ (run s evs).requestIdRef := by
  induction evs generalizing s with
  | nil => exact Nat.le_refl _
  | cons ev evs ih =>
      exact Nat.le_trans (useUser_step_requestIdRef_le s ev) (ih (step s ev))

theorem useUser_complete_of_ne (r : Request) (res : Except String User) (s : UseUser)
    (h : r.requestId ≠ s.requestIdRef) : complete r res s = s := by
  cases res <;> simp [complete, onFulfilled, onRejected, h]

end StaleWhileRevalidate

namespace ServersidePagination

theorem app_commitQueryPage_requestIdRef_le (query : String) (page : Int) (s : App) :
    s.requestIdRef ≤ (commitQueryPage query page s).requestIdRef := by
  simp only [commitQueryPage, searchEffect]
  split <;> simp

theorem app_step_requestIdRef_le (s : App) (ev : Event) :
    s.requestIdRef ≤ (step s ev).requestIdRef := by
  cases ev with
  | type value =>
      simp only [step, setInput, debounceEffect, debounceCleanup, Browser.Timers.setTimeout]
      repeat' split
      all_goals simp
  | clickPrev =>
      simp only [step, clickPrev]
      repeat' split
      all_goals first
        | exact Nat.le_refl _
        | exact app_commitQueryPage_requestIdRef_le _ _ _
  | clickNext =>
      simp only [step, clickNext]
      repeat' split
      all_goals first
        | exact Nat.le_refl _
        | exact app_commitQueryPage_requestIdRef_le _ _ _
  | advance dt => simp [step]
  | fire id =>
      simp only [step, fire, debounceCallback]
      repeat' split
      all_goals first
        | exact Nat.le_refl _
        | (refine Nat.le_trans ?_ (app_commitQueryPage_requestIdRef_le _ _ _)
           exact Nat.le_refl _)
  | settle r res =>
      simp only [step, complete, onFulfilled, onRejected]
      repeat' split
      all_goals simp
  | unmount =>
      simp only [step, unmount, debounceCleanup]
      split <;> simp

theorem app_run_requestIdRef_le (evs : List Event) (s : App) :
    s.requestIdRef ≤ (run s evs).requestIdRef := by
  induction evs generalizing s with
  | nil => exact Nat.le_refl _
  | cons ev evs ih =>
      exact Nat.le_trans (app_step_requestIdRef_le s ev) (ih (step s ev))

theorem app_complete_of_ne (r : Request) (res : Option SearchResult) (s : App)
    (h : r.requestId ≠ s.requestIdRef) : complete r res s = s := by
  cases res <;> simp [complete, onFulfilled, onRejected, h]

end ServersidePagination

/-- C1: a request of epoch `E1` whose completion is delivered after a request
of a later epoch `E2` of the same counter has been issued changes nothing.
`s` is the state in which `E2` has just been issued, `evs` is whatever happens
afterwards (renders, refreshes, clicks, timers, other completions, among them
that of `E2`), and the handlers of the `E1` request, run on the state reached,
return it as it is: in `useUser` (so `user`, `status` and `localStorage` keep
their values) and in the pagination `App` (so do `items`, `totalPages` and
`status`), for success and for failure. -/
theorem stale_completion_changes_nothing (E1 E2 : Nat) (h : E1 < E2) :
    (∀ (s : StaleWhileRevalidate.UseUser) (evs : List StaleWhileRevalidate.Event)
        (r : StaleWhileRevalidate.Request) (res : Except String StaleWhileRevalidate.User),
        s.requestIdRef = E2 → r.requestId = E1 →
        StaleWhileRevalidate.complete r res (StaleWhileRevalidate.run s evs)
          = StaleWhileRevalidate.run s evs) ∧
    (∀ (s : ServersidePagination.App) (evs : List ServersidePagination.Event)
        (r : ServersidePagination.Request) (res : Option ServersidePagination.SearchResult),
        s.requestIdRef = E2 → r.requestId = E1 →
        ServersidePagination.complete r res (ServersidePagination.run s evs)
          = ServersidePagination.run s evs) := by
  constructor
  · intro s evs r res hs hr
    apply StaleWhileRevalidate.useUser_complete_of_ne
    have := StaleWhileRevalidate.useUser_run_requestIdRef_le evs s
    omega
  · intro s evs r res hs hr
    apply ServersidePagination.app_complete_of_ne
    have := ServersidePagination.app_run_requestIdRef_le evs s
    omega

theorem stale_completion_changes_nothing_witness :
    1 < 2 ∧
    StaleWhileRevalidate.complete { requestId := 1, userId := "01" }
        (StaleWhileRevalidate.fetchUser false "01")
        (StaleWhileRevalidate.run
          (StaleWhileRevalidate.step (StaleWhileRevalidate.mount "01" (fun _ => none)) (.render "02"))
          [.settle { requestId := 2, userId := "02" } false])
      = StaleWhileRevalidate.run
          (StaleWhileRevalidate.step (StaleWhileRevalidate.mount "01" (fun _ => none)) (.render "02"))
          [.settle { requestId := 2, userId := "02" } false] ∧
    ServersidePagination.complete { requestId := 1, query := "", page := 1 }
        (some { items := [{ id := "i-01", name := "Michael Anderson" }], totalPages := 3 })
        (ServersidePagination.run
          (ServersidePagination.run (ServersidePagination.mount 0) [.type "bat", .advance 300, .fire 2])
          [.settle { requestId := 2, query := "bat", page := 1 } (some { items := [], totalPages := 1 })])
      = ServersidePagination.run
          (ServersidePagination.run (ServersidePagination.mount 0) [.type "bat", .advance 300, .fire 2])
          [.settle { requestId := 2, query := "bat", page := 1 } (some { items := [], totalPages := 1 })] :=
  ⟨by decide,
   (stale_completion_changes_nothing 1 2 (by decide)).1 _ _ _ _ (by decide) rfl,
   (stale_completion_changes_nothing 1 2 (by decide)).2 _ _ _ _ (by decide) rfl⟩

/-! ## Theorems: `useUser` -/

/-- C4: completion of the current request in `useUser`.  When the `requestId`
captured by a call equals `requestIdRef.current` at completion, a success with
`fetched` sets `user` to `fetched` and `status` to `idle` and stores `fetched`
under the key `userId` of the call; a failure sets `status` to `error` and
leaves `user` and the whole storage as they were. -/
theorem current_completion_commits (s : StaleWhileRevalidate.UseUser)
    (r : StaleWhileRevalidate.Request) (h : r.requestId = s.requestIdRef) :
    (∀ fetched : StaleWhileRevalidate.User,
        (StaleWhileRevalidate.complete r (.ok fetched) s).user = some fetched ∧
        (StaleWhileRevalidate.complete r (.ok fetched) s).status = .idle ∧
        (StaleWhileRevalidate.complete r (.ok fetched) s).localStorage r.userId = some fetched) ∧
    (∀ e : String,
        (StaleWhileRevalidate.complete r (.error e) s).status = .error ∧
        (StaleWhileRevalidate.complete r (.error e) s).user = s.user ∧
        (StaleWhileRevalidate.complete r (.error e) s).localStorage = s.localStorage) := by
  constructor
  · intro fetched
    simp [StaleWhileRevalidate.complete, StaleWhileRevalidate.onFulfilled, h,
      StaleWhileRevalidate.Storage.setItem]
  · intro e
    simp [StaleWhileRevalidate.complete, StaleWhileRevalidate.onRejected, h]

theorem current_completion_commits_witness :
    (∀ fetched : StaleWhileRevalidate.User,
        (StaleWhileRevalidate.complete { requestId := 1, userId := "01" } (.ok fetched)
          (StaleWhileRevalidate.mount "01" (fun _ => none))).user = some fetched ∧
        (StaleWhileRevalidate.complete { requestId := 1, userId := "01" } (.ok fetched)
          (StaleWhileRevalidate.mount "01" (fun _ => none))).status = .idle ∧
        (StaleWhileRevalidate.complete { requestId := 1, userId := "01" } (.ok fetched)
          (StaleWhileRevalidate.mount "01" (fun _ => none))).localStorage "01" = some fetched) ∧
    (∀ e : String,
        (StaleWhileRevalidate.complete { requestId := 1, userId := "01" } (.error e)
          (StaleWhileRevalidate.mount "01" (fun _ => none))).status = .error ∧
        (StaleWhileRevalidate.complete { requestId := 1, userId := "01" } (.error e)
          (StaleWhileRevalidate.mount "01" (fun _ => none))).user = none ∧
        (StaleWhileRevalidate.complete { requestId := 1, userId := "01" } (.error e)
          (StaleWhileRevalidate.mount "01" (fun _ => none))).localStorage = fun _ => none) :=
  current_completion_commits (StaleWhileRevalidate.mount "01" (fun _ => none))
    { requestId := 1, userId := "01" } rfl

/-- C5, as the code has it: what the effect of a `userId` change looks at is the
storage entry of the new `userId`, not the `user` cell.  With an entry cached
under the new `userId`, `user` becomes that entry and `status` becomes
`refreshing`; without one, `status` becomes `loading` and `user` is left as it
was.  So right after the effect `status` is `refreshing` exactly when the new
`userId` has a cached entry, and it is `loading` otherwise. -/
theorem effect_status_follows_cache (s : StaleWhileRevalidate.UseUser) (userId : String) :
    (∀ c, s.localStorage userId = some c →
        (StaleWhileRevalidate.effect userId s).user = some c ∧
        (StaleWhileRevalidate.effect userId s).status = .refreshing) ∧
    (s.localStorage userId = none →
        (StaleWhileRevalidate.effect userId s).status = .loading ∧
        (StaleWhileRevalidate.effect userId s).user = s.user) ∧
    ((StaleWhileRevalidate.effect userId s).status = .refreshing ↔
        (s.localStorage userId).isSome = true) ∧
    ((StaleWhileRevalidate.effect userId s).status = .loading ↔
        s.localStorage userId = none) := by
  cases hc : s.localStorage userId <;> simp [StaleWhileRevalidate.effect, hc]

/-- C5 fails as stated, both ways.  Card "01" is mounted with an empty storage
and its fetch succeeds, so `user` holds Stephan; the card is then rendered with
"02", which is not cached: `status` is `loading`, not `refreshing`, although
`user` was non-null, and `user` is still Stephan, not null.  And a card mounted
on a storage that has "01" cached starts from `user = null` and is
`refreshing`, not `loading`. -/
theorem effect_status_ignores_user :
    (StaleWhileRevalidate.run (StaleWhileRevalidate.mount "01" (fun _ => none))
        [.settle { requestId := 1, userId := "01" } false]).user ≠ none ∧
    (StaleWhileRevalidate.run (StaleWhileRevalidate.mount "01" (fun _ => none))
        [.settle { requestId := 1, userId := "01" } false, .render "02"]).status = .loading ∧
    (StaleWhileRevalidate.run (StaleWhileRevalidate.mount "01" (fun _ => none))
        [.settle { requestId := 1, userId := "01" } false, .render "02"]).user ≠ none ∧
    (StaleWhileRevalidate.UseUser.initial "01"
        (fun k => if k = "01" then StaleWhileRevalidate.users.head? else none)).user = none ∧
    (StaleWhileRevalidate.mount "01"
        (fun k => if k = "01" then StaleWhileRevalidate.users.head? else none)).status
      = .refreshing := by
  decide

/-- C6: `refresh()` in any state sets `status` to `refreshing` (also when `user`
is null), adds one to `requestIdRef`, leaves `user` and the storage alone, and
issues one `fetchUser` call, for the `userId` of the render, whose handlers
captured the new counter value: they act when the counter still has that value
and return the state as it is when it has any other. -/
theorem refresh_spec (s : StaleWhileRevalidate.UseUser) :
    (StaleWhileRevalidate.refresh s).status = .refreshing ∧
    (StaleWhileRevalidate.refresh s).requestIdRef = s.requestIdRef + 1 ∧
    (StaleWhileRevalidate.refresh s).user = s.user ∧
    (StaleWhileRevalidate.refresh s).localStorage = s.localStorage ∧
    (StaleWhileRevalidate.refresh s).inFlight
      = s.inFlight ++ [{ requestId := (StaleWhileRevalidate.refresh s).requestIdRef,
                         userId := s.userId }] ∧
    (∀ (t : StaleWhileRevalidate.UseUser) (res : Except String StaleWhileRevalidate.User),
        t.requestIdRef ≠ s.requestIdRef + 1 →
        StaleWhileRevalidate.complete { requestId := s.requestIdRef + 1, userId := s.userId } res t
          = t) ∧
    (∀ (t : StaleWhileRevalidate.UseUser) (fetched : StaleWhileRevalidate.User),
        t.requestIdRef = s.requestIdRef + 1 →
        (StaleWhileRevalidate.complete { requestId := s.requestIdRef + 1, userId := s.userId }
          (.ok fetched) t).user = some fetched) := by
  refine ⟨rfl, rfl, rfl, rfl, rfl, ?_, ?_⟩
  · intro t res ht
    exact StaleWhileRevalidate.useUser_complete_of_ne _ _ _ (fun h => ht h.symm)
  · intro t fetched ht
    simp [StaleWhileRevalidate.complete, StaleWhileRevalidate.onFulfilled, ht]

/-! ## Theorems: the movie search hook -/

namespace MovieExplorer

theorem runCleanup_movieList (s : UseFetchMovieData) :
    (runCleanup s).movieList = s.movieList ∧ (runCleanup s).isLoading = s.isLoading ∧
    (runCleanup s).controllers = s.controllers ∧
    (runCleanup s).fetches.map (fun f => (f.controller, f.query))
      = s.fetches.map (fun f => (f.controller, f.query)) := by
  unfold runCleanup
  cases s.cleanup with
  | none => simp
  | some c =>
      refine ⟨rfl, rfl, rfl, ?_⟩
      simp only [List.map_map]
      apply List.map_congr_left
      intro f _
      simp only [Function.comp]
      split <;> rfl

theorem settle_error_movieList (c : Nat) (name : String) (s : UseFetchMovieData) :
    (settle c (.error name) s).movieList = s.movieList := by
  unfold settle
  split <;> simp [complete, onRejected]

end MovieExplorer

/-- C2, as the code has it: `useFetchMovieData` has no epoch check, and what
keeps a superseded result out of `movieList` is the cancellation.  For queries
`q1` then `q2` of length >= 3, the render with `q2` calls `abort()` on the
controller of the fetch for `q1` and starts the fetch for `q2`; and whenever the
fetch for `q1` then rejects, as it does with `AbortError` on a transport that
honours the signal, `movieList` keeps the value it had, whatever happened in
between. -/
theorem aborted_rejection_keeps_movieList (s : MovieExplorer.UseFetchMovieData)
    (q1 q2 : String) (h1 : 3 ≤ JS.length q1) (h2 : 3 ≤ JS.length q2)
    (hq1 : q1 ≠ s.query) (hq2 : q2 ≠ q1) :
    { controller := s.controllers + 1, query := q1, aborted := true }
        ∈ (MovieExplorer.render q2 (MovieExplorer.render q1 s)).fetches ∧
    { controller := s.controllers + 2, query := q2, aborted := false }
        ∈ (MovieExplorer.render q2 (MovieExplorer.render q1 s)).fetches ∧
    ∀ (evs : List MovieExplorer.HookEvent) (name : String),
      (MovieExplorer.settle (s.controllers + 1) (.error name)
          (MovieExplorer.hookRun (MovieExplorer.render q2 (MovieExplorer.render q1 s)) evs)).movieList
        = (MovieExplorer.hookRun (MovieExplorer.render q2 (MovieExplorer.render q1 s)) evs).movieList := by
  have e1 : MovieExplorer.render q1 s
      = { MovieExplorer.runCleanup s with
            query := q1, controllers := s.controllers + 1, isLoading := true,
            fetches := (MovieExplorer.runCleanup s).fetches
              ++ [{ controller := s.controllers + 1, query := q1, aborted := false }],
            cleanup := some (s.controllers + 1) } := by
    have hlt : ¬ JS.length q1 < 3 := by omega
    simp [MovieExplorer.render, hq1, MovieExplorer.effect, hlt,
      (MovieExplorer.runCleanup_movieList s).2.2.1]
  have hlt2 : ¬ JS.length q2 < 3 := by omega
  refine ⟨?_, ?_, ?_⟩
  · rw [e1]
    simp [MovieExplorer.render, hq2, MovieExplorer.effect, hlt2, MovieExplorer.runCleanup]
  · rw [e1]
    simp [MovieExplorer.render, hq2, MovieExplorer.effect, hlt2, MovieExplorer.runCleanup]
  · intro evs name
    exact MovieExplorer.settle_error_movieList _ _ _

theorem aborted_rejection_keeps_movieList_witness :
    { controller := 1, query := "bat", aborted := true }
        ∈ (MovieExplorer.render "batm" (MovieExplorer.render "bat"
            (MovieExplorer.UseFetchMovieData.mount ""))).fetches ∧
    { controller := 2, query := "batm", aborted := false }
        ∈ (MovieExplorer.render "batm" (MovieExplorer.render "bat"
            (MovieExplorer.UseFetchMovieData.mount ""))).fetches ∧
    ∀ (evs : List MovieExplorer.HookEvent) (name : String),
      (MovieExplorer.settle 1 (.error name)
          (MovieExplorer.hookRun (MovieExplorer.render "batm" (MovieExplorer.render "bat"
            (MovieExplorer.UseFetchMovieData.mount ""))) evs)).movieList
        = (MovieExplorer.hookRun (MovieExplorer.render "batm" (MovieExplorer.render "bat"
            (MovieExplorer.UseFetchMovieData.mount ""))) evs).movieList :=
  aborted_rejection_keeps_movieList (MovieExplorer.UseFetchMovieData.mount "") "bat" "batm"
    (by decide) (by decide) (by decide) (by decide)

/-- C2 fails as stated.  The hook is rendered with "bat" and then "batm"; the
fetch for "batm" resolves with one record and its movie is committed; the fetch
for "bat", on which `abort()` was called, resolves all the same with another
record: `movieList` now holds the movie of "bat", and that of "batm" is gone. -/
theorem superseded_result_overwrites :
    { controller := 1, query := "bat", aborted := true }
        ∈ (MovieExplorer.hookRun (MovieExplorer.UseFetchMovieData.mount "bat")
            [.render "batm",
             .settle 2 (.ok [{ imdbId := some "tt0372784", title := some "Batman Begins",
                               year := some "2005", poster := some "begins.jpg" }])]).fetches ∧
    (MovieExplorer.hookRun (MovieExplorer.UseFetchMovieData.mount "bat")
        [.render "batm",
         .settle 2 (.ok [{ imdbId := some "tt0372784", title := some "Batman Begins",
                           year := some "2005", poster := some "begins.jpg" }])]).movieList
      = [{ imdbId := "tt0372784", title := "Batman Begins", year := "2005",
           poster := "begins.jpg" }] ∧
    (MovieExplorer.hookRun (MovieExplorer.UseFetchMovieData.mount "bat")
        [.render "batm",
         .settle 2 (.ok [{ imdbId := some "tt0372784", title := some "Batman Begins",
                           year := some "2005", poster := some "begins.jpg" }]),
         .settle 1 (.ok [{ imdbId := some "tt0106364", title := some "Bat Out of Hell",
                           year := some "1993", poster := some "bat.jpg" }])]).movieList
      = [{ imdbId := "tt0106364", title := "Bat Out of Hell", year := "1993",
           poster := "bat.jpg" }] := by
  decide

/-- C3, the code at the failing input.  The hook is rendered with "bat" and then
"batm", which aborts the first fetch and starts the second with `isLoading`
true; the first fetch rejects with `AbortError`.  `movieList` is untouched, but
the `catch` block has set `isLoading` to false while the fetch for "batm" is
still in flight. -/
theorem abort_error_resets_isLoading :
    (MovieExplorer.hookRun (MovieExplorer.UseFetchMovieData.mount "bat")
        [.render "batm"]).isLoading = true ∧
    (MovieExplorer.hookRun (MovieExplorer.UseFetchMovieData.mount "bat")
        [.render "batm", .settle 1 (.error "AbortError")]).isLoading = false ∧
    (MovieExplorer.hookRun (MovieExplorer.UseFetchMovieData.mount "bat")
        [.render "batm", .settle 1 (.error "AbortError")]).fetches
      = [{ controller := 2, query := "batm", aborted := false }] ∧
    (MovieExplorer.hookRun (MovieExplorer.UseFetchMovieData.mount "bat")
        [.render "batm", .settle 1 (.error "AbortError")]).movieList
      = (MovieExplorer.hookRun (MovieExplorer.UseFetchMovieData.mount "bat")
        [.render "batm"]).movieList := by
  decide

/-- C7: a render of `useFetchMovieData` with a query of fewer than 3 UTF-16 code
units creates no controller and starts no fetch (the fetches under way are the
ones there were), and leaves `movieList` and `isLoading` as they were; mounted
on such a query the hook has no fetch and an empty `movieList`. -/
theorem short_query_issues_nothing (s : MovieExplorer.UseFetchMovieData) (query : String)
    (h : JS.length query < 3) :
    (MovieExplorer.render query s).movieList = s.movieList ∧
    (MovieExplorer.render query s).isLoading = s.isLoading ∧
    (MovieExplorer.render query s).controllers = s.controllers ∧
    (MovieExplorer.render query s).fetches.map (fun f => (f.controller, f.query))
      = s.fetches.map (fun f => (f.controller, f.query)) ∧
    (MovieExplorer.UseFetchMovieData.mount query).fetches = [] ∧
    (MovieExplorer.UseFetchMovieData.mount query).movieList = [] := by
  have hc := MovieExplorer.runCleanup_movieList s
  refine ⟨?_, ?_, ?_, ?_, ?_, ?_⟩
  · unfold MovieExplorer.render
    split
    · rfl
    · simp [MovieExplorer.effect, h, hc.1]
  · unfold MovieExplorer.render
    split
    · rfl
    · simp [MovieExplorer.effect, h, hc.2.1]
  · unfold MovieExplorer.render
    split
    · rfl
    · simp [MovieExplorer.effect, h, hc.2.2.1]
  · unfold MovieExplorer.render
    split
    · rfl
    · simp only [MovieExplorer.effect, h, if_true]
      exact hc.2.2.2
  · simp [MovieExplorer.UseFetchMovieData.mount, MovieExplorer.effect, h]
  · simp [MovieExplorer.UseFetchMovieData.mount, MovieExplorer.effect, h]

theorem short_query_issues_nothing_witness :
    JS.length "ba" < 3 ∧
    (MovieExplorer.render "ba" (MovieExplorer.UseFetchMovieData.mount "bat")).movieList = [] ∧
    (MovieExplorer.render "ba" (MovieExplorer.UseFetchMovieData.mount "bat")).controllers = 1 ∧
    (MovieExplorer.render "ba" (MovieExplorer.UseFetchMovieData.mount "bat")).fetches.map
        (fun f => (f.controller, f.query)) = [(1, "bat")] :=
  ⟨by decide,
   (short_query_issues_nothing (MovieExplorer.UseFetchMovieData.mount "bat") "ba" (by decide)).1,
   (short_query_issues_nothing (MovieExplorer.UseFetchMovieData.mount "bat") "ba"
      (by decide)).2.2.1,
   (short_query_issues_nothing (MovieExplorer.UseFetchMovieData.mount "bat") "ba"
      (by decide)).2.2.2.1⟩

/-! ## Theorems: the debounce effect -/

namespace Browser

theorem settled_nil (f : String → String) (delay : Nat) : Settled f delay [] := by
  intro newer t v older h
  cases newer <;> simp at h

theorem settled_cons_set {f : String → String} {delay : Nat} {h : List Debounce}
    (hs : Settled f delay h) (t0 : Nat) (raw : String) :
    Settled f delay (Debounce.set t0 raw :: h) := by
  intro newer t v older heq
  cases newer with
  | nil => simp at heq
  | cons e newer =>
      simp only [List.cons_append, List.cons.injEq] at heq
      exact hs newer t v older heq.2

theorem settled_cons_commit {f : String → String} {delay : Nat} {rest : List Debounce}
    {t0 : Nat} {raw : String} (hs : Settled f delay (Debounce.set t0 raw :: rest))
    (t : Nat) (ht : t0 + delay ≤ t) :
    Settled f delay (Debounce.commit t (f raw) :: Debounce.set t0 raw :: rest) := by
  intro newer t' v older heq
  cases newer with
  | nil =>
      simp only [List.nil_append, List.cons.injEq, Debounce.commit.injEq] at heq
      obtain ⟨⟨rfl, rfl⟩, rfl⟩ := heq
      exact ⟨t0, raw, rest, rfl, rfl, ht⟩
  | cons e newer =>
      simp only [List.cons_append, List.cons.injEq] at heq
      exact hs newer t' v older heq.2

theorem chronological_cons {now : Nat} {h : List Debounce} (hc : Chronological now h)
    (e : Debounce) (he : e.time = now) : Chronological now (e :: h) := by
  refine ⟨List.pairwise_cons.mpr ⟨fun a ha => ?_, hc.1⟩, fun a ha => ?_⟩
  · rw [he]; exact hc.2 a ha
  · rcases List.mem_cons.mp ha with rfl | ha
    · exact Nat.le_of_eq he
    · exact hc.2 a ha

theorem chronological_mono {now now' : Nat} {h : List Debounce} (hc : Chronological now h)
    (hle : now ≤ now') : Chronological now' h :=
  ⟨hc.1, fun e he => Nat.le_trans (hc.2 e he) hle⟩

end Browser

namespace ServersidePagination

theorem app_inv_congr {s t : App} (hs : DebounceInv s) (h1 : t.timers = s.timers)
    (h2 : t.mounted = s.mounted) (h3 : t.cleanupTimer = s.cleanupTimer) (h4 : t.input = s.input)
    (h5 : t.history = s.history) (h6 : t.now = s.now) : DebounceInv t := by
  constructor
  · rw [h1, h2, h3, h4, h5]; exact hs.armed
  · rw [h5]; exact hs.settled
  · rw [h5, h6]; exact hs.chron
  · rw [h5, h4]; exact hs.current

theorem app_commitQueryPage_frame (query : String) (page : Int) (s : App) :
    (commitQueryPage query page s).timers = s.timers ∧
    (commitQueryPage query page s).mounted = s.mounted ∧
    (commitQueryPage query page s).cleanupTimer = s.cleanupTimer ∧
    (commitQueryPage query page s).input = s.input ∧
    (commitQueryPage query page s).history = s.history ∧
    (commitQueryPage query page s).now = s.now := by
  unfold commitQueryPage searchEffect
  split <;> simp

theorem app_complete_frame (r : Request) (res : Option SearchResult) (s : App) :
    (complete r res s).timers = s.timers ∧
    (complete r res s).mounted = s.mounted ∧
    (complete r res s).cleanupTimer = s.cleanupTimer ∧
    (complete r res s).input = s.input ∧
    (complete r res s).history = s.history ∧
    (complete r res s).now = s.now ∧
    (complete r res s).query = s.query := by
  cases res <;> simp only [complete, onFulfilled, onRejected] <;> split <;> simp

theorem app_inv_commitQueryPage {s : App} (hs : DebounceInv s) (query : String)
    (page : Int) : DebounceInv (commitQueryPage query page s) := by
  obtain ⟨h1, h2, h3, h4, h5, h6⟩ := app_commitQueryPage_frame query page s
  exact app_inv_congr hs h1 h2 h3 h4 h5 h6

theorem app_cleared_of_inv {s : App} (hs : DebounceInv s) :
    (s.timers.clearTimeout s.cleanupTimer).armed = [] := by
  rcases hs.armed with h | ⟨_, t0, rest, h, _⟩
  · simp [Browser.Timers.clearTimeout, h]
  · simp [Browser.Timers.clearTimeout, h]

theorem app_setInput_armed {s : App} (hs : DebounceInv s) (value : String) (hv : value ≠ s.input) :
    (setInput value s).timers.armed
      = [{ id := s.timers.nextId, deadline := s.now + 300, payload := value }] ∧
    (setInput value s).cleanupTimer = s.timers.nextId ∧
    (setInput value s).history = Browser.Debounce.set s.now value :: s.history ∧
    (setInput value s).input = value ∧ (setInput value s).mounted = s.mounted ∧
    (setInput value s).now = s.now := by
  have hc := app_cleared_of_inv hs
  simp only [Browser.Timers.clearTimeout] at hc
  simp [setInput, hv, debounceEffect, debounceCleanup, Browser.Timers.setTimeout,
    Browser.Timers.clearTimeout, hc]

theorem app_inv_setInput {s : App} (hs : DebounceInv s) (hm : s.mounted = true)
    (value : String) : DebounceInv (setInput value s) := by
  by_cases hv : value = s.input
  · simpa [ServersidePagination.setInput, hv] using hs
  · obtain ⟨h1, h2, h3, h4, h5, h6⟩ := app_setInput_armed hs value hv
    constructor
    · right
      refine ⟨by rw [h5]; exact hm, s.now, s.history, ?_, ?_⟩
      · rw [h1, h2, h4]
      · rw [h3, h4]
    · rw [h3]; exact Browser.settled_cons_set hs.settled _ _
    · rw [h3, h6]; exact Browser.chronological_cons hs.chron _ rfl
    · rw [h3, h4]; rfl

theorem app_inv_fire {s : App} (hs : DebounceInv s) (id : Nat) : DebounceInv (fire id s) := by
  unfold ServersidePagination.fire
  split
  · rename_i t hdue
    have hfound := List.find?_some hdue
    have hmem := List.mem_of_find?_eq_some hdue
    rcases hs.armed with h | ⟨hm, t0, rest, h, hh⟩
    · rw [h] at hmem; simp at hmem
    · rw [h] at hmem
      simp only [List.mem_singleton] at hmem
      subst hmem
      simp only [Bool.and_eq_true, beq_iff_eq, decide_eq_true_eq] at hfound
      obtain ⟨hid, hdl⟩ := hfound
      simp only [hm, if_true]
      unfold debounceCallback
      apply app_inv_commitQueryPage
      constructor
      · left
        simp [Browser.Timers.clearTimeout, h, hid]
      · show Browser.Settled JS.trim 300 (Browser.Debounce.commit s.now (JS.trim s.input) :: s.history)
        rw [hh]
        exact Browser.settled_cons_commit (hh ▸ hs.settled) s.now hdl
      · exact Browser.chronological_cons hs.chron _ rfl
      · show Browser.lastSet (Browser.Debounce.commit s.now (JS.trim s.input) :: s.history) = _
        exact hs.current
  · exact hs

theorem app_inv_step {s : App} (hs : DebounceInv s) (ev : Event) :
    DebounceInv (step s ev) := by
  cases ev with
  | type value =>
      simp only [ServersidePagination.step]
      split
      · rename_i hm; exact app_inv_setInput hs hm value
      · exact hs
  | clickPrev =>
      simp only [ServersidePagination.step, ServersidePagination.clickPrev]
      repeat' split
      all_goals first | exact hs | exact app_inv_commitQueryPage hs _ _
  | clickNext =>
      simp only [ServersidePagination.step, ServersidePagination.clickNext]
      repeat' split
      all_goals first | exact hs | exact app_inv_commitQueryPage hs _ _
  | advance dt =>
      exact ⟨hs.armed, hs.settled, Browser.chronological_mono hs.chron (Nat.le_add_right _ _), hs.current⟩
  | fire id => exact app_inv_fire hs id
  | settle r res =>
      simp only [ServersidePagination.step]
      split
      · obtain ⟨h1, h2, h3, h4, h5, h6, _⟩ :=
          app_complete_frame r res { s with inFlight := s.inFlight.erase r }
        exact app_inv_congr hs h1 h2 h3 h4 h5 h6
      · exact hs
  | unmount =>
      simp only [ServersidePagination.step]
      split
      · exact ⟨Or.inl (app_cleared_of_inv hs), hs.settled, hs.chron, hs.current⟩
      · exact hs

theorem app_inv_mount (now : Nat) : DebounceInv (mount now) := by
  constructor
  · right
    exact ⟨rfl, now, [], rfl, rfl⟩
  · exact Browser.settled_cons_set (Browser.settled_nil _ _) _ _
  · exact Browser.chronological_cons ⟨List.Pairwise.nil, by simp⟩ _ rfl
  · rfl

theorem app_inv_run (evs : List Event) {s : App} (hs : DebounceInv s) :
    DebounceInv (run s evs) := by
  induction evs generalizing s with
  | nil => exact hs
  | cons ev evs ih => exact ih (app_inv_step hs ev)

end ServersidePagination

namespace ServersidePagination

theorem app_step_unmounted {s : App} (hm : s.mounted = false) (ha : s.timers.armed = [])
    (ev : Event) :
    (step s ev).mounted = false ∧ (step s ev).timers.armed = [] ∧
    (step s ev).query = s.query ∧ (step s ev).page = s.page ∧
    (step s ev).history = s.history := by
  cases ev <;> simp [step, hm, ha, fire, Browser.Timers.due]

theorem app_run_unmounted (evs : List Event) {s : App} (hm : s.mounted = false)
    (ha : s.timers.armed = []) :
    (run s evs).timers.armed = [] ∧ (run s evs).query = s.query ∧
    (run s evs).page = s.page ∧ (run s evs).history = s.history := by
  induction evs generalizing s with
  | nil => exact ⟨ha, rfl, rfl, rfl⟩
  | cons ev evs ih =>
      obtain ⟨h1, h2, h3, h4, h5⟩ := app_step_unmounted hm ha ev
      obtain ⟨i1, i2, i3, i4⟩ := ih h1 h2
      exact ⟨i1, i2.trans h3, i3.trans h4, i4.trans h5⟩

end ServersidePagination

namespace MovieExplorer

theorem movie_cleared_of_inv {s : MovieList} (hs : DebounceInv s) :
    (s.timers.clearTimeout s.cleanupTimer).armed = [] := by
  rcases hs.armed with h | ⟨_, t0, rest, h, _⟩
  · simp [Browser.Timers.clearTimeout, h]
  · simp [Browser.Timers.clearTimeout, h]

theorem movie_handleSearch_armed {s : MovieList} (hs : DebounceInv s) (value : String)
    (hv : JS.trim value ≠ s.search) :
    (handleSearch value s).timers.armed
      = [{ id := s.timers.nextId, deadline := s.now + 300, payload := JS.trim value }] ∧
    (handleSearch value s).cleanupTimer = s.timers.nextId ∧
    (handleSearch value s).history = Browser.Debounce.set s.now (JS.trim value) :: s.history ∧
    (handleSearch value s).search = JS.trim value ∧ (handleSearch value s).mounted = s.mounted ∧
    (handleSearch value s).now = s.now := by
  have hc := movie_cleared_of_inv hs
  simp only [Browser.Timers.clearTimeout] at hc
  simp [handleSearch, hv, debounceEffect, debounceCleanup, Browser.Timers.setTimeout,
    Browser.Timers.clearTimeout, hc]

theorem movie_inv_handleSearch {s : MovieList} (hs : DebounceInv s) (hm : s.mounted = true)
    (value : String) : DebounceInv (handleSearch value s) := by
  by_cases hv : JS.trim value = s.search
  · simpa [MovieExplorer.handleSearch, hv] using hs
  · obtain ⟨h1, h2, h3, h4, h5, h6⟩ := movie_handleSearch_armed hs value hv
    constructor
    · right
      refine ⟨by rw [h5]; exact hm, s.now, s.history, ?_, ?_⟩
      · rw [h1, h2, h4]
      · rw [h3, h4]
    · rw [h3]; exact Browser.settled_cons_set hs.settled _ _
    · rw [h3, h6]; exact Browser.chronological_cons hs.chron _ rfl
    · rw [h3, h4]; rfl

theorem movie_inv_fire {s : MovieList} (hs : DebounceInv s) (timer : Nat) :
    DebounceInv (fire timer s) := by
  unfold MovieExplorer.fire
  split
  · rename_i t hdue
    have hfound := List.find?_some hdue
    have hmem := List.mem_of_find?_eq_some hdue
    rcases hs.armed with h | ⟨hm, t0, rest, h, hh⟩
    · rw [h] at hmem; simp at hmem
    · rw [h] at hmem
      simp only [List.mem_singleton] at hmem
      subst hmem
      simp only [Bool.and_eq_true, beq_iff_eq, decide_eq_true_eq] at hfound
      obtain ⟨hid, hdl⟩ := hfound
      simp only [hm, if_true]
      unfold debounceCallback
      constructor
      · left
        simp [Browser.Timers.clearTimeout, h, hid]
      · show Browser.Settled id 300 (Browser.Debounce.commit s.now (id s.search) :: s.history)
        rw [hh]
        exact Browser.settled_cons_commit (hh ▸ hs.settled) s.now hdl
      · exact Browser.chronological_cons hs.chron _ rfl
      · show Browser.lastSet (Browser.Debounce.commit s.now s.search :: s.history) = _
        exact hs.current
  · exact hs

theorem movie_inv_step {s : MovieList} (hs : DebounceInv s) (ev : Event) :
    DebounceInv (step s ev) := by
  cases ev with
  | handleSearch value =>
      simp only [MovieExplorer.step]
      split
      · rename_i hm; exact movie_inv_handleSearch hs hm value
      · exact hs
  | advance dt =>
      exact ⟨hs.armed, hs.settled, Browser.chronological_mono hs.chron (Nat.le_add_right _ _), hs.current⟩
  | fire id => exact movie_inv_fire hs id
  | settle c o =>
      simp only [MovieExplorer.step]
      split
      · exact ⟨hs.armed, hs.settled, hs.chron, hs.current⟩
      · exact hs
  | unmount =>
      simp only [MovieExplorer.step]
      split
      · exact ⟨Or.inl (movie_cleared_of_inv hs), hs.settled, hs.chron, hs.current⟩
      · exact hs

theorem movie_inv_mount (now : Nat) : DebounceInv (mount now) := by
  constructor
  · right
    exact ⟨rfl, now, [], rfl, rfl⟩
  · exact Browser.settled_cons_set (Browser.settled_nil _ _) _ _
  · exact Browser.chronological_cons ⟨List.Pairwise.nil, by simp⟩ _ rfl
  · rfl

theorem movie_inv_run (evs : List Event) {s : MovieList} (hs : DebounceInv s) :
    DebounceInv (run s evs) := by
  induction evs generalizing s with
  | nil => exact hs
  | cons ev evs ih => exact ih (movie_inv_step hs ev)

theorem movie_step_unmounted {s : MovieList} (hm : s.mounted = false) (ha : s.timers.armed = [])
    (ev : Event) :
    (step s ev).mounted = false ∧ (step s ev).timers.armed = [] ∧
    (step s ev).debouncedSearch = s.debouncedSearch ∧
    (step s ev).history = s.history := by
  cases ev <;> simp [step, hm, ha, fire, Browser.Timers.due]

theorem movie_run_unmounted (evs : List Event) {s : MovieList} (hm : s.mounted = false)
    (ha : s.timers.armed = []) :
    (run s evs).timers.armed = [] ∧ (run s evs).debouncedSearch = s.debouncedSearch ∧
    (run s evs).history = s.history := by
  induction evs generalizing s with
  | nil => exact ⟨ha, rfl, rfl⟩
  | cons ev evs ih =>
      obtain ⟨h1, h2, h3, h4⟩ := movie_step_unmounted hm ha ev
      obtain ⟨i1, i2, i3⟩ := ih h1 h2
      exact ⟨i1, i2.trans h3, i3.trans h4⟩

end MovieExplorer

namespace ServersidePagination

theorem app_commitQueryPage_query (query : String) (page : Int) (s : App) :
    (commitQueryPage query page s).query = query := by
  unfold commitQueryPage searchEffect
  split
  · rename_i h; exact h.1.symm
  · rfl

theorem app_step_query_lastCommit {s : App}
    (hs : s.query = (Browser.lastCommit s.history).getD "") (ev : Event) :
    (step s ev).query = (Browser.lastCommit (step s ev).history).getD "" := by
  cases ev with
  | type value =>
      simp only [step, setInput, debounceEffect, debounceCleanup, Browser.Timers.setTimeout]
      repeat' split
      all_goals simpa [Browser.lastCommit] using hs
  | clickPrev =>
      simp only [step, clickPrev]
      repeat' split
      all_goals first
        | exact hs
        | (rw [app_commitQueryPage_query, (app_commitQueryPage_frame _ _ _).2.2.2.2.1]; exact hs)
  | clickNext =>
      simp only [step, clickNext]
      repeat' split
      all_goals first
        | exact hs
        | (rw [app_commitQueryPage_query, (app_commitQueryPage_frame _ _ _).2.2.2.2.1]; exact hs)
  | advance dt => exact hs
  | fire id =>
      simp only [step, fire, debounceCallback]
      repeat' split
      all_goals first
        | exact hs
        | (rw [app_commitQueryPage_query, (app_commitQueryPage_frame _ _ _).2.2.2.2.1]; rfl)
  | settle r res =>
      simp only [step]
      split
      · obtain ⟨_, _, _, _, h5, _, h7⟩ :=
          app_complete_frame r res { s with inFlight := s.inFlight.erase r }
        rw [h5, h7]; exact hs
      · exact hs
  | unmount =>
      simp only [step, unmount, debounceCleanup]
      split
      · exact hs
      · exact hs

theorem app_run_query_lastCommit (evs : List Event) {s : App}
    (hs : s.query = (Browser.lastCommit s.history).getD "") :
    (run s evs).query = (Browser.lastCommit (run s evs).history).getD "" := by
  induction evs generalizing s with
  | nil => exact hs
  | cons ev evs ih => exact ih (app_step_query_lastCommit hs ev)

end ServersidePagination

namespace MovieExplorer

theorem movie_step_debouncedSearch_lastCommit {s : MovieList}
    (hs : s.debouncedSearch = (Browser.lastCommit s.history).getD "") (ev : Event) :
    (step s ev).debouncedSearch = (Browser.lastCommit (step s ev).history).getD "" := by
  cases ev with
  | handleSearch value =>
      simp only [step, handleSearch, debounceEffect, debounceCleanup, Browser.Timers.setTimeout]
      repeat' split
      all_goals simpa [Browser.lastCommit] using hs
  | advance dt => exact hs
  | fire id =>
      simp only [step, fire, debounceCallback]
      repeat' split
      all_goals first
        | exact hs
        | rfl
  | settle c o =>
      simp only [step]
      split
      · exact hs
      · exact hs
  | unmount =>
      simp only [step, unmount, debounceCleanup]
      split
      · exact hs
      · exact hs

theorem movie_run_debouncedSearch_lastCommit (evs : List Event) {s : MovieList}
    (hs : s.debouncedSearch = (Browser.lastCommit s.history).getD "") :
    (run s evs).debouncedSearch = (Browser.lastCommit (run s evs).history).getD "" := by
  induction evs generalizing s with
  | nil => exact hs
  | cons ev evs ih => exact ih (movie_step_debouncedSearch_lastCommit hs ev)

end MovieExplorer

/-- C8, as the code has it.  In every state that `MovieList`, resp. the
pagination `App`, reaches from its mount, whatever the timing of the events:
the record of the debounce effect is in order of time; every commit in it sits
right on top of the entry of the raw value it commits, which was set at least
300 ms before the commit and not replaced since; the committed value is that
raw value (`search`) in `MovieList` and that raw value trimmed
(`input.trim()`) in `App`; the newest raw value in the record is the current
one; and `debouncedSearch`, resp. `query`, is the value of the newest commit
(the initial `""` before any).  So a raw value replaced less than 300 ms after
it was set is not committed, and commits come in input order. -/
theorem debounce_commits_settled_values :
    (∀ (now : Nat) (evs : List MovieExplorer.Event),
      ((MovieExplorer.run (MovieExplorer.mount now) evs).history.Pairwise
          (fun a b => b.time ≤ a.time)) ∧
      (∀ newer t v older,
        (MovieExplorer.run (MovieExplorer.mount now) evs).history
            = newer ++ Browser.Debounce.commit t v :: older →
          ∃ t0 raw rest, older = Browser.Debounce.set t0 raw :: rest ∧ v = raw ∧ t0 + 300 ≤ t) ∧
      Browser.lastSet (MovieExplorer.run (MovieExplorer.mount now) evs).history
        = some (MovieExplorer.run (MovieExplorer.mount now) evs).search ∧
      (MovieExplorer.run (MovieExplorer.mount now) evs).debouncedSearch
        = (Browser.lastCommit (MovieExplorer.run (MovieExplorer.mount now) evs).history).getD "") ∧
    (∀ (now : Nat) (evs : List ServersidePagination.Event),
      ((ServersidePagination.run (ServersidePagination.mount now) evs).history.Pairwise
          (fun a b => b.time ≤ a.time)) ∧
      (∀ newer t v older,
        (ServersidePagination.run (ServersidePagination.mount now) evs).history
            = newer ++ Browser.Debounce.commit t v :: older →
          ∃ t0 raw rest, older = Browser.Debounce.set t0 raw :: rest ∧ v = JS.trim raw ∧
            t0 + 300 ≤ t) ∧
      Browser.lastSet (ServersidePagination.run (ServersidePagination.mount now) evs).history
        = some (ServersidePagination.run (ServersidePagination.mount now) evs).input ∧
      (ServersidePagination.run (ServersidePagination.mount now) evs).query
        = (Browser.lastCommit
            (ServersidePagination.run (ServersidePagination.mount now) evs).history).getD "") := by
  constructor
  · intro now evs
    have inv := MovieExplorer.movie_inv_run evs (MovieExplorer.movie_inv_mount now)
    exact ⟨inv.chron.1, inv.settled, inv.current,
      MovieExplorer.movie_run_debouncedSearch_lastCommit evs rfl⟩
  · intro now evs
    have inv := ServersidePagination.app_inv_run evs (ServersidePagination.app_inv_mount now)
    exact ⟨inv.chron.1, inv.settled, inv.current,
      ServersidePagination.app_run_query_lastCommit evs rfl⟩

/-- C8 fails as stated for the pagination `App`: the text box holds " a" for
300 ms and the timer fires; the value committed to `query` is "a", which is not
the raw value `input` of that moment. -/
theorem debounce_commit_is_trimmed :
    (ServersidePagination.run (ServersidePagination.mount 0)
        [.type " a", .advance 300, .fire 2]).input = " a" ∧
    (ServersidePagination.run (ServersidePagination.mount 0)
        [.type " a", .advance 300, .fire 2]).query = "a" ∧
    (ServersidePagination.run (ServersidePagination.mount 0)
        [.type " a", .advance 300, .fire 2]).history
      = [.commit 300 "a", .set 0 " a", .set 0 ""] := by
  decide

/-- C9: in every state that `MovieList`, resp. the pagination `App`, reaches
from its mount at most one debounce timer is armed (at the mount there is
one); a change of the raw value leaves exactly one armed, the new one, due
300 ms later (the previous one has been cleared); and once the component is
unmounted no timer is armed, and whatever happens afterwards nothing is
committed: the record of the effect and `debouncedSearch`, resp. `query` and
`page`, stay as they are.  The unmount itself does it: in every reached state,
with a timer armed or not, the cleanup run by the unmount leaves no timer
armed, and from the state after the unmount event on, whatever time passes and
whichever timers the browser is asked to run, no timer is armed and nothing is
committed. -/
theorem debounce_at_most_one_timer :
    (∀ (now : Nat) (evs : List MovieExplorer.Event),
      (MovieExplorer.run (MovieExplorer.mount now) evs).timers.armed.length ≤ 1 ∧
      (∀ value : String,
        JS.trim value ≠ (MovieExplorer.run (MovieExplorer.mount now) evs).search →
        (MovieExplorer.handleSearch value
            (MovieExplorer.run (MovieExplorer.mount now) evs)).timers.armed
          = [{ id := (MovieExplorer.run (MovieExplorer.mount now) evs).timers.nextId,
               deadline := (MovieExplorer.run (MovieExplorer.mount now) evs).now + 300,
               payload := JS.trim value }]) ∧
      (MovieExplorer.mount now).timers.armed.length = 1 ∧
      (MovieExplorer.unmount (MovieExplorer.run (MovieExplorer.mount now) evs)).timers.armed
        = [] ∧
      (MovieExplorer.step (MovieExplorer.run (MovieExplorer.mount now) evs) .unmount).mounted
        = false ∧
      (∀ later : List MovieExplorer.Event,
        (MovieExplorer.run (MovieExplorer.mount now) (evs ++ .unmount :: later)).timers.armed
          = [] ∧
        (MovieExplorer.run (MovieExplorer.mount now) (evs ++ .unmount :: later)).debouncedSearch
          = (MovieExplorer.run (MovieExplorer.mount now) evs).debouncedSearch ∧
        (MovieExplorer.run (MovieExplorer.mount now) (evs ++ .unmount :: later)).history
          = (MovieExplorer.run (MovieExplorer.mount now) evs).history) ∧
      ((MovieExplorer.run (MovieExplorer.mount now) evs).mounted = false →
        (MovieExplorer.run (MovieExplorer.mount now) evs).timers.armed = [] ∧
        ∀ later : List MovieExplorer.Event,
          (MovieExplorer.run (MovieExplorer.run (MovieExplorer.mount now) evs) later).timers.armed
            = [] ∧
          (MovieExplorer.run (MovieExplorer.run (MovieExplorer.mount now) evs) later).debouncedSearch
            = (MovieExplorer.run (MovieExplorer.mount now) evs).debouncedSearch ∧
          (MovieExplorer.run (MovieExplorer.run (MovieExplorer.mount now) evs) later).history
            = (MovieExplorer.run (MovieExplorer.mount now) evs).history)) ∧
    (∀ (now : Nat) (evs : List ServersidePagination.Event),
      (ServersidePagination.run (ServersidePagination.mount now) evs).timers.armed.length ≤ 1 ∧
      (∀ value : String,
        value ≠ (ServersidePagination.run (ServersidePagination.mount now) evs).input →
        (ServersidePagination.setInput value
            (ServersidePagination.run (ServersidePagination.mount now) evs)).timers.armed
          = [{ id := (ServersidePagination.run (ServersidePagination.mount now) evs).timers.nextId,
               deadline := (ServersidePagination.run (ServersidePagination.mount now) evs).now + 300,
               payload := value }]) ∧
      (ServersidePagination.mount now).timers.armed.length = 1 ∧
      (ServersidePagination.unmount
          (ServersidePagination.run (ServersidePagination.mount now) evs)).timers.armed = [] ∧
      (ServersidePagination.step
          (ServersidePagination.run (ServersidePagination.mount now) evs) .unmount).mounted
        = false ∧
      (∀ later : List ServersidePagination.Event,
        (ServersidePagination.run (ServersidePagination.mount now)
            (evs ++ .unmount :: later)).timers.armed = [] ∧
        (ServersidePagination.run (ServersidePagination.mount now)
            (evs ++ .unmount :: later)).query
          = (ServersidePagination.run (ServersidePagination.mount now) evs).query ∧
        (ServersidePagination.run (ServersidePagination.mount now)
            (evs ++ .unmount :: later)).page
          = (ServersidePagination.run (ServersidePagination.mount now) evs).page ∧
        (ServersidePagination.run (ServersidePagination.mount now)
            (evs ++ .unmount :: later)).history
          = (ServersidePagination.run (ServersidePagination.mount now) evs).history) ∧
      ((ServersidePagination.run (ServersidePagination.mount now) evs).mounted = false →
        (ServersidePagination.run (ServersidePagination.mount now) evs).timers.armed = [] ∧
        ∀ later : List ServersidePagination.Event,
          (ServersidePagination.run
              (ServersidePagination.run (ServersidePagination.mount now) evs) later).timers.armed
            = [] ∧
          (ServersidePagination.run
              (ServersidePagination.run (ServersidePagination.mount now) evs) later).query
            = (ServersidePagination.run (ServersidePagination.mount now) evs).query ∧
          (ServersidePagination.run
              (ServersidePagination.run (ServersidePagination.mount now) evs) later).page
            = (ServersidePagination.run (ServersidePagination.mount now) evs).page ∧
          (ServersidePagination.run
              (ServersidePagination.run (ServersidePagination.mount now) evs) later).history
            = (ServersidePagination.run (ServersidePagination.mount now) evs).history)) := by
  constructor
  · intro now evs
    have inv := MovieExplorer.movie_inv_run evs (MovieExplorer.movie_inv_mount now)
    have harmed : (MovieExplorer.run (MovieExplorer.mount now) evs).mounted = false →
        (MovieExplorer.run (MovieExplorer.mount now) evs).timers.armed = [] := by
      intro hm
      rcases inv.armed with h | ⟨hm', _⟩
      · exact h
      · rw [hm] at hm'; cases hm'
    have hclear : (MovieExplorer.unmount
        (MovieExplorer.run (MovieExplorer.mount now) evs)).timers.armed = [] :=
      MovieExplorer.movie_cleared_of_inv inv
    have hstep : (MovieExplorer.step (MovieExplorer.run (MovieExplorer.mount now) evs)
          .unmount).mounted = false ∧
        (MovieExplorer.step (MovieExplorer.run (MovieExplorer.mount now) evs)
          .unmount).timers.armed = [] ∧
        (MovieExplorer.step (MovieExplorer.run (MovieExplorer.mount now) evs)
          .unmount).debouncedSearch
          = (MovieExplorer.run (MovieExplorer.mount now) evs).debouncedSearch ∧
        (MovieExplorer.step (MovieExplorer.run (MovieExplorer.mount now) evs)
          .unmount).history = (MovieExplorer.run (MovieExplorer.mount now) evs).history := by
      cases hm : (MovieExplorer.run (MovieExplorer.mount now) evs).mounted with
      | false =>
          have h : MovieExplorer.step (MovieExplorer.run (MovieExplorer.mount now) evs) .unmount
              = MovieExplorer.run (MovieExplorer.mount now) evs := by
            simp [MovieExplorer.step, hm]
          rw [h]
          exact ⟨hm, harmed hm, rfl, rfl⟩
      | true =>
          have h : MovieExplorer.step (MovieExplorer.run (MovieExplorer.mount now) evs) .unmount
              = MovieExplorer.unmount (MovieExplorer.run (MovieExplorer.mount now) evs) := by
            simp [MovieExplorer.step, hm]
          rw [h]
          exact ⟨rfl, hclear, rfl, rfl⟩
    refine ⟨?_, ?_, ?_, hclear, hstep.1, ?_, ?_⟩
    · rcases inv.armed with h | ⟨_, t0, rest, h, _⟩ <;> simp [h]
    · intro value hv
      exact (MovieExplorer.movie_handleSearch_armed inv value hv).1
    · simp [MovieExplorer.mount, MovieExplorer.debounceEffect, Browser.Timers.setTimeout,
        Browser.Timers.empty]
    · intro later
      have hrun : MovieExplorer.run (MovieExplorer.mount now) (evs ++ .unmount :: later)
          = MovieExplorer.run
              (MovieExplorer.step (MovieExplorer.run (MovieExplorer.mount now) evs) .unmount)
              later := by
        simp [MovieExplorer.run, List.foldl_append]
      rw [hrun]
      obtain ⟨h1, h2, h3, h4⟩ := hstep
      obtain ⟨i1, i2, i3⟩ := MovieExplorer.movie_run_unmounted later h1 h2
      exact ⟨i1, i2.trans h3, i3.trans h4⟩
    · intro hm
      refine ⟨harmed hm, fun later => ?_⟩
      exact MovieExplorer.movie_run_unmounted later hm (harmed hm)
  · intro now evs
    have inv := ServersidePagination.app_inv_run evs (ServersidePagination.app_inv_mount now)
    have harmed : (ServersidePagination.run (ServersidePagination.mount now) evs).mounted = false →
        (ServersidePagination.run (ServersidePagination.mount now) evs).timers.armed = [] := by
      intro hm
      rcases inv.armed with h | ⟨hm', _⟩
      · exact h
      · rw [hm] at hm'; cases hm'
    have hclear : (ServersidePagination.unmount
        (ServersidePagination.run (ServersidePagination.mount now) evs)).timers.armed = [] :=
      ServersidePagination.app_cleared_of_inv inv
    have hstep : (ServersidePagination.step
          (ServersidePagination.run (ServersidePagination.mount now) evs) .unmount).mounted
          = false ∧
        (ServersidePagination.step
          (ServersidePagination.run (ServersidePagination.mount now) evs) .unmount).timers.armed
          = [] ∧
        (ServersidePagination.step
          (ServersidePagination.run (ServersidePagination.mount now) evs) .unmount).query
          = (ServersidePagination.run (ServersidePagination.mount now) evs).query ∧
        (ServersidePagination.step
          (ServersidePagination.run (ServersidePagination.mount now) evs) .unmount).page
          = (ServersidePagination.run (ServersidePagination.mount now) evs).page ∧
        (ServersidePagination.step
          (ServersidePagination.run (ServersidePagination.mount now) evs) .unmount).history
          = (ServersidePagination.run (ServersidePagination.mount now) evs).history := by
      cases hm : (ServersidePagination.run (ServersidePagination.mount now) evs).mounted with
      | false =>
          have h : ServersidePagination.step
              (ServersidePagination.run (ServersidePagination.mount now) evs) .unmount
              = ServersidePagination.run (ServersidePagination.mount now) evs := by
            simp [ServersidePagination.step, hm]
          rw [h]
          exact ⟨hm, harmed hm, rfl, rfl, rfl⟩
      | true =>
          have h : ServersidePagination.step
              (ServersidePagination.run (ServersidePagination.mount now) evs) .unmount
              = ServersidePagination.unmount
                  (ServersidePagination.run (ServersidePagination.mount now) evs) := by
            simp [ServersidePagination.step, hm]
          rw [h]
          exact ⟨rfl, hclear, rfl, rfl, rfl⟩
    refine ⟨?_, ?_, ?_, hclear, hstep.1, ?_, ?_⟩
    · rcases inv.armed with h | ⟨_, t0, rest, h, _⟩ <;> simp [h]
    · intro value hv
      exact (ServersidePagination.app_setInput_armed inv value hv).1
    · simp [ServersidePagination.mount, ServersidePagination.debounceEffect,
        ServersidePagination.searchEffect, Browser.Timers.setTimeout, Browser.Timers.empty]
    · intro later
      have hrun : ServersidePagination.run (ServersidePagination.mount now)
            (evs ++ .unmount :: later)
          = ServersidePagination.run
              (ServersidePagination.step
                (ServersidePagination.run (ServersidePagination.mount now) evs) .unmount)
              later := by
        simp [ServersidePagination.run, List.foldl_append]
      rw [hrun]
      obtain ⟨h1, h2, h3, h4, h5⟩ := hstep
      obtain ⟨i1, i2, i3, i4⟩ := ServersidePagination.app_run_unmounted later h1 h2
      exact ⟨i1, i2.trans h3, i3.trans h4, i4.trans h5⟩
    · intro hm
      refine ⟨harmed hm, fun later => ?_⟩
      exact ServersidePagination.app_run_unmounted later hm (harmed hm)

/-! ## Theorems: the optimistic toggle -/

namespace OptimisticList

theorem mem_clearTimeout {α : Type} {ts : Browser.Timers α} {id : Nat} {t : Browser.Timer α}
    (h : t ∈ (ts.clearTimeout id).armed) : t ∈ ts.armed := by
  simp only [Browser.Timers.clearTimeout, List.mem_filter] at h
  exact h.1

theorem due_spec {α : Type} {ts : Browser.Timers α} {now id : Nat} {t : Browser.Timer α}
    (h : ts.due now id = some t) : t ∈ ts.armed ∧ t.id = id ∧ t.deadline ≤ now := by
  have h1 := List.find?_some h
  have h2 := List.mem_of_find?_eq_some h
  simp only [Bool.and_eq_true, beq_iff_eq, decide_eq_true_eq] at h1
  exact ⟨h2, h1.1, h1.2⟩

theorem toggle_fields (s : UseOptimisticItem) :
    (toggle s).item = { s.item with completed := !s.item.completed } ∧
    (toggle s).status = .pending ∧ (toggle s).undoVisible = true ∧
    (toggle s).requestIdRef = s.requestIdRef + 1 ∧
    (toggle s).calls = s.calls ∧ (toggle s).now = s.now ∧ (toggle s).mounted = s.mounted ∧
    (toggle s).timers.armed = s.timers.armed ++
      [{ id := s.timers.nextId, deadline := s.now + 3000,
         payload := { requestId := s.requestIdRef + 1, item := s.item } }] ∧
    (toggle s).timers.nextId = s.timers.nextId + 1 ∧
    (toggle s).undoTimerRef = some s.timers.nextId :=
  ⟨rfl, rfl, rfl, rfl, rfl, rfl, rfl, rfl, rfl, rfl⟩

theorem undo_fields (s : UseOptimisticItem) :
    (undo s).requestIdRef = s.requestIdRef + 1 ∧ (undo s).calls = s.calls ∧
    (undo s).now = s.now ∧ (undo s).timers.nextId = s.timers.nextId ∧
    ∀ t ∈ (undo s).timers.armed, t ∈ s.timers.armed := by
  unfold undo
  split
  · exact ⟨rfl, rfl, rfl, rfl, fun t ht => mem_clearTimeout ht⟩
  · exact ⟨rfl, rfl, rfl, rfl, fun t ht => ht⟩

theorem unmount_fields (s : UseOptimisticItem) :
    (unmount s).requestIdRef = s.requestIdRef ∧ (unmount s).calls = s.calls ∧
    (unmount s).now = s.now ∧ (unmount s).timers.nextId = s.timers.nextId ∧
    ∀ t ∈ (unmount s).timers.armed, t ∈ s.timers.armed := by
  unfold unmount
  split
  · exact ⟨rfl, rfl, rfl, rfl, fun t ht => mem_clearTimeout ht⟩
  · exact ⟨rfl, rfl, rfl, rfl, fun t ht => ht⟩

theorem settle_fields (a : Attempt) (fail : Bool) (s : UseOptimisticItem) :
    (settle a fail s).requestIdRef = s.requestIdRef ∧ (settle a fail s).timers = s.timers ∧
    (settle a fail s).now = s.now ∧ ∀ b ∈ (settle a fail s).calls, b ∈ s.calls := by
  by_cases hmem : a ∈ s.calls
  · by_cases hm : s.mounted = true <;> by_cases he : a.requestId = s.requestIdRef <;>
      cases fail <;>
      simp [settle, onRejected, onFulfilled, hmem, hm, he] <;>
      exact fun b hb => List.mem_of_mem_erase hb
  · simp [settle, hmem]

theorem wf_step {s : UseOptimisticItem} (hs : Wf s) (ev : Event) : Wf (step s ev) := by
  cases ev with
  | toggle =>
      simp only [OptimisticList.step]
      split
      · obtain ⟨_, _, _, h4, h5, _, _, h8, h9, _⟩ := toggle_fields s
        constructor
        · intro t ht
          rw [h8] at ht; rw [h4]
          rcases List.mem_append.mp ht with ht | ht
          · exact Nat.le_succ_of_le (hs.timers t ht)
          · simp only [List.mem_singleton] at ht; subst ht; exact Nat.le_refl _
        · intro a ha
          rw [h5] at ha; rw [h4]
          exact Nat.le_succ_of_le (hs.calls a ha)
        · intro t ht
          rw [h8] at ht; rw [h9]
          rcases List.mem_append.mp ht with ht | ht
          · exact Nat.lt_succ_of_lt (hs.ids t ht)
          · simp only [List.mem_singleton] at ht; subst ht; exact Nat.lt_succ_self _
      · exact hs
  | undo =>
      simp only [OptimisticList.step]
      split
      · obtain ⟨h1, h2, _, h4, h5⟩ := undo_fields s
        constructor
        · intro t ht; rw [h1]; exact Nat.le_succ_of_le (hs.timers t (h5 t ht))
        · intro a ha; rw [h2] at ha; rw [h1]; exact Nat.le_succ_of_le (hs.calls a ha)
        · intro t ht; rw [h4]; exact hs.ids t (h5 t ht)
      · exact hs
  | advance dt => exact ⟨hs.timers, hs.calls, hs.ids⟩
  | fire id =>
      simp only [OptimisticList.step, fire]
      split
      · rename_i t hdue
        obtain ⟨hmem, _, _⟩ := due_spec hdue
        constructor
        · intro u hu; exact hs.timers u (mem_clearTimeout hu)
        · intro a ha
          simp only [timerCallback] at ha
          rcases List.mem_append.mp ha with ha | ha
          · exact hs.calls a ha
          · simp only [List.mem_singleton] at ha; subst ha; exact hs.timers t hmem
        · intro u hu; exact hs.ids u (mem_clearTimeout hu)
      · exact hs
  | settle a fail =>
      obtain ⟨h1, h2, _, h4⟩ := settle_fields a fail s
      constructor
      · intro t ht
        simp only [OptimisticList.step] at ht ⊢
        rw [h2] at ht; rw [h1]; exact hs.timers t ht
      · intro b hb
        simp only [OptimisticList.step] at hb ⊢
        rw [h1]; exact hs.calls b (h4 b hb)
      · intro t ht
        simp only [OptimisticList.step] at ht ⊢
        rw [h2] at ht ⊢; exact hs.ids t ht
  | unmount =>
      simp only [OptimisticList.step]
      split
      · obtain ⟨h1, h2, _, h4, h5⟩ := unmount_fields s
        constructor
        · intro t ht; rw [h1]; exact hs.timers t (h5 t ht)
        · intro a ha; rw [h2] at ha; rw [h1]; exact hs.calls a ha
        · intro t ht; rw [h4]; exact hs.ids t (h5 t ht)
      · exact hs

theorem wf_run (evs : List Event) {s : UseOptimisticItem} (hs : Wf s) : Wf (run s evs) := by
  induction evs generalizing s with
  | nil => exact hs
  | cons ev evs ih => exact ih (wf_step hs ev)

theorem wf_mount (initial : Item) (now : Nat) : Wf (mount initial now) :=
  ⟨fun _ h => by simp [OptimisticList.mount, Browser.Timers.empty] at h,
   fun _ h => by simp [OptimisticList.mount] at h,
   fun _ h => by simp [OptimisticList.mount, Browser.Timers.empty] at h⟩

theorem grace_step {E T : Nat} {s : UseOptimisticItem} (hs : Grace E T s) (ev : Event) :
    Grace E T (step s ev) := by
  cases ev with
  | toggle =>
      simp only [OptimisticList.step]
      split
      · obtain ⟨_, _, _, h4, h5, h6, _, h8, _, _⟩ := toggle_fields s
        constructor
        · rw [h4]; exact Nat.le_succ_of_le hs.epoch
        · intro t ht hE
          rw [h8] at ht
          rcases List.mem_append.mp ht with ht | ht
          · exact hs.timers t ht hE
          · simp only [List.mem_singleton] at ht
            subst ht
            have := hs.epoch
            simp only at hE
            omega
        · intro a ha hE
          rw [h5] at ha; rw [h6]
          exact hs.calls a ha hE
      · exact hs
  | undo =>
      simp only [OptimisticList.step]
      split
      · obtain ⟨h1, h2, h3, _, h5⟩ := undo_fields s
        constructor
        · rw [h1]; exact Nat.le_succ_of_le hs.epoch
        · intro t ht hE; exact hs.timers t (h5 t ht) hE
        · intro a ha hE; rw [h2] at ha; rw [h3]; exact hs.calls a ha hE
      · exact hs
  | advance dt =>
      exact ⟨hs.epoch, hs.timers,
        fun a ha hE => Nat.le_trans (hs.calls a ha hE) (Nat.le_add_right _ _)⟩
  | fire id =>
      simp only [OptimisticList.step, fire]
      split
      · rename_i t hdue
        obtain ⟨hmem, _, hdl⟩ := due_spec hdue
        constructor
        · exact hs.epoch
        · intro u hu hE; exact hs.timers u (mem_clearTimeout hu) hE
        · intro a ha hE
          simp only [timerCallback] at ha
          rcases List.mem_append.mp ha with ha | ha
          · exact hs.calls a ha hE
          · simp only [List.mem_singleton] at ha
            subst ha
            have := hs.timers t hmem hE
            show T ≤ s.now
            omega
      · exact hs
  | settle a fail =>
      obtain ⟨h1, h2, h3, h4⟩ := settle_fields a fail s
      constructor
      · simp only [OptimisticList.step]; rw [h1]; exact hs.epoch
      · intro t ht hE
        simp only [OptimisticList.step] at ht
        rw [h2] at ht; exact hs.timers t ht hE
      · intro b hb hE
        simp only [OptimisticList.step] at hb ⊢
        rw [h3]; exact hs.calls b (h4 b hb) hE
  | unmount =>
      simp only [OptimisticList.step]
      split
      · obtain ⟨h1, h2, h3, _, h5⟩ := unmount_fields s
        constructor
        · rw [h1]; exact hs.epoch
        · intro t ht hE; exact hs.timers t (h5 t ht) hE
        · intro a ha hE; rw [h2] at ha; rw [h3]; exact hs.calls a ha hE
      · exact hs

theorem grace_run {E T : Nat} (evs : List Event) {s : UseOptimisticItem} (hs : Grace E T s) :
    Grace E T (run s evs) := by
  induction evs generalizing s with
  | nil => exact hs
  | cons ev evs ih => exact ih (grace_step hs ev)

theorem grace_toggle {s : UseOptimisticItem} (hs : Wf s) :
    Grace (s.requestIdRef + 1) (s.now + 3000) (toggle s) := by
  obtain ⟨_, _, _, h4, h5, _, _, h8, _, _⟩ := toggle_fields s
  constructor
  · rw [h4]
  · intro t ht hE
    rw [h8] at ht
    rcases List.mem_append.mp ht with ht | ht
    · have := hs.timers t ht; omega
    · simp only [List.mem_singleton] at ht; subst ht; rfl
  · intro a ha hE
    rw [h5] at ha
    have := hs.calls a ha; omega

end OptimisticList

namespace OptimisticList

theorem fire_after_grace {s : UseOptimisticItem} (hs : Wf s) :
    (run (toggle s) [.advance 3000, .fire s.timers.nextId]).calls
      = s.calls ++ [{ requestId := s.requestIdRef + 1, item := s.item }] := by
  have hnone : s.timers.armed.find?
      (fun t => t.id == s.timers.nextId && decide (t.deadline ≤ s.now + 3000)) = none := by
    rw [List.find?_eq_none]
    intro t ht
    have := hs.ids t ht
    simp only [Bool.and_eq_true, beq_iff_eq, decide_eq_true_eq, not_and]
    intro h; omega
  have hdue : ({ toggle s with now := s.now + 3000 } : UseOptimisticItem).timers.due
      (s.now + 3000) s.timers.nextId
      = some { id := s.timers.nextId, deadline := s.now + 3000,
               payload := { requestId := s.requestIdRef + 1, item := s.item } } := by
    simp [Browser.Timers.due, toggle, Browser.Timers.setTimeout, List.find?_append, hnone]
  simp only [run, List.foldl, step, fire]
  rw [show (toggle s).now + 3000 = s.now + 3000 from rfl, hdue]
  rfl

end OptimisticList

/-- C10: `toggle()` in any state, before anything else happens, negates
`item.completed` and keeps `id` and `title`, sets `status` to `pending` and
`undoVisible` to true, adds one to `requestIdRef`, calls `fakeApi` not at all,
and arms one timer, due 3000 ms later, that closes over the new counter value
and the item as it was, keeping its id in `undoTimerRef`.  And in every state
reached from a mount: whatever happens after the toggle, as long as fewer than
3000 ms have passed no `fakeApi` call of this attempt is outstanding; and once
3000 ms have passed the browser can run the timer, which makes that call. -/
theorem toggle_applies_optimistically :
    (∀ s : OptimisticList.UseOptimisticItem,
      (OptimisticList.toggle s).item
        = { id := s.item.id, title := s.item.title, completed := !s.item.completed } ∧
      (OptimisticList.toggle s).status = .pending ∧
      (OptimisticList.toggle s).undoVisible = true ∧
      (OptimisticList.toggle s).requestIdRef = s.requestIdRef + 1 ∧
      (OptimisticList.toggle s).calls = s.calls ∧
      (OptimisticList.toggle s).timers.armed = s.timers.armed ++
        [{ id := s.timers.nextId, deadline := s.now + 3000,
           payload := { requestId := s.requestIdRef + 1, item := s.item } }] ∧
      (OptimisticList.toggle s).undoTimerRef = some s.timers.nextId) ∧
    (∀ (initial : OptimisticList.Item) (now : Nat) (before after : List OptimisticList.Event),
      (OptimisticList.run (OptimisticList.toggle
          (OptimisticList.run (OptimisticList.mount initial now) before)) after).now
        < (OptimisticList.run (OptimisticList.mount initial now) before).now + 3000 →
      ∀ a ∈ (OptimisticList.run (OptimisticList.toggle
          (OptimisticList.run (OptimisticList.mount initial now) before)) after).calls,
        a.requestId
          ≠ (OptimisticList.run (OptimisticList.mount initial now) before).requestIdRef + 1) ∧
    (∀ (initial : OptimisticList.Item) (now : Nat) (before : List OptimisticList.Event),
      (OptimisticList.run (OptimisticList.toggle
          (OptimisticList.run (OptimisticList.mount initial now) before))
          [.advance 3000,
           .fire (OptimisticList.run (OptimisticList.mount initial now) before).timers.nextId]).calls
        = (OptimisticList.run (OptimisticList.mount initial now) before).calls ++
          [{ requestId :=
               (OptimisticList.run (OptimisticList.mount initial now) before).requestIdRef + 1,
             item := (OptimisticList.run (OptimisticList.mount initial now) before).item }]) := by
  refine ⟨fun s => ⟨rfl, rfl, rfl, rfl, rfl, rfl, rfl⟩, ?_, ?_⟩
  · intro initial now before after hlt a ha hE
    have wf := OptimisticList.wf_run before (OptimisticList.wf_mount initial now)
    have g := OptimisticList.grace_run after (OptimisticList.grace_toggle wf)
    have := g.calls a ha hE
    omega
  · intro initial now before
    exact OptimisticList.fire_after_grace
      (OptimisticList.wf_run before (OptimisticList.wf_mount initial now))

/-! ## Theorems: rollback and undo of the optimistic toggle -/

namespace OptimisticList

theorem quiet_step_keeps {s : UseOptimisticItem} {ev : Event} (hq : ev.quiet = true) :
    (step s ev).mounted = s.mounted ∧ (step s ev).requestIdRef = s.requestIdRef := by
  cases ev with
  | toggle => cases hq
  | undo => cases hq
  | unmount => cases hq
  | advance dt => exact ⟨rfl, rfl⟩
  | fire id =>
      simp only [step, fire]
      split
      · exact ⟨rfl, rfl⟩
      · exact ⟨rfl, rfl⟩
  | settle a fail =>
      refine ⟨?_, (settle_fields a fail s).1⟩
      by_cases hmem : a ∈ s.calls
      · by_cases hm : s.mounted = true <;> by_cases he : a.requestId = s.requestIdRef <;>
          cases fail <;> simp [step, settle, onRejected, onFulfilled, hmem, hm, he]
      · simp [step, settle, hmem]

theorem quiet_run_keeps (evs : List Event) {s : UseOptimisticItem}
    (hq : ∀ ev ∈ evs, ev.quiet = true) :
    (run s evs).mounted = s.mounted ∧ (run s evs).requestIdRef = s.requestIdRef := by
  induction evs generalizing s with
  | nil => exact ⟨rfl, rfl⟩
  | cons ev evs ih =>
      obtain ⟨h1, h2⟩ := quiet_step_keeps (s := s) (hq ev (List.mem_cons_self _ _))
      obtain ⟨i1, i2⟩ := ih (s := step s ev) (fun e he => hq e (List.mem_cons_of_mem _ he))
      exact ⟨i1.trans h1, i2.trans h2⟩

theorem optimistic_step_requestIdRef_le (s : UseOptimisticItem) (ev : Event) :
    s.requestIdRef ≤ (step s ev).requestIdRef := by
  cases ev with
  | toggle =>
      simp only [step]; split
      · rw [(toggle_fields s).2.2.2.1]; exact Nat.le_succ _
      · exact Nat.le_refl _
  | undo =>
      simp only [step]; split
      · rw [(undo_fields s).1]; exact Nat.le_succ _
      · exact Nat.le_refl _
  | advance dt => exact Nat.le_refl _
  | fire id =>
      simp only [step, fire]
      split <;> exact Nat.le_refl _
  | settle a fail =>
      simp only [step]; rw [(settle_fields a fail s).1]
  | unmount =>
      simp only [step]; split
      · rw [(unmount_fields s).1]
      · exact Nat.le_refl _

theorem optimistic_run_requestIdRef_le (evs : List Event) (s : UseOptimisticItem) :
    s.requestIdRef ≤ (run s evs).requestIdRef := by
  induction evs generalizing s with
  | nil => exact Nat.le_refl _
  | cons ev evs ih =>
      exact Nat.le_trans (optimistic_step_requestIdRef_le s ev) (ih (step s ev))

theorem settle_stale (a : Attempt) (fail : Bool) (s : UseOptimisticItem)
    (h : a.requestId ≠ s.requestIdRef) :
    (settle a fail s).item = s.item ∧ (settle a fail s).status = s.status ∧
    (settle a fail s).undoVisible = s.undoVisible ∧ (settle a fail s).mounted = s.mounted ∧
    (settle a fail s).undoTimerRef = s.undoTimerRef := by
  by_cases hmem : a ∈ s.calls
  · by_cases hm : s.mounted = true <;> cases fail <;>
      simp [settle, onRejected, onFulfilled, hmem, hm, h]
  · simp [settle, hmem]

theorem settle_current_failure (a : Attempt) (s : UseOptimisticItem) (hmem : a ∈ s.calls)
    (hm : s.mounted = true) (he : a.requestId = s.requestIdRef) :
    (settle a true s).item = a.item ∧ (settle a true s).status = .error ∧
    (settle a true s).undoVisible = false := by
  simp [settle, onRejected, hmem, hm, he]

end OptimisticList

/-- C11: rollback on failure.  `toggle()` is applied in a state `s` of a mounted
row; afterwards only quiet events happen (time passes, timers run, calls
settle: no other `toggle`, no `undo`, no unmount), among them the run of the
attempt's timer, so that its `fakeApi` call is outstanding; that call fails.
Then the item is the item of `s` (same `id`, `title` and `completed`), `status`
is `error` and `undoVisible` is false. -/
theorem rollback_on_failure (s : OptimisticList.UseOptimisticItem)
    (evs : List OptimisticList.Event) (hm : s.mounted = true)
    (hq : ∀ ev ∈ evs, ev.quiet = true)
    (hcall : { requestId := s.requestIdRef + 1, item := s.item }
      ∈ (OptimisticList.run (OptimisticList.toggle s) evs).calls) :
    (OptimisticList.settle { requestId := s.requestIdRef + 1, item := s.item } true
      (OptimisticList.run (OptimisticList.toggle s) evs)).item = s.item ∧
    (OptimisticList.settle { requestId := s.requestIdRef + 1, item := s.item } true
      (OptimisticList.run (OptimisticList.toggle s) evs)).status = .error ∧
    (OptimisticList.settle { requestId := s.requestIdRef + 1, item := s.item } true
      (OptimisticList.run (OptimisticList.toggle s) evs)).undoVisible = false := by
  obtain ⟨h1, h2⟩ := OptimisticList.quiet_run_keeps evs (s := OptimisticList.toggle s) hq
  have hm' : (OptimisticList.run (OptimisticList.toggle s) evs).mounted = true := by
    rw [h1]; exact hm
  have he : s.requestIdRef + 1
      = (OptimisticList.run (OptimisticList.toggle s) evs).requestIdRef := by
    rw [h2]; rfl
  exact OptimisticList.settle_current_failure _ _ hcall hm' he

theorem rollback_on_failure_witness :
    (OptimisticList.run
      (OptimisticList.mount { id := "2", title := "Review PRs", completed := true } 0)
      [.toggle, .advance 3000, .fire 1,
       .settle { requestId := 1,
                 item := { id := "2", title := "Review PRs", completed := true } } true]).item
      = { id := "2", title := "Review PRs", completed := true } ∧
    (OptimisticList.run
      (OptimisticList.mount { id := "2", title := "Review PRs", completed := true } 0)
      [.toggle, .advance 3000, .fire 1,
       .settle { requestId := 1,
                 item := { id := "2", title := "Review PRs", completed := true } } true]).status
      = .error ∧
    (OptimisticList.run
      (OptimisticList.mount { id := "2", title := "Review PRs", completed := true } 0)
      [.toggle, .advance 3000, .fire 1,
       .settle { requestId := 1,
                 item := { id := "2", title := "Review PRs", completed := true } } true]).undoVisible
      = false :=
  rollback_on_failure
    (OptimisticList.mount { id := "2", title := "Review PRs", completed := true } 0)
    [.advance 3000, .fire 1] rfl (by decide) (by decide)

namespace OptimisticList

theorem nextId_pos_step {s : UseOptimisticItem} (hs : 0 < s.timers.nextId) (ev : Event) :
    0 < (step s ev).timers.nextId := by
  cases ev with
  | toggle =>
      simp only [step]; split
      · rw [(toggle_fields s).2.2.2.2.2.2.2.2.1]; exact Nat.succ_pos _
      · exact hs
  | undo =>
      simp only [step]; split
      · rw [(undo_fields s).2.2.2.1]; exact hs
      · exact hs
  | advance dt => exact hs
  | fire id =>
      simp only [step, fire]
      split
      · exact hs
      · exact hs
  | settle a fail =>
      simp only [step]; rw [(settle_fields a fail s).2.1]; exact hs
  | unmount =>
      simp only [step]; split
      · rw [(unmount_fields s).2.2.2.1]; exact hs
      · exact hs

theorem nextId_pos_run (evs : List Event) {s : UseOptimisticItem} (hs : 0 < s.timers.nextId) :
    0 < (run s evs).timers.nextId := by
  induction evs generalizing s with
  | nil => exact hs
  | cons ev evs ih => exact ih (nextId_pos_step hs ev)

theorem undoable_toggle {s : UseOptimisticItem} (hs : Wf s) (hm : s.mounted = true) :
    Undoable (s.requestIdRef + 1) s.timers.nextId
      { s.item with completed := !s.item.completed } (toggle s) := by
  obtain ⟨h1, _, _, h4, h5, _, h7, h8, _, h10⟩ := toggle_fields s
  refine ⟨h7.trans hm, h4, h10, h1, ?_, ?_⟩
  · intro a ha
    rw [h5] at ha
    exact Nat.lt_succ_of_le (hs.calls a ha)
  · intro t ht
    rw [h8] at ht
    rcases List.mem_append.mp ht with ht | ht
    · have := hs.timers t ht
      exact ⟨Nat.le_succ_of_le this, fun h => by omega⟩
    · simp only [List.mem_singleton] at ht
      subst ht
      exact ⟨Nat.le_refl _, fun _ => rfl⟩

theorem undoable_step {E timer : Nat} {next : Item} {s : UseOptimisticItem}
    (hs : Undoable E timer next s) {ev : Event} (hl : ev.leaves timer = true) :
    Undoable E timer next (step s ev) := by
  cases ev with
  | toggle => cases hl
  | undo => cases hl
  | unmount => cases hl
  | advance dt => exact ⟨hs.mounted, hs.epoch, hs.ref, hs.item, hs.calls, hs.timers⟩
  | fire id =>
      have hne : id ≠ timer := by simpa [Event.leaves] using hl
      simp only [step, fire]
      split
      · rename_i t hdue
        obtain ⟨hmem, hid, _⟩ := due_spec hdue
        refine ⟨hs.mounted, hs.epoch, hs.ref, hs.item, ?_, ?_⟩
        · intro a ha
          simp only [timerCallback] at ha
          rcases List.mem_append.mp ha with ha | ha
          · exact hs.calls a ha
          · simp only [List.mem_singleton] at ha
            subst ha
            obtain ⟨hle, himp⟩ := hs.timers t hmem
            rcases Nat.lt_or_ge t.payload.requestId E with hlt | hge
            · exact hlt
            · exact absurd ((himp (Nat.le_antisymm hle hge)).symm.trans hid).symm hne
        · intro u hu
          exact hs.timers u (mem_clearTimeout hu)
      · exact hs
  | settle a fail =>
      simp only [step]
      by_cases hmem : a ∈ s.calls
      · have hne : a.requestId ≠ s.requestIdRef := by
          have := hs.calls a hmem
          rw [hs.epoch]; omega
        obtain ⟨h1, h2, _, h4⟩ := settle_fields a fail s
        obtain ⟨g1, _, _, g4, g5⟩ := settle_stale a fail s hne
        refine ⟨g4.trans hs.mounted, h1.trans hs.epoch, g5.trans hs.ref, g1.trans hs.item, ?_, ?_⟩
        · intro b hb; exact hs.calls b (h4 b hb)
        · intro t ht; rw [h2] at ht; exact hs.timers t ht
      · simpa [settle, hmem] using hs

theorem undoable_run {E timer : Nat} {next : Item} (evs : List Event) {s : UseOptimisticItem}
    (hs : Undoable E timer next s) (hl : ∀ ev ∈ evs, ev.leaves timer = true) :
    Undoable E timer next (run s evs) := by
  induction evs generalizing s with
  | nil => exact hs
  | cons ev evs ih =>
      exact ih (undoable_step hs (hl ev (List.mem_cons_self _ _)))
        (fun e he => hl e (List.mem_cons_of_mem _ he))

theorem undo_of_undoable {E timer : Nat} {next : Item} {s : UseOptimisticItem}
    (hs : Undoable E timer next s) (ht : timer ≠ 0) :
    (undo s).item = { next with completed := !next.completed } ∧ (undo s).status = .idle ∧
    (undo s).undoVisible = false ∧ (undo s).requestIdRef = E + 1 ∧
    (undo s).undoTimerRef = none ∧ Cancelled E (undo s) := by
  have htr : truthy s.undoTimerRef = true := by
    rw [hs.ref]; simpa [truthy] using ht
  have htr' : truthy (some timer) = true := hs.ref ▸ htr
  have harm : (undo s).timers.armed = s.timers.armed.filter (fun t => t.id != timer) := by
    simp [undo, htr', hs.ref, Browser.Timers.clearTimeout]
  have hitem : (undo s).item = { next with completed := !next.completed } := by
    simp [undo, htr, hs.item]
  have hstatus : (undo s).status = .idle := by simp [undo, htr]
  have hvis : (undo s).undoVisible = false := by simp [undo, htr]
  have href : (undo s).undoTimerRef = none := by simp [undo, htr]
  obtain ⟨h1, h2, _, _, _⟩ := undo_fields s
  refine ⟨hitem, hstatus, hvis, by rw [h1, hs.epoch], href, ?_, ?_, ?_⟩
  · rw [h1, hs.epoch]; exact Nat.lt_succ_self _
  · intro t htm hE
    rw [harm] at htm
    obtain ⟨hmem, hid⟩ := List.mem_filter.mp htm
    have := (hs.timers t hmem).2 hE
    simp [this] at hid
  · intro a ha hE
    rw [h2] at ha
    have := hs.calls a ha
    omega

theorem cancelled_step {E : Nat} {s : UseOptimisticItem} (hs : Cancelled E s) (ev : Event) :
    Cancelled E (step s ev) := by
  cases ev with
  | toggle =>
      simp only [step]; split
      · obtain ⟨_, _, _, h4, h5, _, _, h8, _, _⟩ := toggle_fields s
        refine ⟨by rw [h4]; exact Nat.lt_succ_of_lt hs.epoch, ?_, ?_⟩
        · intro t ht
          rw [h8] at ht
          rcases List.mem_append.mp ht with ht | ht
          · exact hs.timers t ht
          · simp only [List.mem_singleton] at ht
            subst ht
            have := hs.epoch
            simp only; omega
        · intro a ha; rw [h5] at ha; exact hs.calls a ha
      · exact hs
  | undo =>
      simp only [step]; split
      · obtain ⟨h1, h2, _, _, h5⟩ := undo_fields s
        exact ⟨by rw [h1]; exact Nat.lt_succ_of_lt hs.epoch,
          fun t ht => hs.timers t (h5 t ht), fun a ha => hs.calls a (h2 ▸ ha)⟩
      · exact hs
  | advance dt => exact ⟨hs.epoch, hs.timers, hs.calls⟩
  | fire id =>
      simp only [step, fire]
      split
      · rename_i t hdue
        obtain ⟨hmem, _, _⟩ := due_spec hdue
        refine ⟨hs.epoch, fun u hu => hs.timers u (mem_clearTimeout hu), ?_⟩
        intro a ha
        simp only [timerCallback] at ha
        rcases List.mem_append.mp ha with ha | ha
        · exact hs.calls a ha
        · simp only [List.mem_singleton] at ha
          subst ha
          exact hs.timers t hmem
      · exact hs
  | settle a fail =>
      obtain ⟨h1, h2, _, h4⟩ := settle_fields a fail s
      refine ⟨?_, ?_, ?_⟩
      · simp only [step]; rw [h1]; exact hs.epoch
      · intro t ht
        simp only [step] at ht
        rw [h2] at ht; exact hs.timers t ht
      · intro b hb
        simp only [step] at hb
        exact hs.calls b (h4 b hb)
  | unmount =>
      simp only [step]; split
      · obtain ⟨h1, h2, _, _, h5⟩ := unmount_fields s
        exact ⟨by rw [h1]; exact hs.epoch,
          fun t ht => hs.timers t (h5 t ht), fun a ha => hs.calls a (h2 ▸ ha)⟩
      · exact hs

theorem cancelled_run {E : Nat} (evs : List Event) {s : UseOptimisticItem}
    (hs : Cancelled E s) : Cancelled E (run s evs) := by
  induction evs generalizing s with
  | nil => exact hs
  | cons ev evs ih => exact ih (cancelled_step hs ev)

end OptimisticList

/-- C12: undo within the grace delay.  `toggle()` is applied in a state `s`
that a mounted row has reached; afterwards time may pass, other timers may run
and calls may settle, but neither the timer of this attempt runs nor is there
another `toggle`, `undo` or unmount; then `undo()` is called.  Now the item is
the item of `s`, `status` is `idle`, `undoVisible` is false, `requestIdRef` is
two above its value in `s`, `undoTimerRef` is null, no timer of the attempt is
armed, and whatever happens later no `fakeApi` call of the attempt is made. -/
theorem undo_within_grace (initial : OptimisticList.Item) (now : Nat)
    (before evs later : List OptimisticList.Event) (s : OptimisticList.UseOptimisticItem)
    (hs : s = OptimisticList.run (OptimisticList.mount initial now) before)
    (hm : s.mounted = true) (hl : ∀ ev ∈ evs, ev.leaves s.timers.nextId = true) :
    (OptimisticList.undo (OptimisticList.run (OptimisticList.toggle s) evs)).item = s.item ∧
    (OptimisticList.undo (OptimisticList.run (OptimisticList.toggle s) evs)).status = .idle ∧
    (OptimisticList.undo (OptimisticList.run (OptimisticList.toggle s) evs)).undoVisible
      = false ∧
    (OptimisticList.undo (OptimisticList.run (OptimisticList.toggle s) evs)).requestIdRef
      = s.requestIdRef + 2 ∧
    (OptimisticList.undo (OptimisticList.run (OptimisticList.toggle s) evs)).undoTimerRef
      = none ∧
    (∀ t ∈ (OptimisticList.undo
        (OptimisticList.run (OptimisticList.toggle s) evs)).timers.armed,
      t.payload.requestId ≠ s.requestIdRef + 1) ∧
    (∀ a ∈ (OptimisticList.run (OptimisticList.undo
        (OptimisticList.run (OptimisticList.toggle s) evs)) later).calls,
      a.requestId ≠ s.requestIdRef + 1) := by
  have wf : OptimisticList.Wf s := hs ▸ OptimisticList.wf_run before (OptimisticList.wf_mount initial now)
  have hpos : 0 < s.timers.nextId :=
    hs ▸ OptimisticList.nextId_pos_run before (s := OptimisticList.mount initial now) Nat.one_pos
  have hu := OptimisticList.undoable_run evs (OptimisticList.undoable_toggle wf hm) hl
  obtain ⟨h1, h2, h3, h4, h5, h6⟩ := OptimisticList.undo_of_undoable hu (Nat.pos_iff_ne_zero.mp hpos)
  refine ⟨?_, h2, h3, h4, h5, h6.timers, (OptimisticList.cancelled_run later h6).calls⟩
  rw [h1]
  cases hi : s.item
  simp

theorem undo_within_grace_witness :
    (OptimisticList.run
      (OptimisticList.mount { id := "1", title := "Write proposal", completed := false } 0)
      [.toggle, .advance 1000, .undo]).item
      = { id := "1", title := "Write proposal", completed := false } ∧
    (OptimisticList.run
      (OptimisticList.mount { id := "1", title := "Write proposal", completed := false } 0)
      [.toggle, .advance 1000, .undo]).status = .idle ∧
    (OptimisticList.run
      (OptimisticList.mount { id := "1", title := "Write proposal", completed := false } 0)
      [.toggle, .advance 1000, .undo]).undoVisible = false ∧
    (OptimisticList.run
      (OptimisticList.mount { id := "1", title := "Write proposal", completed := false } 0)
      [.toggle, .advance 1000, .undo]).requestIdRef = 0 + 2 ∧
    (OptimisticList.run
      (OptimisticList.mount { id := "1", title := "Write proposal", completed := false } 0)
      [.toggle, .advance 1000, .undo]).undoTimerRef = none ∧
    (∀ t ∈ (OptimisticList.run
      (OptimisticList.mount { id := "1", title := "Write proposal", completed := false } 0)
      [.toggle, .advance 1000, .undo]).timers.armed, t.payload.requestId ≠ 0 + 1) ∧
    (∀ a ∈ (OptimisticList.run
      (OptimisticList.mount { id := "1", title := "Write proposal", completed := false } 0)
      [.toggle, .advance 1000, .undo, .advance 5000, .fire 1]).calls, a.requestId ≠ 0 + 1) :=
  undo_within_grace { id := "1", title := "Write proposal", completed := false } 0 []
    [.advance 1000] [.advance 5000, .fire 1]
    (OptimisticList.mount { id := "1", title := "Write proposal", completed := false } 0)
    rfl rfl (by decide)

/-- C13: undo invalidates an attempt in flight.  `undo()` is called in a state
`s`; `a` is an attempt counted so far, in particular the one of the undone
toggle, whose `requestId` is the counter of `s`.  Whatever happens afterwards,
when the `fakeApi` call of `a` settles, with success or with failure, `item`,
`status` and `undoVisible` stay as they are. -/
theorem undo_invalidates_in_flight (s : OptimisticList.UseOptimisticItem)
    (a : OptimisticList.Attempt) (evs : List OptimisticList.Event) (fail : Bool)
    (ha : a.requestId ≤ s.requestIdRef) :
    (OptimisticList.settle a fail (OptimisticList.run (OptimisticList.undo s) evs)).item
      = (OptimisticList.run (OptimisticList.undo s) evs).item ∧
    (OptimisticList.settle a fail (OptimisticList.run (OptimisticList.undo s) evs)).status
      = (OptimisticList.run (OptimisticList.undo s) evs).status ∧
    (OptimisticList.settle a fail (OptimisticList.run (OptimisticList.undo s) evs)).undoVisible
      = (OptimisticList.run (OptimisticList.undo s) evs).undoVisible := by
  have h1 := OptimisticList.optimistic_run_requestIdRef_le evs (OptimisticList.undo s)
  have h2 : (OptimisticList.undo s).requestIdRef = s.requestIdRef + 1 :=
    (OptimisticList.undo_fields s).1
  have hne : a.requestId ≠ (OptimisticList.run (OptimisticList.undo s) evs).requestIdRef := by
    omega
  obtain ⟨g1, g2, g3, _, _⟩ := OptimisticList.settle_stale a fail _ hne
  exact ⟨g1, g2, g3⟩

theorem undo_invalidates_in_flight_witness :
    { requestId := 1, item := { id := "1", title := "Write proposal", completed := false } }
      ∈ (OptimisticList.run
          (OptimisticList.mount { id := "1", title := "Write proposal", completed := false } 0)
          [.toggle, .advance 3000, .fire 1, .undo]).calls ∧
    (OptimisticList.run
      (OptimisticList.mount { id := "1", title := "Write proposal", completed := false } 0)
      [.toggle, .advance 3000, .fire 1, .undo,
       .settle { requestId := 1,
                 item := { id := "1", title := "Write proposal", completed := false } } true]).item
      = (OptimisticList.run
          (OptimisticList.mount { id := "1", title := "Write proposal", completed := false } 0)
          [.toggle, .advance 3000, .fire 1, .undo]).item ∧
    (OptimisticList.run
      (OptimisticList.mount { id := "1", title := "Write proposal", completed := false } 0)
      [.toggle, .advance 3000, .fire 1, .undo,
       .settle { requestId := 1,
                 item := { id := "1", title := "Write proposal", completed := false } } true]).status
      = .idle :=
  ⟨by decide,
   (undo_invalidates_in_flight
      (OptimisticList.run
        (OptimisticList.mount { id := "1", title := "Write proposal", completed := false } 0)
        [.toggle, .advance 3000, .fire 1])
      { requestId := 1, item := { id := "1", title := "Write proposal", completed := false } }
      [] true (by decide)).1,
   (undo_invalidates_in_flight
      (OptimisticList.run
        (OptimisticList.mount { id := "1", title := "Write proposal", completed := false } 0)
        [.toggle, .advance 3000, .fire 1])
      { requestId := 1, item := { id := "1", title := "Write proposal", completed := false } }
      [] true (by decide)).2.1⟩

/-! ## Theorems: the like buttons -/

namespace Solution6

theorem like_step_balance (s : LikeButton) (ev : Event) :
    (step s ev).likes - (step s ev).succeeded - (step s ev).requests.length
      = s.likes - s.succeeded - s.requests.length := by
  cases ev with
  | handleLike =>
      simp only [step, handleLike]
      split
      · rfl
      · simp only [List.length_append, List.length_singleton]
        push_cast
        ring
  | render => rfl
  | settle id r =>
      simp only [step, settle]
      split
      · rename_i hmem
        have hlen := List.length_erase_of_mem hmem
        have hpos : 0 < s.requests.length := List.length_pos_of_mem hmem
        cases r <;>
          simp only [continuation, Browser.FetchResult.failed, if_true, if_false, hlen,
            Bool.false_eq_true] <;>
          omega
      · rfl

theorem like_run_balance (evs : List Event) (s : LikeButton) :
    (run s evs).likes - (run s evs).succeeded - (run s evs).requests.length
      = s.likes - s.succeeded - s.requests.length := by
  induction evs generalizing s with
  | nil => rfl
  | cons ev evs ih => exact (ih (step s ev)).trans (like_step_balance s ev)

end Solution6

/-- C14: relative rollback in the corrected `LikeButton`.  An invocation of
`handleLike` that passes the gate adds 1 to `likes` and issues one request; the
rest of the handler, in whatever state it resumes, subtracts 1 when the request
failed and leaves `likes` alone when it did not.  So after any sequence of
invocations, renders and completions, requests that overlap included, `likes`
is `initialLikes` plus the number of requests that have succeeded plus the
number still under way, and `initialLikes` plus the number of successes once
none is under way.  Two invocations A and B before a render have both requests
under way; when A succeeds B is still pending, and when B then fails `likes` is
`initialLikes + 1`, in either order of the two completions; the same holds when
B is invoked after A has succeeded.  One failing mutation leaves
`initialLikes`. -/
theorem relative_rollback :
    (∀ s : Solution6.LikeButton, s.rendered = false →
      (Solution6.handleLike s).likes = s.likes + 1 ∧
      (Solution6.handleLike s).requests = s.requests ++ [s.issued + 1]) ∧
    (∀ (s : Solution6.LikeButton) (r : Browser.FetchResult),
      (Solution6.continuation r s).likes = if r.failed then s.likes - 1 else s.likes) ∧
    (∀ (s : Solution6.LikeButton) (id : Nat) (r : Browser.FetchResult), id ∈ s.requests →
      (Solution6.settle id r s).likes = if r.failed then s.likes - 1 else s.likes) ∧
    (∀ (initialLikes : Int) (evs : List Solution6.Event),
      (Solution6.run (Solution6.mount initialLikes) evs).likes
        = initialLikes + (Solution6.run (Solution6.mount initialLikes) evs).succeeded
          + (Solution6.run (Solution6.mount initialLikes) evs).requests.length) ∧
    (∀ (initialLikes : Int) (evs : List Solution6.Event),
      (Solution6.run (Solution6.mount initialLikes) evs).requests = [] →
      (Solution6.run (Solution6.mount initialLikes) evs).likes
        = initialLikes + (Solution6.run (Solution6.mount initialLikes) evs).succeeded) ∧
    (∀ initialLikes : Int,
      (Solution6.run (Solution6.mount initialLikes) [.handleLike, .handleLike]).requests
        = [1, 2] ∧
      (Solution6.run (Solution6.mount initialLikes) [.handleLike, .handleLike]).likes
        = initialLikes + 2 ∧
      (Solution6.run (Solution6.mount initialLikes)
        [.handleLike, .handleLike, .settle 1 .ok]).requests = [2] ∧
      (Solution6.run (Solution6.mount initialLikes)
        [.handleLike, .handleLike, .settle 1 .ok]).likes = initialLikes + 2 ∧
      ∀ r : Browser.FetchResult, r.failed = true →
        (Solution6.run (Solution6.mount initialLikes)
          [.handleLike, .handleLike, .settle 1 .ok, .settle 2 r]).likes = initialLikes + 1 ∧
        (Solution6.run (Solution6.mount initialLikes)
          [.handleLike, .handleLike, .settle 1 .ok, .settle 2 r]).requests = [] ∧
        (Solution6.run (Solution6.mount initialLikes)
          [.handleLike, .handleLike, .settle 2 r, .settle 1 .ok]).likes = initialLikes + 1 ∧
        (Solution6.run (Solution6.mount initialLikes)
          [.handleLike, .render, .settle 1 .ok, .render, .handleLike, .render,
            .settle 2 r]).likes = initialLikes + 1) ∧
    (∀ (initialLikes : Int) (r : Browser.FetchResult), r.failed = true →
      (Solution6.run (Solution6.mount initialLikes) [.handleLike, .settle 1 r]).likes
        = initialLikes) := by
  have bal : ∀ (initialLikes : Int) (evs : List Solution6.Event),
      (Solution6.run (Solution6.mount initialLikes) evs).likes
        = initialLikes + (Solution6.run (Solution6.mount initialLikes) evs).succeeded
          + (Solution6.run (Solution6.mount initialLikes) evs).requests.length := by
    intro initialLikes evs
    have h := Solution6.like_run_balance evs (Solution6.mount initialLikes)
    simp only [Solution6.mount, List.length_nil] at h ⊢
    push_cast at h
    linarith
  refine ⟨?_, ?_, ?_, bal, ?_, ?_, ?_⟩
  · intro s hs
    simp [Solution6.handleLike, hs]
  · intro s r
    cases r <;> simp [Solution6.continuation, Browser.FetchResult.failed]
  · intro s id r hid
    cases r <;> simp [Solution6.settle, hid, Solution6.continuation, Browser.FetchResult.failed]
  · intro initialLikes evs hnil
    have h := bal initialLikes evs
    rw [hnil] at h
    simpa using h
  · intro initialLikes
    refine ⟨?_, ?_, ?_, ?_, ?_⟩
    · simp [Solution6.run, Solution6.step, Solution6.mount, Solution6.handleLike]
    · simp [Solution6.run, Solution6.step, Solution6.mount, Solution6.handleLike]
      ring
    · simp [Solution6.run, Solution6.step, Solution6.mount, Solution6.handleLike,
        Solution6.settle, Solution6.continuation, Browser.FetchResult.failed]
    · simp [Solution6.run, Solution6.step, Solution6.mount, Solution6.handleLike,
        Solution6.settle, Solution6.continuation, Browser.FetchResult.failed]
      ring
    · intro r hr
      cases r with
      | ok => cases hr
      | notOk =>
          refine ⟨?_, ?_, ?_, ?_⟩ <;>
            simp [Solution6.run, Solution6.step, Solution6.mount, Solution6.handleLike,
              Solution6.settle, Solution6.continuation, Browser.FetchResult.failed,
              Solution6.render]
      | rejected =>
          refine ⟨?_, ?_, ?_, ?_⟩ <;>
            simp [Solution6.run, Solution6.step, Solution6.mount, Solution6.handleLike,
              Solution6.settle, Solution6.continuation, Browser.FetchResult.failed,
              Solution6.render]
  · intro initialLikes r hr
    simp [Solution6.run, Solution6.step, Solution6.mount, Solution6.handleLike, Solution6.settle,
      Solution6.continuation, hr]

/-- C15: the naive `LikeButton` is racy.  `handleLike` is invoked, and invoked
again while the first request is under way; `likes` is `initialLikes + 2`.  The
second request succeeds and then the first fails: its handler writes back the
`likes` it closed over, and `likes` is `initialLikes`, not `initialLikes + 1`. -/
theorem naive_rollback_is_racy (initialLikes : Int) :
    (Problem6.run (Problem6.mount initialLikes) [.handleLike]).requests
      = [{ id := 1, likes := initialLikes }] ∧
    (Problem6.run (Problem6.mount initialLikes) [.handleLike, .handleLike]).likes
      = initialLikes + 2 ∧
    (Problem6.run (Problem6.mount initialLikes)
      [.handleLike, .handleLike, .settle 2 .ok]).requests
      = [{ id := 1, likes := initialLikes }] ∧
    (Problem6.run (Problem6.mount initialLikes)
      [.handleLike, .handleLike, .settle 2 .ok]).likes = initialLikes + 2 ∧
    (Problem6.run (Problem6.mount initialLikes)
      [.handleLike, .handleLike, .settle 2 .ok, .settle 1 .notOk]).likes = initialLikes ∧
    (Problem6.run (Problem6.mount initialLikes)
      [.handleLike, .handleLike, .settle 2 .ok, .settle 1 .notOk]).likes ≠ initialLikes + 1 := by
  simp [Problem6.run, Problem6.step, Problem6.mount, Problem6.handleLike, Problem6.settle,
    Problem6.continuation, Browser.FetchResult.failed, List.find?, List.erase]
  ring_nf
  trivial

/-- C16: the gate of the corrected `LikeButton` reads the `loading` of the
render the handler belongs to, not the current one.  An invocation in a render
whose `loading` is true returns the state as it is; one that passes the gate
sets `loading` to true and issues one request; and when a request under way
settles, with any outcome, `loading` is false.  But after an invocation and
before the next render `loading` is true and a second invocation passes the
gate all the same: `likes` goes up again and a second request is issued; when
the first request settles `loading` is false while the second is under way.
With a render between the two invocations the second changes nothing. -/
theorem gate_reads_stale_loading :
    (∀ s : Solution6.LikeButton, s.rendered = true → Solution6.handleLike s = s) ∧
    (∀ s : Solution6.LikeButton, s.rendered = false →
      (Solution6.handleLike s).loading = true ∧
      (Solution6.handleLike s).requests = s.requests ++ [s.issued + 1] ∧
      (Solution6.handleLike s).issued = s.issued + 1) ∧
    (∀ (s : Solution6.LikeButton) (id : Nat) (r : Browser.FetchResult), id ∈ s.requests →
      (Solution6.settle id r s).loading = false) ∧
    (Solution6.run (Solution6.mount 0) [.handleLike]).loading = true ∧
    (Solution6.run (Solution6.mount 0) [.handleLike]).likes = 1 ∧
    (Solution6.run (Solution6.mount 0) [.handleLike]).requests = [1] ∧
    (Solution6.handleLike (Solution6.run (Solution6.mount 0) [.handleLike])).likes = 2 ∧
    (Solution6.handleLike (Solution6.run (Solution6.mount 0) [.handleLike])).requests
      = [1, 2] ∧
    (Solution6.run (Solution6.mount 0) [.handleLike, .handleLike, .settle 1 .ok]).loading
      = false ∧
    (Solution6.run (Solution6.mount 0) [.handleLike, .handleLike, .settle 1 .ok]).requests
      = [2] ∧
    Solution6.run (Solution6.mount 0) [.handleLike, .render, .handleLike]
      = Solution6.run (Solution6.mount 0) [.handleLike, .render] ∧
    (Solution6.run (Solution6.mount 0) [.handleLike, .render, .handleLike]).likes = 1 := by
  refine ⟨?_, ?_, ?_, ?_⟩
  · intro s hs
    simp [Solution6.handleLike, hs]
  · intro s hs
    simp [Solution6.handleLike, hs]
  · intro s id r hid
    simp [Solution6.settle, hid, Solution6.continuation]
  · decide

/-! ## Theorems: the paged search -/

namespace JS

theorem slice_of_nonneg {α : Type} (xs : List α) (start : Nat) (size : Nat) :
    slice xs (start : Int) ((start : Int) + size) = (xs.drop start).take size := by
  unfold slice
  have h1 : ¬ ((start : Int) < 0) := by omega
  have h2 : ¬ ((start : Int) + size < 0) := by omega
  simp only [h1, h2, if_false]
  rcases Nat.lt_or_ge start xs.length with hlt | hge
  · have hk : (min (start : Int) (xs.length : Int)).toNat = start := by omega
    rw [hk]
    rcases Nat.le_total (start + size) xs.length with hle | hgt
    · have hf : (min ((start : Int) + size) (xs.length : Int) - min (start : Int) xs.length).toNat
          = size := by omega
      rw [hf]
    · have hf : (min ((start : Int) + size) (xs.length : Int) - min (start : Int) xs.length).toNat
          = xs.length - start := by omega
      rw [hf]
      have hlen : (xs.drop start).length = xs.length - start := List.length_drop _ _
      rw [List.take_of_length_le (by omega), List.take_of_length_le (by omega)]
  · have hk : (min (start : Int) (xs.length : Int)).toNat = xs.length := by omega
    rw [hk, List.drop_eq_nil_of_le (Nat.le_refl _), List.drop_eq_nil_of_le hge]
    simp

theorem ceilDiv_five (n : Nat) : ceilDiv n 5 = ⌈(n : ℚ) / 5⌉₊ := by
  unfold ceilDiv
  apply le_antisymm
  · have h : (n : ℚ) / 5 ≤ (⌈(n : ℚ) / 5⌉₊ : ℚ) := Nat.le_ceil _
    have h' : (n : ℚ) ≤ ((5 * ⌈(n : ℚ) / 5⌉₊ : ℕ) : ℚ) := by
      push_cast
      linarith [(div_le_iff₀ (by norm_num : (0 : ℚ) < 5)).mp h]
    have h'' : n ≤ 5 * ⌈(n : ℚ) / 5⌉₊ := by exact_mod_cast h'
    omega
  · apply Nat.ceil_le.mpr
    have h : n ≤ 5 * ((n + 5 - 1) / 5) := by omega
    have h' : (n : ℚ) ≤ ((5 * ((n + 5 - 1) / 5) : ℕ) : ℚ) := by exact_mod_cast h
    rw [div_le_iff₀ (by norm_num : (0 : ℚ) < 5)]
    push_cast at h' ⊢
    linarith

end JS

namespace ServersidePagination

theorem searchApi_of_pos (toLowerCase : String → String) (query : String) (p : Nat)
    (hp : 1 ≤ p) :
    searchApi toLowerCase false query (p : Int)
      = some { items := ((filtered toLowerCase query).drop ((p - 1) * 5)).take 5,
               totalPages := totalPagesOf toLowerCase query } := by
  have hs : ((p : Int) - 1) * (PAGE_SIZE : Int) = (((p - 1) * 5 : Nat) : Int) := by
    simp only [PAGE_SIZE]
    push_cast [Nat.cast_sub hp]
    ring
  simp only [searchApi, Bool.false_eq_true, if_false, hs, totalPagesOf]
  rw [show ((PAGE_SIZE : Nat) : Int) = ((5 : Nat) : Int) from rfl, JS.slice_of_nonneg]

end ServersidePagination

/-- C17: the paged search result.  For every query and every page `p >= 1`,
`searchApi`, when it does not fail, resolves with `totalPages` equal to
`max(1, ceil(n / 5))` and with the items numbered `(p-1)*5+1 .. min(p*5, n)` of
the matches, where the matches are the `n` items of `DATA`, in `DATA` order,
whose lower-cased name includes the lower-cased query (`toLowerCase` being the
built-in).  When the query matches all 15 items, `totalPages` is 3, page 1 has
the first 5 entries and page 2 has the entries `i-06` to `i-10`. -/
theorem paged_search_result (toLowerCase : String → String) (query : String) (p : Nat)
    (hp : 1 ≤ p) :
    ServersidePagination.searchApi toLowerCase false query (p : Int)
      = some { items := ((ServersidePagination.filtered toLowerCase query).drop
                          ((p - 1) * 5)).take 5,
               totalPages := ServersidePagination.totalPagesOf toLowerCase query } ∧
    ServersidePagination.totalPagesOf toLowerCase query
      = max 1 ⌈((ServersidePagination.filtered toLowerCase query).length : ℚ) / 5⌉₊ ∧
    (((ServersidePagination.filtered toLowerCase query).drop ((p - 1) * 5)).take 5).length
      = min (p * 5) (ServersidePagination.filtered toLowerCase query).length - (p - 1) * 5 ∧
    (∀ i, i < 5 →
      (((ServersidePagination.filtered toLowerCase query).drop ((p - 1) * 5)).take 5)[i]?
        = (ServersidePagination.filtered toLowerCase query)[(p - 1) * 5 + i]?) ∧
    (ServersidePagination.filtered toLowerCase query).Sublist ServersidePagination.DATA ∧
    (∀ item, item ∈ ServersidePagination.filtered toLowerCase query ↔
      item ∈ ServersidePagination.DATA ∧
        JS.includes (toLowerCase item.name) (toLowerCase query) = true) ∧
    (ServersidePagination.filtered toLowerCase query = ServersidePagination.DATA →
      ServersidePagination.totalPagesOf toLowerCase query = 3 ∧
      ((ServersidePagination.searchApi toLowerCase false query 1).map
          (fun res => res.items.map (fun item => item.id)))
        = some ["i-01", "i-02", "i-03", "i-04", "i-05"] ∧
      ((ServersidePagination.searchApi toLowerCase false query 2).map
          (fun res => res.items.map (fun item => item.id)))
        = some ["i-06", "i-07", "i-08", "i-09", "i-10"]) := by
  refine ⟨ServersidePagination.searchApi_of_pos toLowerCase query p hp, ?_, ?_, ?_, ?_, ?_, ?_⟩
  · simp only [ServersidePagination.totalPagesOf, ServersidePagination.PAGE_SIZE]
    rw [JS.ceilDiv_five]
  · simp only [List.length_take, List.length_drop]
    omega
  · intro i hi
    rw [List.getElem?_take_of_lt hi, List.getElem?_drop]
  · exact List.filter_sublist _
  · intro item
    simp [ServersidePagination.filtered, List.mem_filter]
  · intro hall
    have h1 := ServersidePagination.searchApi_of_pos toLowerCase query 1 (Nat.le_refl _)
    have h2 := ServersidePagination.searchApi_of_pos toLowerCase query 2 (by decide)
    have htp : ServersidePagination.totalPagesOf toLowerCase query = 3 := by
      simp only [ServersidePagination.totalPagesOf, hall]
      decide
    refine ⟨htp, ?_, ?_⟩
    · rw [show ((1 : Int)) = ((1 : Nat) : Int) from rfl, h1, hall]
      simp only [Option.map_some']
      exact congrArg some (by decide)
    · rw [show ((2 : Int)) = ((2 : Nat) : Int) from rfl, h2, hall]
      simp only [Option.map_some']
      exact congrArg some (by decide)

theorem paged_search_result_witness :
    ServersidePagination.filtered JS.toLowerCaseAscii "" = ServersidePagination.DATA ∧
    ServersidePagination.searchApi JS.toLowerCaseAscii false "" ((2 : Nat) : Int)
      = some { items := ((ServersidePagination.filtered JS.toLowerCaseAscii "").drop
                          ((2 - 1) * 5)).take 5,
               totalPages := ServersidePagination.totalPagesOf JS.toLowerCaseAscii "" } ∧
    ServersidePagination.totalPagesOf JS.toLowerCaseAscii "" = 3 ∧
    ((ServersidePagination.searchApi JS.toLowerCaseAscii false "" 2).map
        (fun res => res.items.map (fun item => item.id)))
      = some ["i-06", "i-07", "i-08", "i-09", "i-10"] :=
  ⟨by decide,
   (paged_search_result JS.toLowerCaseAscii "" 2 (by decide)).1,
   ((paged_search_result JS.toLowerCaseAscii "" 2 (by decide)).2.2.2.2.2.2 (by decide)).1,
   ((paged_search_result JS.toLowerCaseAscii "" 2 (by decide)).2.2.2.2.2.2 (by decide)).2.2⟩

/-- C18, as the code has it: a page beyond the last is neither rejected nor
clamped.  For every query and every page `p` greater than the `totalPages` of
the query, `searchApi`, when it does not fail, resolves with no items and with
that `totalPages`; and whether it fails does not depend on the page. -/
theorem page_beyond_last_is_empty (toLowerCase : String → String) (query : String) (p : Int)
    (h : (ServersidePagination.totalPagesOf toLowerCase query : Int) < p) :
    ServersidePagination.searchApi toLowerCase false query p
      = some { items := [], totalPages := ServersidePagination.totalPagesOf toLowerCase query } ∧
    ∀ shouldFail : Bool,
      ServersidePagination.searchApi toLowerCase shouldFail query p = none ↔ shouldFail = true := by
  constructor
  · have hp : 1 ≤ p := by
      have : 1 ≤ ServersidePagination.totalPagesOf toLowerCase query := by
        simp [ServersidePagination.totalPagesOf]
      omega
    obtain ⟨n, rfl⟩ := Int.eq_ofNat_of_zero_le (by omega : 0 ≤ p)
    have hn : 1 ≤ n := by omega
    rw [ServersidePagination.searchApi_of_pos toLowerCase query n hn]
    have hlen : (ServersidePagination.filtered toLowerCase query).length ≤ (n - 1) * 5 := by
      have h' : ServersidePagination.totalPagesOf toLowerCase query < n := by exact_mod_cast h
      simp only [ServersidePagination.totalPagesOf, ServersidePagination.PAGE_SIZE,
        JS.ceilDiv] at h'
      omega
    rw [List.drop_eq_nil_of_le hlen]
    rfl
  · intro shouldFail
    cases shouldFail <;> simp [ServersidePagination.searchApi]

theorem page_beyond_last_is_empty_witness :
    ((ServersidePagination.totalPagesOf JS.toLowerCaseAscii "" : Nat) : Int) < 4 ∧
    ServersidePagination.searchApi JS.toLowerCaseAscii false "" 4
      = some { items := [],
               totalPages := ServersidePagination.totalPagesOf JS.toLowerCaseAscii "" } :=
  ⟨by decide, (page_beyond_last_is_empty JS.toLowerCaseAscii "" 4 (by decide)).1⟩

/-- C18 fails as stated.  The empty query matches all 15 items, so `totalPages`
is 3 and page 3 holds `i-11` to `i-15`; the request for page 4 is not rejected
and does not resolve with the items of page 3: it resolves with no items. -/
theorem page_beyond_last_not_clamped :
    ((ServersidePagination.searchApi JS.toLowerCaseAscii false "" 3).map
        (fun res => (res.items.map (fun item => item.id), res.totalPages)))
      = some (["i-11", "i-12", "i-13", "i-14", "i-15"], 3) ∧
    ServersidePagination.searchApi JS.toLowerCaseAscii false "" 4
      = some { items := [], totalPages := 3 } ∧
    ServersidePagination.searchApi JS.toLowerCaseAscii false "" 4 ≠ none ∧
    (ServersidePagination.searchApi JS.toLowerCaseAscii false "" 4).map (fun res => res.items)
      ≠ (ServersidePagination.searchApi JS.toLowerCaseAscii false "" 3).map
          (fun res => res.items) := by
  decide

/-! ## Theorems: validation of the records and persistence of the favorites -/

namespace MovieExplorer

theorem accepted_eq_some (raw : RawMovie) (m : Movie) :
    accepted raw = some m ↔
      raw.imdbId = some m.imdbId ∧ raw.title = some m.title ∧ raw.year = some m.year ∧
      raw.poster = some m.poster ∧ m.imdbId ≠ "" ∧ m.title ≠ "" ∧ m.year ≠ "" ∧
      m.poster ≠ "" := by
  obtain ⟨i, t, y, p⟩ := raw
  obtain ⟨mi, mt, my, mp⟩ := m
  cases i <;> cases t <;> cases y <;> cases p <;> simp [accepted]
  rename_i i t y p
  constructor
  · rintro ⟨⟨h1, h2, h3, h4⟩, rfl, rfl, rfl, rfl⟩
    exact ⟨rfl, rfl, rfl, rfl, h1, h2, h3, h4⟩
  · rintro ⟨rfl, rfl, rfl, rfl, h1, h2, h3, h4⟩
    exact ⟨⟨h1, h2, h3, h4⟩, rfl, rfl, rfl, rfl⟩

theorem map_filter_eq_filterMap_of {α β : Type} (keep : α → Bool) (f : α → β)
    (g : α → Option β) (h : ∀ x, g x = if keep x = true then some (f x) else none)
    (l : List α) : (l.filter keep).map f = l.filterMap g := by
  induction l with
  | nil => rfl
  | cons x rest ih =>
      by_cases hk : keep x = true
      · simp [List.filter_cons, List.filterMap_cons, h, hk, ih]
      · simp [List.filter_cons, List.filterMap_cons, h, hk, ih]

theorem accepted_eq_ite (raw : RawMovie) :
    accepted raw
      = if (truthy raw.title && truthy raw.year && truthy raw.imdbId && truthy raw.poster) = true
        then some { imdbId := raw.imdbId.getD "", title := raw.title.getD "",
                    year := raw.year.getD "", poster := raw.poster.getD "" }
        else none := by
  obtain ⟨imdbId, title, year, poster⟩ := raw
  cases imdbId <;> cases title <;> cases year <;> cases poster <;> simp [accepted, truthy]
  rename_i imdbId title year poster
  by_cases h1 : imdbId = "" <;> by_cases h2 : title = "" <;> by_cases h3 : year = "" <;>
    by_cases h4 : poster = "" <;> simp [h1, h2, h3, h4]

theorem formatMovieList_eq_filterMap (movies : List RawMovie) :
    formatMovieList movies = movies.filterMap accepted :=
  map_filter_eq_filterMap_of _ _ accepted accepted_eq_ite movies

end MovieExplorer

/-- C19: validation of the records.  For every list of raw records, the list
the hook commits to `movieList` is the list of the accepted records, in their
original order, each as the movie made of its four values, a record being
accepted when its identifier, title, year and poster are all present and
non-empty.  A movie is in the list exactly when some raw record carries its
four values and none of them is empty. -/
theorem record_validation (movies : List MovieExplorer.RawMovie)
    (s : MovieExplorer.UseFetchMovieData) :
    (MovieExplorer.onResolved movies s).movieList = movies.filterMap MovieExplorer.accepted ∧
    (∀ m : MovieExplorer.Movie, m ∈ (MovieExplorer.onResolved movies s).movieList ↔
      ∃ raw ∈ movies, raw.imdbId = some m.imdbId ∧ raw.title = some m.title ∧
        raw.year = some m.year ∧ raw.poster = some m.poster ∧ m.imdbId ≠ "" ∧
        m.title ≠ "" ∧ m.year ≠ "" ∧ m.poster ≠ "") ∧
    (∀ raw : MovieExplorer.RawMovie,
      (raw.imdbId = none ∨ raw.title = none ∨ raw.year = none ∨ raw.poster = none ∨
        raw.imdbId = some "" ∨ raw.title = some "" ∨ raw.year = some "" ∨
        raw.poster = some "") →
      MovieExplorer.accepted raw = none) := by
  have h : (MovieExplorer.onResolved movies s).movieList
      = movies.filterMap MovieExplorer.accepted :=
    MovieExplorer.formatMovieList_eq_filterMap movies
  refine ⟨h, ?_, ?_⟩
  · intro m
    rw [h, List.mem_filterMap]
    constructor
    · rintro ⟨raw, hmem, hacc⟩
      exact ⟨raw, hmem, (MovieExplorer.accepted_eq_some raw m).mp hacc⟩
    · rintro ⟨raw, hmem, hacc⟩
      exact ⟨raw, hmem, (MovieExplorer.accepted_eq_some raw m).mpr hacc⟩
  · intro raw hraw
    obtain ⟨i, t, y, p⟩ := raw
    cases i <;> cases t <;> cases y <;> cases p <;> simp [MovieExplorer.accepted] at hraw ⊢
    rename_i i t y p
    intro h1 h2 h3
    rcases hraw with rfl | rfl | rfl | rfl
    · exact absurd rfl h1
    · exact absurd rfl h2
    · exact absurd rfl h3
    · rfl

/-- C20, the code at the failing input.  The hook is mounted on a storage that
holds one saved favorite.  In the effect pass of the first render the first
effect reads the entry (once) and sets `isFirstLoad.current` to false, and the
second effect, which runs after it, finds the flag false and writes the `[]` of
the first render: the saved list has been overwritten.  The render for the
queued `setFavorites` writes the list back.  Mounted on an empty storage the
hook writes `[]` as well. -/
theorem first_pass_writes_empty_list :
    (MovieExplorer.mountEffects
      (some [{ imdbId := "tt0372784", title := "Batman Begins", year := "2005",
               poster := "begins.jpg" }])).1.reads = 1 ∧
    (MovieExplorer.mountEffects
      (some [{ imdbId := "tt0372784", title := "Batman Begins", year := "2005",
               poster := "begins.jpg" }])).1.writes = [[]] ∧
    (MovieExplorer.mountEffects
      (some [{ imdbId := "tt0372784", title := "Batman Begins", year := "2005",
               poster := "begins.jpg" }])).1.stored = some [] ∧
    (MovieExplorer.UsePersistFavorites.mount
      (some [{ imdbId := "tt0372784", title := "Batman Begins", year := "2005",
               poster := "begins.jpg" }])).writes
      = [[], [{ imdbId := "tt0372784", title := "Batman Begins", year := "2005",
                poster := "begins.jpg" }]] ∧
    (MovieExplorer.UsePersistFavorites.mount none).writes = [[]] := by
  decide

/-! ## Theorems: the todo list -/

/-- C26: toggling is an involution in `todoReducer`.  For every list of todos
and every id, two `completed` actions with that id give back the list; one
such action keeps the length, keeps every todo whose id differs, and, at every
position, keeps `id`, `title` and `createdAt` and negates `completed` exactly
when the id matches. -/
theorem completed_is_involution (state : List TodoList.Todo) (id : String) :
    TodoList.todoReducer (TodoList.todoReducer state (.completed id)) (.completed id) = state ∧
    (TodoList.todoReducer state (.completed id)).length = state.length ∧
    (∀ (i : Nat) (todo : TodoList.Todo), state[i]? = some todo →
      ∃ next, (TodoList.todoReducer state (.completed id))[i]? = some next ∧
        next.id = todo.id ∧ next.title = todo.title ∧ next.createdAt = todo.createdAt ∧
        (todo.id = id → next.completed = !todo.completed) ∧
        (todo.id ≠ id → next = todo)) := by
  refine ⟨?_, ?_, ?_⟩
  · simp only [TodoList.todoReducer, List.map_map]
    conv_rhs => rw [← List.map_id state]
    apply List.map_congr_left
    intro todo _
    by_cases h : todo.id = id
    · cases todo
      simp_all [Function.comp]
    · simp [Function.comp, h]
  · simp [TodoList.todoReducer]
  · intro i todo hi
    by_cases h : todo.id = id
    · exact ⟨{ todo with completed := !todo.completed },
        by simp [TodoList.todoReducer, List.getElem?_map, hi, h], rfl, rfl, rfl,
        fun _ => rfl, fun hne => absurd h hne⟩
    · exact ⟨todo, by simp [TodoList.todoReducer, List.getElem?_map, hi, h], rfl, rfl, rfl,
        fun he => absurd he h, fun _ => rfl⟩

/-- C27, the code at the failing inputs.  The item of the todo "Buy milk" is
double-clicked, the text box is emptied and loses the focus (nothing is saved),
and the item is double-clicked again: the session starts with `editValue`
empty, not with the title.  And after a session that saves "Buy bread" from
the typed "Buy bread " the next session starts from the typed text, trailing
space included. -/
theorem edit_session_starts_stale :
    (TodoList.run (TodoList.TodoItem.mount
        { id := "t1", title := "Buy milk", completed := false, createdAt := 1 })
      [.doubleClick, .change "", .blur, .doubleClick]).isEditing = true ∧
    (TodoList.run (TodoList.TodoItem.mount
        { id := "t1", title := "Buy milk", completed := false, createdAt := 1 })
      [.doubleClick, .change "", .blur, .doubleClick]).todo.title = "Buy milk" ∧
    (TodoList.run (TodoList.TodoItem.mount
        { id := "t1", title := "Buy milk", completed := false, createdAt := 1 })
      [.doubleClick, .change "", .blur, .doubleClick]).editValue = "" ∧
    (TodoList.run (TodoList.TodoItem.mount
        { id := "t1", title := "Buy milk", completed := false, createdAt := 1 })
      [.doubleClick, .change "Buy bread ", .enter, .doubleClick]).todo.title = "Buy bread" ∧
    (TodoList.run (TodoList.TodoItem.mount
        { id := "t1", title := "Buy milk", completed := false, createdAt := 1 })
      [.doubleClick, .change "Buy bread ", .enter, .doubleClick]).editValue = "Buy bread " := by
  decide

/-! ## Theorems: the render cycle of `EditableTitle` -/

namespace Problem4

theorem settleRenders_three (s : EditableTitle) (next : Scheduled) (fuel : Nat) :
    ∃ t, settleRenders (fuel + 3) next s = some t ∧ t.title = s.title ∧
      t.renders ≤ s.renders + 3 ∧
      (next = .update → s.deps ≠ some (s.title, s.value) →
        t.value = s.title ∧ t.deps = some (s.title, s.title) ∧ t.eager = true ∧
        s.renders + 2 ≤ t.renders ∧ (s.value ≠ s.title → t.renders = s.renders + 3)) := by
  obtain ⟨title, value, deps, renders, eager⟩ := s
  cases next with
  | nothing =>
      exact ⟨{ title := title, value := value, deps := deps, renders := renders,
               eager := eager }, by simp only [settleRenders], rfl, Nat.le_add_right _ _,
        fun h => by cases h⟩
  | check =>
      exact ⟨{ title := title, value := value, deps := deps, renders := renders + 1,
               eager := true }, by simp only [settleRenders], rfl, by simp, fun h => by cases h⟩
  | update =>
      by_cases hd : deps = some (title, value)
      · refine ⟨{ title := title, value := value, deps := deps, renders := renders + 1,
                  eager := false }, ?_, rfl, by simp, fun _ h => absurd hd h⟩
        simp [settleRenders, effectPass, hd]
      · by_cases hv : title = value
        · subst hv
          refine ⟨{ title := title, value := title, deps := some (title, title),
                    renders := renders + 2, eager := true }, ?_, rfl, by simp,
            fun _ _ => ⟨rfl, rfl, rfl, by simp, fun h => absurd rfl h⟩⟩
          simp [settleRenders, effectPass, setValue, hd]
        · have hv2 : value ≠ title := fun h => hv h.symm
          refine ⟨{ title := title, value := title, deps := some (title, title),
                    renders := renders + 3, eager := true }, ?_, rfl, by simp,
            fun _ _ => ⟨rfl, rfl, rfl, by simp, fun _ => rfl⟩⟩
          simp [settleRenders, effectPass, setValue, hd, hv, hv2]

end Problem4

/-- C23, as the code has it: the render cycle of the flawed `EditableTitle`
comes to rest.  Three renders always suffice: from any state, whatever is
scheduled, the renders stop after at most three of them with the title
unchanged, and, when an update was scheduled and the dependencies had changed,
with `value` equal to `title`.  The mount is one render and is at rest.  In a
component at rest every user edit is followed by at most three renders, exactly
three when the edit differs from the title: one for the edit, one for the
`setValue(title)` of the effect, and one that finds the state unchanged; then
the component is at rest again, the effect has nothing to do, and the edit has
been overwritten by `title`. -/
theorem render_cycle_settles (title : String) (fuel : Nat) :
    (∀ (s : Problem4.EditableTitle) (next : Problem4.Scheduled),
      ∃ t, Problem4.settleRenders (fuel + 3) next s = some t ∧ t.title = s.title ∧
        t.renders ≤ s.renders + 3 ∧
        (next = .update → s.deps ≠ some (s.title, s.value) → t.value = s.title)) ∧
    (∃ s, Problem4.mount (fuel + 3) title = some s ∧ s.value = title ∧ s.title = title ∧
      s.deps = some (title, title) ∧ s.eager = true ∧ s.renders = 1) ∧
    (∀ s : Problem4.EditableTitle,
      s.value = title → s.title = title → s.deps = some (title, title) → s.eager = true →
      ∀ value : String, ∃ t, Problem4.change (fuel + 3) value s = some t ∧
        t.value = title ∧ t.title = title ∧ t.deps = some (title, title) ∧ t.eager = true ∧
        Problem4.effectPass t = (t, .nothing) ∧
        t.renders ≤ s.renders + 3 ∧ (value ≠ title → t.renders = s.renders + 3)) := by
  refine ⟨?_, ?_, ?_⟩
  · intro s next
    obtain ⟨t, h1, h2, h3, h4⟩ := Problem4.settleRenders_three s next fuel
    exact ⟨t, h1, h2, h3, fun hn hd => (h4 hn hd).1⟩
  · exact ⟨{ title := title, value := title, deps := some (title, title), renders := 1,
             eager := true },
      by simp [Problem4.mount, Problem4.effectPass, Problem4.setValue, Problem4.settleRenders],
      rfl, rfl, rfl, rfl, rfl⟩
  · intro s hv ht hd he value
    obtain ⟨title0, value0, deps0, renders0, eager0⟩ := s
    simp only at hv ht hd he
    subst hv ht hd he
    by_cases hval : value = title0
    · subst hval
      exact ⟨{ title := value, value := value, deps := some (value, value),
               renders := renders0, eager := true },
        by simp [Problem4.change, Problem4.setValue, Problem4.settleRenders],
        rfl, rfl, rfl, rfl, by simp [Problem4.effectPass], Nat.le_add_right _ _,
        fun h => absurd rfl h⟩
    · obtain ⟨t, g1, g2, g3, g4⟩ := Problem4.settleRenders_three
        { title := title0, value := value, deps := some (title0, title0), renders := renders0,
          eager := true } .update fuel
      have hdeps : (some (title0, title0) : Option (String × String)) ≠ some (title0, value) := by
        intro h
        exact hval (Prod.mk.inj (Option.some.inj h)).2.symm
      obtain ⟨k1, k2, k3, _, k5⟩ := g4 rfl hdeps
      refine ⟨t, by simp [Problem4.change, Problem4.setValue, hval, g1], k1, g2, k2, k3, ?_, g3,
        fun h => k5 h⟩
      have hd3 : t.deps = some (t.title, t.value) := by rw [k2, g2, k1]
      simp [Problem4.effectPass, hd3]

/-- C23 fails as stated.  `EditableTitle` is mounted with the title "Hello":
one render, and the cycle is at rest.  The user types "Hello!": three more
renders, the last of which finds the state unchanged, and the cycle is at rest
again, with `value` back to "Hello". -/
theorem render_cycle_reaches_fixed_point :
    Problem4.mount 10 "Hello"
      = some { title := "Hello", value := "Hello", deps := some ("Hello", "Hello"),
               renders := 1, eager := true } ∧
    Problem4.change 10 "Hello!"
        { title := "Hello", value := "Hello", deps := some ("Hello", "Hello"), renders := 1,
          eager := true }
      = some { title := "Hello", value := "Hello", deps := some ("Hello", "Hello"),
               renders := 4, eager := true } ∧
    Problem4.effectPass
        { title := "Hello", value := "Hello", deps := some ("Hello", "Hello"), renders := 4,
          eager := true }
      = ({ title := "Hello", value := "Hello", deps := some ("Hello", "Hello"), renders := 4,
           eager := true }, .nothing) := by
  decide

/-! ## Theorems: the pages of a query -/

namespace ServersidePagination

theorem chunks_concat {α : Type} (k : Nat) (l : List α) (h : l.length ≤ k * 5) :
    (List.range k).flatMap (fun i => (l.drop (i * 5)).take 5) = l := by
  induction k generalizing l with
  | zero =>
      have : l = [] := List.eq_nil_of_length_eq_zero (by omega)
      simp [this]
  | succ k ih =>
      rw [List.range_succ_eq_map, List.flatMap_cons, List.flatMap_map]
      have hrest : (List.range k).flatMap (fun i => (l.drop ((i + 1) * 5)).take 5)
          = l.drop 5 := by
        have hlen : (l.drop 5).length ≤ k * 5 := by
          rw [List.length_drop]; omega
        have := ih (l.drop 5) hlen
        simp only [List.drop_drop] at this
        rw [← this]
        apply List.flatMap_congr
        intro i _
        rw [show 5 + i * 5 = (i + 1) * 5 by ring]
      simp only [Nat.zero_mul, List.drop_zero, Function.comp]
      rw [hrest, List.take_append_drop]

theorem pageItems_eq (toLowerCase : String → String) (query : String) (i : Nat) :
    pageItems toLowerCase query (i + 1)
      = ((filtered toLowerCase query).drop (i * 5)).take 5 := by
  unfold pageItems
  rw [searchApi_of_pos toLowerCase query (i + 1) (Nat.succ_pos i)]
  simp

theorem length_le_totalPages (toLowerCase : String → String) (query : String) :
    (filtered toLowerCase query).length ≤ totalPagesOf toLowerCase query * 5 := by
  simp only [totalPagesOf, PAGE_SIZE, JS.ceilDiv]
  omega

end ServersidePagination

/-- C25: the pages partition the matches.  For every query, the items that
`searchApi` resolves with for the pages 1, 2, ..., `totalPages`, one after the
other, are the list of the items of `DATA` that match the query, in `DATA`
order and each once (the items of `DATA` are pairwise different); every page
has at most 5 items, and every page before the last has exactly 5. -/
theorem pages_partition_matches (toLowerCase : String → String) (query : String) :
    ServersidePagination.allPages toLowerCase query
      = ServersidePagination.DATA.filter
          (fun item => JS.includes (toLowerCase item.name) (toLowerCase query)) ∧
    (ServersidePagination.allPages toLowerCase query).Nodup ∧
    (ServersidePagination.allPages toLowerCase query).Sublist ServersidePagination.DATA ∧
    (∀ p, 1 ≤ p → (ServersidePagination.pageItems toLowerCase query p).length ≤ 5) ∧
    (∀ p, 1 ≤ p → p < ServersidePagination.totalPagesOf toLowerCase query →
      (ServersidePagination.pageItems toLowerCase query p).length = 5) := by
  have hall : ServersidePagination.allPages toLowerCase query
      = ServersidePagination.filtered toLowerCase query := by
    unfold ServersidePagination.allPages
    rw [← ServersidePagination.chunks_concat _ (ServersidePagination.filtered toLowerCase query)
      (ServersidePagination.length_le_totalPages toLowerCase query)]
    apply List.flatMap_congr
    intro i _
    exact ServersidePagination.pageItems_eq toLowerCase query i
  have hsub : (ServersidePagination.filtered toLowerCase query).Sublist
      ServersidePagination.DATA := List.filter_sublist _
  refine ⟨hall, ?_, ?_, ?_, ?_⟩
  · rw [hall]
    exact List.Nodup.sublist hsub (by decide)
  · rw [hall]; exact hsub
  · intro p hp
    obtain ⟨i, rfl⟩ : ∃ i, p = i + 1 := ⟨p - 1, by omega⟩
    rw [ServersidePagination.pageItems_eq]
    simp only [List.length_take]
    omega
  · intro p hp hlt
    obtain ⟨i, rfl⟩ : ∃ i, p = i + 1 := ⟨p - 1, by omega⟩
    rw [ServersidePagination.pageItems_eq]
    simp only [List.length_take, List.length_drop]
    simp only [ServersidePagination.totalPagesOf, ServersidePagination.PAGE_SIZE,
      JS.ceilDiv] at hlt
    omega

/-- C24, the code at the failing input.  The app is mounted; its first debounce
timer commits the empty query; the response for page 1 of the empty query
arrives with `totalPages = 3`; the user types "mich" and the debounce timer
commits it, which sets `page` to 1 and issues the request for page 1 of "mich";
before any response the user clicks Next, which is enabled because `page`
differs from the `totalPages` still displayed, 3; the response for page 1 is
stale and discarded; the response for page 2 of "mich", which has one match,
arrives: `page` is 2 and `totalPages` is 1.  Next is still enabled, and another
click moves `page` to 3. -/
theorem page_exceeds_totalPages :
    (ServersidePagination.run (ServersidePagination.mount 0)
      [.advance 300, .fire 1, .advance 500,
       .settle { requestId := 1, query := "", page := 1 }
         (ServersidePagination.searchApi JS.toLowerCaseAscii false "" 1),
       .type "mich", .advance 300, .fire 2]).totalPages = 3 ∧
    (ServersidePagination.run (ServersidePagination.mount 0)
      [.advance 300, .fire 1, .advance 500,
       .settle { requestId := 1, query := "", page := 1 }
         (ServersidePagination.searchApi JS.toLowerCaseAscii false "" 1),
       .type "mich", .advance 300, .fire 2]).inFlight
      = [{ requestId := 2, query := "mich", page := 1 }] ∧
    (ServersidePagination.run (ServersidePagination.mount 0)
      [.advance 300, .fire 1, .advance 500,
       .settle { requestId := 1, query := "", page := 1 }
         (ServersidePagination.searchApi JS.toLowerCaseAscii false "" 1),
       .type "mich", .advance 300, .fire 2, .clickNext, .advance 400,
       .settle { requestId := 2, query := "mich", page := 1 }
         (ServersidePagination.searchApi JS.toLowerCaseAscii false "mich" 1),
       .settle { requestId := 3, query := "mich", page := 2 }
         (ServersidePagination.searchApi JS.toLowerCaseAscii false "mich" 2)]).page = 2 ∧
    (ServersidePagination.run (ServersidePagination.mount 0)
      [.advance 300, .fire 1, .advance 500,
       .settle { requestId := 1, query := "", page := 1 }
         (ServersidePagination.searchApi JS.toLowerCaseAscii false "" 1),
       .type "mich", .advance 300, .fire 2, .clickNext, .advance 400,
       .settle { requestId := 2, query := "mich", page := 1 }
         (ServersidePagination.searchApi JS.toLowerCaseAscii false "mich" 1),
       .settle { requestId := 3, query := "mich", page := 2 }
         (ServersidePagination.searchApi JS.toLowerCaseAscii false "mich" 2)]).totalPages = 1 ∧
    (ServersidePagination.run (ServersidePagination.mount 0)
      [.advance 300, .fire 1, .advance 500,
       .settle { requestId := 1, query := "", page := 1 }
         (ServersidePagination.searchApi JS.toLowerCaseAscii false "" 1),
       .type "mich", .advance 300, .fire 2, .clickNext, .advance 400,
       .settle { requestId := 2, query := "mich", page := 1 }
         (ServersidePagination.searchApi JS.toLowerCaseAscii false "mich" 1),
       .settle { requestId := 3, query := "mich", page := 2 }
         (ServersidePagination.searchApi JS.toLowerCaseAscii false "mich" 2)]).items = [] ∧
    (ServersidePagination.run (ServersidePagination.mount 0)
      [.advance 300, .fire 1, .advance 500,
       .settle { requestId := 1, query := "", page := 1 }
         (ServersidePagination.searchApi JS.toLowerCaseAscii false "" 1),
       .type "mich", .advance 300, .fire 2, .clickNext, .advance 400,
       .settle { requestId := 2, query := "mich", page := 1 }
         (ServersidePagination.searchApi JS.toLowerCaseAscii false "mich" 1),
       .settle { requestId := 3, query := "mich", page := 2 }
         (ServersidePagination.searchApi JS.toLowerCaseAscii false "mich" 2),
       .clickNext]).page = 3 := by
  decide

/-! ## Theorems: the epoch invariant -/

namespace Browser

theorem increasing_sublist {α : Type} (f : α → Nat) {l l' : List α} {n : Nat}
    (hp : (l.map f).Pairwise (fun a b => a < b)) (hb : ∀ x ∈ l, f x ≤ n)
    (hs : l'.Sublist l) :
    (l'.map f).Pairwise (fun a b => a < b) ∧ ∀ x ∈ l', f x ≤ n :=
  ⟨hp.sublist (hs.map f), fun x hx => hb x (hs.subset hx)⟩

theorem increasing_append {α : Type} (f : α → Nat) {l : List α} {n : Nat} (x : α)
    (hp : (l.map f).Pairwise (fun a b => a < b)) (hb : ∀ y ∈ l, f y ≤ n)
    (hx : f x = n + 1) :
    ((l ++ [x]).map f).Pairwise (fun a b => a < b) ∧ ∀ y ∈ l ++ [x], f y ≤ n + 1 := by
  constructor
  · rw [List.map_append, List.pairwise_append]
    refine ⟨hp, by simp, ?_⟩
    intro a ha b hb'
    obtain ⟨y, hy, rfl⟩ := List.mem_map.mp ha
    simp only [List.map_cons, List.map_nil, List.mem_singleton] at hb'
    have := hb y hy
    omega
  · intro y hy
    rcases List.mem_append.mp hy with hy | hy
    · exact Nat.le_succ_of_le (hb y hy)
    · simp only [List.mem_singleton] at hy
      subst hy
      exact Nat.le_of_eq hx

theorem distinct_of_increasing {α : Type} (f : α → Nat) {l : List α}
    (hp : (l.map f).Pairwise (fun a b => a < b)) :
    ∀ x ∈ l, ∀ y ∈ l, f x = f y → x = y := by
  have hn : (l.map f).Nodup := hp.imp (fun h => Nat.ne_of_lt h)
  intro x hx y hy hxy
  exact List.inj_on_of_nodup_map hn hx hy hxy

theorem last_of_current {α : Type} (f : α → Nat) {l : List α} {n : Nat}
    (hp : (l.map f).Pairwise (fun a b => a < b)) (hb : ∀ x ∈ l, f x ≤ n)
    {r : α} (hr : r ∈ l) (hn : f r = n) : l.getLast? = some r := by
  obtain ⟨l1, l2, rfl⟩ := List.append_of_mem hr
  cases l2 with
  | nil => simp
  | cons y l2 =>
      exfalso
      rw [List.map_append, List.pairwise_append] at hp
      have h2 := hp.2.1
      rw [List.map_cons, List.map_cons, List.pairwise_cons] at h2
      have hlt := h2.1 (f y) (by simp)
      have hle := hb y (by simp)
      omega

end Browser

namespace StaleWhileRevalidate

theorem useUser_step_cases (s : UseUser) (ev : Event) :
    ((step s ev).requestIdRef = s.requestIdRef ∧ (step s ev).inFlight.Sublist s.inFlight) ∨
    ((step s ev).requestIdRef = s.requestIdRef + 1 ∧
      ∃ userId, (step s ev).inFlight
        = s.inFlight ++ [{ requestId := s.requestIdRef + 1, userId := userId }]) := by
  cases ev with
  | render userId =>
      by_cases h : userId = s.userId
      · left; simp [step, h]
      · right
        simp only [step, h, if_false, effect]
        cases s.localStorage userId <;> exact ⟨rfl, userId, rfl⟩
  | refresh => right; exact ⟨rfl, s.userId, rfl⟩
  | settle r shouldFail =>
      left
      by_cases h : r ∈ s.inFlight
      · simp only [step, h, if_true]
        cases fetchUser shouldFail r.userId <;>
          simp only [complete, onFulfilled, onRejected] <;> split <;>
          exact ⟨rfl, List.erase_sublist _ _⟩
      · simp [step, h]

theorem useUser_epochs_step {s : UseUser} (hs : Epochs s) (ev : Event) :
    Epochs (step s ev) := by
  rcases useUser_step_cases s ev with ⟨h1, h2⟩ | ⟨h1, u, h2⟩
  · obtain ⟨g1, g2⟩ := Browser.increasing_sublist (fun r : Request => r.requestId)
      hs.increasing hs.bounded h2
    exact ⟨g1, fun r hr => h1 ▸ g2 r hr⟩
  · obtain ⟨g1, g2⟩ := Browser.increasing_append (fun r : Request => r.requestId)
      { requestId := s.requestIdRef + 1, userId := u } hs.increasing hs.bounded rfl
    exact ⟨h2 ▸ g1, fun r hr => h1 ▸ g2 r (h2 ▸ hr)⟩

theorem useUser_epochs_run (evs : List Event) {s : UseUser} (hs : Epochs s) :
    Epochs (run s evs) := by
  induction evs generalizing s with
  | nil => exact hs
  | cons ev evs ih => exact ih (useUser_epochs_step hs ev)

theorem useUser_epochs_mount (userId : String) (storage : Storage) :
    Epochs (mount userId storage) := by
  have h : (mount userId storage).requestIdRef = 1 ∧
      (mount userId storage).inFlight = [{ requestId := 1, userId := userId }] := by
    simp only [mount, effect, UseUser.initial]
    cases storage userId <;> exact ⟨rfl, rfl⟩
  constructor
  · rw [h.2]; simp
  · intro r hr
    rw [h.2] at hr
    simp only [List.mem_singleton] at hr
    rw [h.1, hr]

end StaleWhileRevalidate

namespace ServersidePagination

theorem app_commitQueryPage_cases (query : String) (page : Int) (s : App) :
    ((commitQueryPage query page s).requestIdRef = s.requestIdRef ∧
      (commitQueryPage query page s).inFlight = s.inFlight) ∨
    ((commitQueryPage query page s).requestIdRef = s.requestIdRef + 1 ∧
      (commitQueryPage query page s).inFlight
        = s.inFlight ++ [{ requestId := s.requestIdRef + 1, query := query, page := page }]) := by
  unfold commitQueryPage
  split
  · left; exact ⟨rfl, rfl⟩
  · right; exact ⟨rfl, rfl⟩

theorem app_step_cases (s : App) (ev : Event) :
    ((step s ev).requestIdRef = s.requestIdRef ∧ (step s ev).inFlight.Sublist s.inFlight) ∨
    ((step s ev).requestIdRef = s.requestIdRef + 1 ∧
      ∃ query page, (step s ev).inFlight
        = s.inFlight ++ [{ requestId := s.requestIdRef + 1, query := query, page := page }]) := by
  have lift : ∀ (query : String) (page : Int) (t : App), t.requestIdRef = s.requestIdRef →
      t.inFlight = s.inFlight →
      (((commitQueryPage query page t).requestIdRef = s.requestIdRef ∧
        (commitQueryPage query page t).inFlight.Sublist s.inFlight) ∨
      ((commitQueryPage query page t).requestIdRef = s.requestIdRef + 1 ∧
        ∃ q p, (commitQueryPage query page t).inFlight
          = s.inFlight ++ [{ requestId := s.requestIdRef + 1, query := q, page := p }])) := by
    intro query page t h1 h2
    rcases app_commitQueryPage_cases query page t with ⟨g1, g2⟩ | ⟨g1, g2⟩
    · left; exact ⟨g1.trans h1, by rw [g2, h2]⟩
    · right; exact ⟨by rw [g1, h1], query, page, by rw [g2, h1, h2]⟩
  cases ev with
  | type value =>
      left
      simp only [step, setInput, debounceEffect, debounceCleanup, Browser.Timers.setTimeout]
      repeat' split
      all_goals exact ⟨rfl, List.Sublist.refl _⟩
  | clickPrev =>
      simp only [step, clickPrev]
      split
      · split
        · left; exact ⟨rfl, List.Sublist.refl _⟩
        · exact lift _ _ s rfl rfl
      · left; exact ⟨rfl, List.Sublist.refl _⟩
  | clickNext =>
      simp only [step, clickNext]
      split
      · split
        · left; exact ⟨rfl, List.Sublist.refl _⟩
        · exact lift _ _ s rfl rfl
      · left; exact ⟨rfl, List.Sublist.refl _⟩
  | advance dt => left; exact ⟨rfl, List.Sublist.refl _⟩
  | fire id =>
      simp only [step, fire]
      split
      · split
        · exact lift _ _ _ rfl rfl
        · left; exact ⟨rfl, List.Sublist.refl _⟩
      · left; exact ⟨rfl, List.Sublist.refl _⟩
  | settle r res =>
      left
      simp only [step]
      split
      · cases res <;> simp only [complete, onFulfilled, onRejected] <;> split <;>
          exact ⟨rfl, List.erase_sublist _ _⟩
      · exact ⟨rfl, List.Sublist.refl _⟩
  | unmount =>
      left
      simp only [step, unmount, debounceCleanup]
      split <;> exact ⟨rfl, List.Sublist.refl _⟩

theorem app_epochs_step {s : App} (hs : Epochs s) (ev : Event) : Epochs (step s ev) := by
  rcases app_step_cases s ev with ⟨h1, h2⟩ | ⟨h1, q, p, h2⟩
  · obtain ⟨g1, g2⟩ := Browser.increasing_sublist (fun r : Request => r.requestId)
      hs.increasing hs.bounded h2
    exact ⟨g1, fun r hr => h1 ▸ g2 r hr⟩
  · obtain ⟨g1, g2⟩ := Browser.increasing_append (fun r : Request => r.requestId)
      { requestId := s.requestIdRef + 1, query := q, page := p } hs.increasing hs.bounded rfl
    exact ⟨h2 ▸ g1, fun r hr => h1 ▸ g2 r (h2 ▸ hr)⟩

theorem app_epochs_run (evs : List Event) {s : App} (hs : Epochs s) : Epochs (run s evs) := by
  induction evs generalizing s with
  | nil => exact hs
  | cons ev evs ih => exact ih (app_epochs_step hs ev)

theorem app_epochs_mount (now : Nat) : Epochs (mount now) := by
  constructor
  · simp [mount, searchEffect, debounceEffect]
  · intro r hr
    simp [mount, searchEffect, debounceEffect, Browser.Timers.setTimeout] at hr
    rw [hr]
    exact Nat.le_refl _

end ServersidePagination

namespace OptimisticList

theorem clearTimeout_sublist {α : Type} (ts : Browser.Timers α) (id : Nat) :
    (ts.clearTimeout id).armed.Sublist ts.armed :=
  List.filter_sublist _

theorem undo_armed_sublist (s : UseOptimisticItem) :
    (undo s).timers.armed.Sublist s.timers.armed := by
  unfold undo
  split
  · exact clearTimeout_sublist _ _
  · exact List.Sublist.refl _

theorem unmount_armed_sublist (s : UseOptimisticItem) :
    (unmount s).timers.armed.Sublist s.timers.armed := by
  unfold unmount
  split
  · exact clearTimeout_sublist _ _
  · exact List.Sublist.refl _

theorem settle_calls_sublist (a : Attempt) (fail : Bool) (s : UseOptimisticItem) :
    (settle a fail s).calls.Sublist s.calls := by
  by_cases hmem : a ∈ s.calls
  · by_cases hm : s.mounted = true <;> by_cases he : a.requestId = s.requestIdRef <;>
      cases fail <;>
      simp [settle, onRejected, onFulfilled, hmem, hm, he] <;>
      exact List.erase_sublist _ _
  · simp [settle, hmem]

theorem epochs_of_sublists {s t : UseOptimisticItem} (hs : Epochs s)
    (h1 : t.timers.armed.Sublist s.timers.armed) (h2 : t.calls.Sublist s.calls) : Epochs t :=
  ⟨hs.timers.sublist (h1.map _), hs.calls.sublist (h2.map _),
   fun u hu a ha => hs.apart u (h1.subset hu) a (h2.subset ha)⟩

theorem optimistic_epochs_step {s : UseOptimisticItem} (hw : Wf s) (hs : Epochs s)
    (ev : Event) : Epochs (step s ev) := by
  cases ev with
  | toggle =>
      simp only [step]
      split
      · obtain ⟨_, _, _, _, h5, _, _, h8, _, _⟩ := toggle_fields s
        obtain ⟨g1, _⟩ := Browser.increasing_append
          (fun t : Browser.Timer Attempt => t.payload.requestId)
          { id := s.timers.nextId, deadline := s.now + 3000,
            payload := { requestId := s.requestIdRef + 1, item := s.item } }
          hs.timers hw.timers rfl
        refine ⟨h8 ▸ g1, h5 ▸ hs.calls, ?_⟩
        intro t ht a ha
        rw [h8] at ht
        rw [h5] at ha
        rcases List.mem_append.mp ht with ht | ht
        · exact hs.apart t ht a ha
        · simp only [List.mem_singleton] at ht
          subst ht
          have := hw.calls a ha
          simp only
          omega
      · exact hs
  | undo =>
      simp only [step]
      split
      · exact epochs_of_sublists hs (undo_armed_sublist s)
          ((undo_fields s).2.1 ▸ List.Sublist.refl _)
      · exact hs
  | advance dt => exact ⟨hs.timers, hs.calls, hs.apart⟩
  | fire id =>
      simp only [step, fire]
      split
      · rename_i t hdue
        obtain ⟨hmem, hid, _⟩ := due_spec hdue
        refine ⟨hs.timers.sublist ((clearTimeout_sublist _ _).map _), ?_, ?_⟩
        · simp only [timerCallback, List.map_append, List.map_cons, List.map_nil]
          rw [List.nodup_append]
          refine ⟨hs.calls, by simp, ?_⟩
          intro e he he'
          simp only [List.mem_singleton] at he'
          obtain ⟨a, ha, rfl⟩ := List.mem_map.mp he
          exact hs.apart t hmem a ha he'.symm
        · intro u hu a ha
          have hu' := mem_clearTimeout hu
          simp only [timerCallback] at ha
          rcases List.mem_append.mp ha with ha | ha
          · exact hs.apart u hu' a ha
          · simp only [List.mem_singleton] at ha
            subst ha
            intro heq
            have hut := Browser.distinct_of_increasing
              (fun t : Browser.Timer Attempt => t.payload.requestId) hs.timers u hu' t hmem heq
            have hu2 : u ∈ s.timers.armed.filter (fun t => t.id != id) := hu
            rw [List.mem_filter] at hu2
            subst hut
            simp [hid] at hu2
      · exact hs
  | settle a fail =>
      simp only [step]
      exact epochs_of_sublists hs ((settle_fields a fail s).2.1 ▸ List.Sublist.refl _)
        (settle_calls_sublist a fail s)
  | unmount =>
      simp only [step]
      split
      · exact epochs_of_sublists hs (unmount_armed_sublist s)
          ((unmount_fields s).2.1 ▸ List.Sublist.refl _)
      · exact hs

theorem optimistic_epochs_run (evs : List Event) {s : UseOptimisticItem} (hw : Wf s)
    (hs : Epochs s) : Epochs (run s evs) := by
  induction evs generalizing s with
  | nil => exact hs
  | cons ev evs ih => exact ih (wf_step hw ev) (optimistic_epochs_step hw hs ev)

theorem optimistic_epochs_mount (initial : Item) (now : Nat) : Epochs (mount initial now) :=
  ⟨by simp [mount, Browser.Timers.empty], by simp [mount],
   fun _ h => by simp [mount, Browser.Timers.empty] at h⟩

theorem epochs_nodup {s : UseOptimisticItem} (hs : Epochs s) : (epochs s).Nodup := by
  unfold epochs
  rw [List.nodup_append]
  refine ⟨hs.timers.imp (fun h => Nat.ne_of_lt h), hs.calls, ?_⟩
  intro e he he'
  obtain ⟨t, ht, rfl⟩ := List.mem_map.mp he
  obtain ⟨a, ha, hat⟩ := List.mem_map.mp he'
  exact hs.apart t ht a ha hat.symm

theorem optimistic_step_cases (s : UseOptimisticItem) (ev : Event) :
    ((step s ev).requestIdRef = s.requestIdRef ∧ ∀ e ∈ epochs (step s ev), e ∈ epochs s) ∨
    (ev = .undo ∧ (step s ev).requestIdRef = s.requestIdRef + 1 ∧
      ∀ e ∈ epochs (step s ev), e ∈ epochs s) ∨
    (ev = .toggle ∧ (step s ev).requestIdRef = s.requestIdRef + 1 ∧
      epochs (step s ev)
        = s.timers.armed.map (fun t => t.payload.requestId) ++ [s.requestIdRef + 1]
          ++ s.calls.map (fun a => a.requestId)) := by
  have sub : ∀ t : UseOptimisticItem, t.timers.armed.Sublist s.timers.armed →
      t.calls.Sublist s.calls → ∀ e ∈ epochs t, e ∈ epochs s := by
    intro t h1 h2 e he
    simp only [epochs, List.mem_append] at he ⊢
    rcases he with he | he
    · exact Or.inl ((h1.map _).subset he)
    · exact Or.inr ((h2.map _).subset he)
  cases ev with
  | toggle =>
      by_cases hm : s.mounted = true
      · right; right
        obtain ⟨_, _, _, h4, h5, _, _, h8, _, _⟩ := toggle_fields s
        refine ⟨rfl, by simp [step, hm, h4], ?_⟩
        simp [step, hm, epochs, h5, h8]
      · left
        simp [step, hm]
  | undo =>
      by_cases hm : s.mounted = true
      · right; left
        refine ⟨rfl, by simp [step, hm, (undo_fields s).1], ?_⟩
        simp only [step, hm, if_true]
        exact sub _ (undo_armed_sublist s) ((undo_fields s).2.1 ▸ List.Sublist.refl _)
      · left
        simp [step, hm]
  | advance dt => left; exact ⟨rfl, fun e he => he⟩
  | fire id =>
      left
      simp only [step, fire]
      split
      · rename_i t hdue
        obtain ⟨hmem, _, _⟩ := due_spec hdue
        refine ⟨rfl, ?_⟩
        intro e he
        simp only [epochs, timerCallback, List.mem_append, List.map_append, List.map_cons,
          List.map_nil, List.mem_singleton] at he ⊢
        rcases he with he | he | he
        · exact Or.inl (((clearTimeout_sublist _ _).map _).subset he)
        · exact Or.inr he
        · exact Or.inl (he ▸ List.mem_map_of_mem _ hmem)
      · exact ⟨rfl, fun e he => he⟩
  | settle a fail =>
      left
      simp only [step]
      exact ⟨(settle_fields a fail s).1,
        sub _ ((settle_fields a fail s).2.1 ▸ List.Sublist.refl _) (settle_calls_sublist a fail s)⟩
  | unmount =>
      left
      by_cases hm : s.mounted = true
      · simp only [step, hm, if_true]
        exact ⟨(unmount_fields s).1,
          sub _ (unmount_armed_sublist s) ((unmount_fields s).2.1 ▸ List.Sublist.refl _)⟩
      · simp [step, hm]

end OptimisticList

namespace OptimisticList

theorem optimistic_step_counts {s : UseOptimisticItem} (hm : s.mounted = true) (ev : Event)
    (hev : ev ≠ .unmount) :
    (step s ev).mounted = true ∧
    (step s ev).requestIdRef
      = s.requestIdRef + ((if ev = .toggle then 1 else 0) + (if ev = .undo then 1 else 0)) := by
  cases ev with
  | toggle => exact ⟨by simp [step, hm, (toggle_fields s).2.2.2.2.2.2.1], by
      simp [step, hm, (toggle_fields s).2.2.2.1]⟩
  | undo =>
      refine ⟨?_, by simp [step, hm, (undo_fields s).1]⟩
      simp only [step, hm, if_true, undo]
      split <;> first | rfl | exact hm
  | advance dt => exact ⟨hm, rfl⟩
  | fire id =>
      simp only [step, fire]
      split <;> simp [timerCallback, hm]
  | settle a fail =>
      simp only [step, settle]
      by_cases ha : a ∈ s.calls
      · cases fail <;> simp [ha, hm, onRejected, onFulfilled] <;> split <;> simp [hm]
      · simp [ha, hm]
  | unmount => exact absurd rfl hev

theorem optimistic_run_counts (evs : List Event) {s : UseOptimisticItem} (hm : s.mounted = true)
    (hev : Event.unmount ∉ evs) :
    (run s evs).requestIdRef = s.requestIdRef + (evs.count .toggle + evs.count .undo) := by
  induction evs generalizing s with
  | nil => rfl
  | cons ev evs ih =>
      have hne : ev ≠ .unmount := fun h => hev (by rw [h]; exact List.mem_cons_self _ _)
      have hrest : Event.unmount ∉ evs := fun h => hev (List.mem_cons_of_mem _ h)
      obtain ⟨h1, h2⟩ := optimistic_step_counts hm ev hne
      have h3 := ih h1 hrest
      simp only [run, List.foldl_cons] at h3 ⊢
      rw [h3, h2, List.count_cons, List.count_cons]
      simp only [beq_iff_eq]
      have e1 : (ev = Event.toggle) = (Event.toggle = ev) := propext eq_comm
      have e2 : (ev = Event.undo) = (Event.undo = ev) := propext eq_comm
      simp only [e1, e2]
      omega

end OptimisticList

/-- C21: the epoch invariant.  In every state that `useUser`, the pagination
`App`, resp. `useOptimisticItem` reaches from its mount: an event either leaves
`requestIdRef` as it is and issues nothing, or adds exactly one to it and
issues exactly one request, resp. arms the timer of exactly one attempt, that
captures the new value (in `useOptimisticItem` an `undo` also adds one, and
issues nothing); the counter never decreases afterwards; every captured epoch
under way is at most the counter; the captured epochs under way are pairwise
different; and a request, resp. timer, under way whose epoch equals the counter
is the one issued last (so there is at most one).  Which events add one is
fixed: in `useUser` a `refresh` and a render with another `userId` do, a render
with the same `userId` and a completion do not; in the mounted `App` a click on
Prev away from page 1, a click on Next away from the last page and a debounce
commit of another query or page do, typing, the passing of time, a completion
and the unmount do not; in the mounted `useOptimisticItem` every `toggle` and
every `undo` does, the passing of time, a timer run, a completion and the
unmount do not, so that up to the unmount the counter is the number of toggles
plus the number of undos. -/
theorem epoch_invariant :
    (∀ (userId : String) (storage : StaleWhileRevalidate.Storage)
        (evs : List StaleWhileRevalidate.Event) (s : StaleWhileRevalidate.UseUser),
      s = StaleWhileRevalidate.run (StaleWhileRevalidate.mount userId storage) evs →
      (∀ ev, ((StaleWhileRevalidate.step s ev).requestIdRef = s.requestIdRef ∧
              (StaleWhileRevalidate.step s ev).inFlight.Sublist s.inFlight) ∨
             ((StaleWhileRevalidate.step s ev).requestIdRef = s.requestIdRef + 1 ∧
              ∃ u, (StaleWhileRevalidate.step s ev).inFlight
                = s.inFlight ++ [{ requestId := s.requestIdRef + 1, userId := u }])) ∧
      ((StaleWhileRevalidate.step s .refresh).requestIdRef = s.requestIdRef + 1 ∧
       (StaleWhileRevalidate.step s .refresh).inFlight
         = s.inFlight ++ [{ requestId := s.requestIdRef + 1, userId := s.userId }]) ∧
      (∀ u, u ≠ s.userId →
        (StaleWhileRevalidate.step s (.render u)).requestIdRef = s.requestIdRef + 1 ∧
        (StaleWhileRevalidate.step s (.render u)).inFlight
          = s.inFlight ++ [{ requestId := s.requestIdRef + 1, userId := u }]) ∧
      StaleWhileRevalidate.step s (.render s.userId) = s ∧
      (∀ r shouldFail,
        (StaleWhileRevalidate.step s (.settle r shouldFail)).requestIdRef = s.requestIdRef) ∧
      (∀ later, s.requestIdRef ≤ (StaleWhileRevalidate.run s later).requestIdRef) ∧
      (∀ r ∈ s.inFlight, r.requestId ≤ s.requestIdRef) ∧
      (∀ r ∈ s.inFlight, ∀ r' ∈ s.inFlight, r.requestId = r'.requestId → r = r') ∧
      (∀ r ∈ s.inFlight, r.requestId = s.requestIdRef → s.inFlight.getLast? = some r)) ∧
    (∀ (now : Nat) (evs : List ServersidePagination.Event) (s : ServersidePagination.App),
      s = ServersidePagination.run (ServersidePagination.mount now) evs →
      (∀ ev, ((ServersidePagination.step s ev).requestIdRef = s.requestIdRef ∧
              (ServersidePagination.step s ev).inFlight.Sublist s.inFlight) ∨
             ((ServersidePagination.step s ev).requestIdRef = s.requestIdRef + 1 ∧
              ∃ q p, (ServersidePagination.step s ev).inFlight
                = s.inFlight ++ [{ requestId := s.requestIdRef + 1, query := q, page := p }])) ∧
      (s.mounted = true → s.page ≠ 1 →
        (ServersidePagination.step s .clickPrev).requestIdRef = s.requestIdRef + 1 ∧
        (ServersidePagination.step s .clickPrev).inFlight
          = s.inFlight ++ [{ requestId := s.requestIdRef + 1, query := s.query,
                             page := s.page - 1 }]) ∧
      (s.mounted = true → s.page ≠ (s.totalPages : Int) →
        (ServersidePagination.step s .clickNext).requestIdRef = s.requestIdRef + 1 ∧
        (ServersidePagination.step s .clickNext).inFlight
          = s.inFlight ++ [{ requestId := s.requestIdRef + 1, query := s.query,
                             page := s.page + 1 }]) ∧
      (∀ id t, s.mounted = true → s.timers.due s.now id = some t →
        ¬ (JS.trim t.payload = s.query ∧ (1 : Int) = s.page) →
        (ServersidePagination.step s (.fire id)).requestIdRef = s.requestIdRef + 1 ∧
        (ServersidePagination.step s (.fire id)).inFlight
          = s.inFlight ++ [{ requestId := s.requestIdRef + 1, query := JS.trim t.payload,
                             page := 1 }]) ∧
      (∀ value, (ServersidePagination.step s (.type value)).requestIdRef = s.requestIdRef) ∧
      (∀ dt, (ServersidePagination.step s (.advance dt)).requestIdRef = s.requestIdRef) ∧
      (∀ r res, (ServersidePagination.step s (.settle r res)).requestIdRef = s.requestIdRef) ∧
      (ServersidePagination.step s .unmount).requestIdRef = s.requestIdRef ∧
      (∀ later, s.requestIdRef ≤ (ServersidePagination.run s later).requestIdRef) ∧
      (∀ r ∈ s.inFlight, r.requestId ≤ s.requestIdRef) ∧
      (∀ r ∈ s.inFlight, ∀ r' ∈ s.inFlight, r.requestId = r'.requestId → r = r') ∧
      (∀ r ∈ s.inFlight, r.requestId = s.requestIdRef → s.inFlight.getLast? = some r)) ∧
    (∀ (initial : OptimisticList.Item) (now : Nat) (evs : List OptimisticList.Event)
        (s : OptimisticList.UseOptimisticItem),
      s = OptimisticList.run (OptimisticList.mount initial now) evs →
      (∀ ev, ((OptimisticList.step s ev).requestIdRef = s.requestIdRef ∧
              ∀ e ∈ OptimisticList.epochs (OptimisticList.step s ev),
                e ∈ OptimisticList.epochs s) ∨
             (ev = .undo ∧ (OptimisticList.step s ev).requestIdRef = s.requestIdRef + 1 ∧
              ∀ e ∈ OptimisticList.epochs (OptimisticList.step s ev),
                e ∈ OptimisticList.epochs s) ∨
             (ev = .toggle ∧ (OptimisticList.step s ev).requestIdRef = s.requestIdRef + 1 ∧
              OptimisticList.epochs (OptimisticList.step s ev)
                = s.timers.armed.map (fun t => t.payload.requestId) ++ [s.requestIdRef + 1]
                  ++ s.calls.map (fun a => a.requestId))) ∧
      (s.mounted = true →
        (OptimisticList.step s .toggle).requestIdRef = s.requestIdRef + 1 ∧
        (OptimisticList.step s .undo).requestIdRef = s.requestIdRef + 1) ∧
      (∀ dt, (OptimisticList.step s (.advance dt)).requestIdRef = s.requestIdRef) ∧
      (∀ id, (OptimisticList.step s (.fire id)).requestIdRef = s.requestIdRef) ∧
      (∀ a fail, (OptimisticList.step s (.settle a fail)).requestIdRef = s.requestIdRef) ∧
      (OptimisticList.step s .unmount).requestIdRef = s.requestIdRef ∧
      (OptimisticList.Event.unmount ∉ evs →
        s.requestIdRef = evs.count .toggle + evs.count .undo) ∧
      (∀ later, s.requestIdRef ≤ (OptimisticList.run s later).requestIdRef) ∧
      (∀ e ∈ OptimisticList.epochs s, e ≤ s.requestIdRef) ∧
      (OptimisticList.epochs s).Nodup ∧
      (OptimisticList.epochs s).count s.requestIdRef ≤ 1 ∧
      (∀ t ∈ s.timers.armed, t.payload.requestId = s.requestIdRef →
        s.timers.armed.getLast? = some t)) := by
  refine ⟨?_, ?_, ?_⟩
  · intro userId storage evs s hs
    have inv : StaleWhileRevalidate.Epochs s :=
      hs ▸ StaleWhileRevalidate.useUser_epochs_run evs
        (StaleWhileRevalidate.useUser_epochs_mount userId storage)
    refine ⟨StaleWhileRevalidate.useUser_step_cases s, ⟨rfl, rfl⟩, ?_, ?_, ?_,
      fun later => StaleWhileRevalidate.useUser_run_requestIdRef_le later s,
      inv.bounded,
      Browser.distinct_of_increasing _ inv.increasing,
      fun r hr he => Browser.last_of_current _ inv.increasing inv.bounded hr he⟩
    · intro u hu
      simp only [StaleWhileRevalidate.step, hu, if_false, StaleWhileRevalidate.effect]
      cases s.localStorage u <;> exact ⟨rfl, rfl⟩
    · simp [StaleWhileRevalidate.step]
    · intro r shouldFail
      simp only [StaleWhileRevalidate.step]
      split
      · simp only [StaleWhileRevalidate.complete]
        cases StaleWhileRevalidate.fetchUser shouldFail r.userId <;>
          simp only [StaleWhileRevalidate.onFulfilled, StaleWhileRevalidate.onRejected] <;>
          split <;> rfl
      · rfl
  · intro now evs s hs
    have inv : ServersidePagination.Epochs s :=
      hs ▸ ServersidePagination.app_epochs_run evs (ServersidePagination.app_epochs_mount now)
    refine ⟨ServersidePagination.app_step_cases s, ?_, ?_, ?_, ?_, ?_, ?_, ?_,
      fun later => ServersidePagination.app_run_requestIdRef_le later s,
      inv.bounded,
      Browser.distinct_of_increasing _ inv.increasing,
      fun r hr he => Browser.last_of_current _ inv.increasing inv.bounded hr he⟩
    · intro hm hp
      have hp2 : ¬ (s.page - 1 = s.page) := by omega
      simp [ServersidePagination.step, hm, ServersidePagination.clickPrev, hp,
        ServersidePagination.commitQueryPage, hp2, ServersidePagination.searchEffect]
    · intro hm hp
      simp [ServersidePagination.step, hm, ServersidePagination.clickNext, hp,
        ServersidePagination.commitQueryPage, ServersidePagination.searchEffect]
    · intro id t hm hd hne
      simp only [ServersidePagination.step, ServersidePagination.fire, hd, hm, if_true,
        ServersidePagination.debounceCallback, ServersidePagination.commitQueryPage, hne,
        if_false, ServersidePagination.searchEffect]
      exact ⟨trivial, trivial⟩
    · intro value
      simp only [ServersidePagination.step]
      split
      · simp only [ServersidePagination.setInput]
        split <;> rfl
      · rfl
    · intro dt; rfl
    · intro r res
      simp only [ServersidePagination.step]
      split
      · cases res <;>
          simp only [ServersidePagination.complete, ServersidePagination.onFulfilled,
            ServersidePagination.onRejected] <;>
          split <;> rfl
      · rfl
    · simp only [ServersidePagination.step]
      split <;> rfl
  · intro initial now evs s hs
    have wf : OptimisticList.Wf s :=
      hs ▸ OptimisticList.wf_run evs (OptimisticList.wf_mount initial now)
    have inv : OptimisticList.Epochs s :=
      hs ▸ OptimisticList.optimistic_epochs_run evs (OptimisticList.wf_mount initial now)
        (OptimisticList.optimistic_epochs_mount initial now)
    have hnd := OptimisticList.epochs_nodup inv
    refine ⟨OptimisticList.optimistic_step_cases s, ?_, fun dt => rfl, ?_, ?_, ?_, ?_,
      fun later => OptimisticList.optimistic_run_requestIdRef_le later s, ?_, hnd,
      List.nodup_iff_count_le_one.mp hnd _,
      fun t ht he => Browser.last_of_current _ inv.timers wf.timers ht he⟩
    · intro hm
      exact ⟨by simp [OptimisticList.step, hm, (OptimisticList.toggle_fields s).2.2.2.1],
        by simp [OptimisticList.step, hm, (OptimisticList.undo_fields s).1]⟩
    · intro id
      simp only [OptimisticList.step, OptimisticList.fire]
      split <;> rfl
    · intro a fail
      simp only [OptimisticList.step, OptimisticList.settle]
      split
      · split
        · cases fail <;>
            simp only [OptimisticList.onRejected, OptimisticList.onFulfilled, if_true,
              Bool.false_eq_true, if_false] <;>
            split <;> rfl
        · rfl
      · rfl
    · simp only [OptimisticList.step]
      split
      · exact (OptimisticList.unmount_fields s).1
      · rfl
    · intro hev
      have h := OptimisticList.optimistic_run_counts evs
        (s := OptimisticList.mount initial now) rfl hev
      rw [hs, h]
      simp [OptimisticList.mount]
    intro e he
    simp only [OptimisticList.epochs, List.mem_append, List.mem_map] at he
    rcases he with ⟨t, ht, rfl⟩ | ⟨a, ha, rfl⟩
    · exact wf.timers t ht
    · exact wf.calls a ha

/-! ## Theorems: the confirmed value of the optimistic item -/

namespace OptimisticList

theorem undo_display (s : UseOptimisticItem) :
    (undo s).item = { s.item with completed := !s.item.completed } ∧
    (undo s).status = .idle ∧ (undo s).undoVisible = false ∧ (undo s).mounted = s.mounted := by
  unfold undo
  split <;> exact ⟨rfl, rfl, rfl, rfl⟩

theorem unmount_display (s : UseOptimisticItem) :
    (unmount s).item = s.item ∧ (unmount s).status = s.status ∧
    (unmount s).undoVisible = s.undoVisible := by
  unfold unmount
  split <;> exact ⟨rfl, rfl, rfl⟩

theorem settle_absent (a : Attempt) (fail : Bool) (s : UseOptimisticItem) (h : a ∉ s.calls) :
    settle a fail s = s := by
  simp [settle, h]

theorem settle_unguarded (a : Attempt) (fail : Bool) (s : UseOptimisticItem)
    (hmem : a ∈ s.calls) (h : ¬ (s.mounted = true ∧ a.requestId = s.requestIdRef)) :
    settle a fail s = { s with calls := s.calls.erase a } := by
  by_cases hm : s.mounted = true
  · have he : a.requestId ≠ s.requestIdRef := fun he => h ⟨hm, he⟩
    cases fail <;> simp [settle, onRejected, onFulfilled, hmem, hm, he]
  · simp [settle, hmem, hm]

theorem settle_guarded_failure (a : Attempt) (s : UseOptimisticItem) (hmem : a ∈ s.calls)
    (hm : s.mounted = true) (he : a.requestId = s.requestIdRef) :
    settle a true s
      = { s with calls := s.calls.erase a, item := a.item, status := .error,
                 undoVisible := false } := by
  simp [settle, onRejected, hmem, hm, he]

theorem settle_guarded_success (a : Attempt) (s : UseOptimisticItem) (hmem : a ∈ s.calls)
    (hm : s.mounted = true) (he : a.requestId = s.requestIdRef) :
    settle a false s
      = { s with calls := s.calls.erase a, status := .idle, undoVisible := false } := by
  simp [settle, onFulfilled, hmem, hm, he]

theorem negate_twice (c : Item) :
    ({ ({ c with completed := !c.completed } : Item) with
        completed := !({ c with completed := !c.completed } : Item).completed } : Item) = c := by
  cases c
  simp

theorem no_current_after_settle {s : UseOptimisticItem} (he : Epochs s) {a : Attempt}
    (hmem : a ∈ s.calls) :
    (∀ t ∈ s.timers.armed, t.payload.requestId ≠ a.requestId) ∧
    (∀ b ∈ s.calls.erase a, b.requestId ≠ a.requestId) := by
  constructor
  · intro t ht
    exact he.apart t ht a hmem
  · intro b hb heq
    have hnd : s.calls.Nodup := List.Nodup.of_map _ he.calls
    have hb' := (hnd.mem_erase_iff).mp hb
    have := List.inj_on_of_nodup_map he.calls hb'.2 hmem heq
    exact hb'.1 this

theorem confirmed_uiStep {c : Item} {s : UseOptimisticItem} (hw : Wf s) (he : Epochs s)
    (hc : Confirmed c s) (ev : Event) :
    Confirmed (confirmedStep c s ev) (uiStep s ev) := by
  cases ev with
  | toggle =>
      simp only [uiStep, confirmedStep, step]
      split
      · exact hc
      · rename_i hp
        split
        · obtain ⟨h1, h2, h3, h4, h5, _, _, h8, _, _⟩ := toggle_fields s
          have hitem := hc.settled hp
          refine ⟨fun h => absurd h2 h, (fun _ => by rw [h1, hitem]), ?_, ?_, fun _ => h2⟩
          · intro t ht hE
            rw [h8] at ht
            rw [h4] at hE
            rcases List.mem_append.mp ht with ht | ht
            · have := hw.timers t ht; omega
            · simp only [List.mem_singleton] at ht
              subst ht
              exact ⟨hitem, h2⟩
          · intro a ha hE
            rw [h5] at ha
            rw [h4] at hE
            have := hw.calls a ha; omega
        · exact hc
  | undo =>
      simp only [uiStep, confirmedStep, step]
      split
      · rename_i hv
        split
        · obtain ⟨h1, h2, h3, _⟩ := undo_display s
          obtain ⟨g1, g2, _, _, g5⟩ := undo_fields s
          have hp := hc.undo hv
          refine ⟨fun _ => ?_, (fun h => by rw [h2] at h; cases h), ?_, ?_,
            (fun h => by rw [h3] at h; cases h)⟩
          · rw [h1, hc.proposed hp]
            exact negate_twice c
          · intro t ht hE
            rw [g1] at hE
            have := hw.timers t (g5 t ht); omega
          · intro a ha hE
            rw [g2] at ha
            rw [g1] at hE
            have := hw.calls a ha; omega
        · exact hc
      · exact hc
  | advance dt => exact ⟨hc.settled, hc.proposed, hc.timers, hc.calls, hc.undo⟩
  | fire id =>
      simp only [uiStep, confirmedStep, step, fire]
      split
      · rename_i t hdue
        obtain ⟨hmem, _, _⟩ := due_spec hdue
        refine ⟨hc.settled, hc.proposed, ?_, ?_, hc.undo⟩
        · intro u hu hE
          exact hc.timers u (mem_clearTimeout hu) hE
        · intro a ha hE
          simp only [timerCallback] at ha
          rcases List.mem_append.mp ha with ha | ha
          · exact hc.calls a ha hE
          · simp only [List.mem_singleton] at ha
            subst ha
            exact hc.timers t hmem hE
      · exact hc
  | settle a fail =>
      by_cases hmem : a ∈ s.calls
      · by_cases hg : s.mounted = true ∧ a.requestId = s.requestIdRef
        · obtain ⟨hm, hE⟩ := hg
          obtain ⟨hai, hp⟩ := hc.calls a hmem hE
          obtain ⟨n1, n2⟩ := no_current_after_settle he hmem
          cases fail with
          | true =>
              simp only [uiStep, confirmedStep, step]
              rw [settle_guarded_failure a s hmem hm hE]
              refine ⟨fun _ => hai, (fun h => by cases h), ?_, ?_, (fun h => by cases h)⟩
              · intro t ht hE'
                exact absurd (hE'.trans hE.symm) (n1 t ht)
              · intro b hb hE'
                exact absurd (hE'.trans hE.symm) (n2 b hb)
          | false =>
              simp only [uiStep, confirmedStep, step, hmem, hm, hE, and_self, if_true]
              rw [settle_guarded_success a s hmem hm hE]
              refine ⟨fun _ => rfl, (fun h => by cases h), ?_, ?_, (fun h => by cases h)⟩
              · intro t ht hE'
                exact absurd (hE'.trans hE.symm) (n1 t ht)
              · intro b hb hE'
                exact absurd (hE'.trans hE.symm) (n2 b hb)
        · have hcs : confirmedStep c s (.settle a fail) = c := by
            cases fail
            · simp only [confirmedStep]
              rw [if_neg (fun h => hg ⟨h.2.1, h.2.2⟩)]
            · rfl
          rw [hcs]
          simp only [uiStep, step]
          rw [settle_unguarded a fail s hmem hg]
          refine ⟨hc.settled, hc.proposed, hc.timers, ?_, hc.undo⟩
          intro b hb hE
          exact hc.calls b (List.mem_of_mem_erase hb) hE
      · have hcs : confirmedStep c s (.settle a fail) = c := by
          cases fail
          · simp only [confirmedStep]
            rw [if_neg (fun h => hmem h.1)]
          · rfl
        rw [hcs]
        simp only [uiStep, step]
        rw [settle_absent a fail s hmem]
        exact hc
  | unmount =>
      simp only [uiStep, confirmedStep, step]
      split
      · obtain ⟨h1, h2, h3⟩ := unmount_display s
        obtain ⟨g1, g2, _, _, g5⟩ := unmount_fields s
        refine ⟨(fun h => by rw [h1]; exact hc.settled (h2 ▸ h)),
          (fun h => by rw [h1]; exact hc.proposed (h2 ▸ h)), ?_, ?_,
          (fun h => by rw [h2]; exact hc.undo (h3 ▸ h))⟩
        · intro t ht hE
          rw [g1] at hE
          rw [h2]
          exact hc.timers t (g5 t ht) hE
        · intro a ha hE
          rw [g2] at ha
          rw [g1] at hE
          rw [h2]
          exact hc.calls a ha hE
      · exact hc

theorem uiStep_eq (s : UseOptimisticItem) (ev : Event) : uiStep s ev = s ∨ uiStep s ev = step s ev := by
  cases ev with
  | toggle =>
      simp only [uiStep]
      split
      · exact Or.inl rfl
      · exact Or.inr rfl
  | undo =>
      simp only [uiStep]
      split
      · exact Or.inr rfl
      · exact Or.inl rfl
  | advance dt => exact Or.inr rfl
  | fire id => exact Or.inr rfl
  | settle a fail => exact Or.inr rfl
  | unmount => exact Or.inr rfl

theorem confirmed_uiRun (evs : List Event) {c : Item} {s : UseOptimisticItem} (hw : Wf s)
    (he : Epochs s) (hc : Confirmed c s) :
    Wf (uiRun (s, c) evs).1 ∧ Epochs (uiRun (s, c) evs).1 ∧
      Confirmed (uiRun (s, c) evs).2 (uiRun (s, c) evs).1 := by
  induction evs generalizing s c with
  | nil => exact ⟨hw, he, hc⟩
  | cons ev evs ih =>
      have hw' : Wf (uiStep s ev) := by
        rcases uiStep_eq s ev with h | h
        · rw [h]; exact hw
        · rw [h]; exact wf_step hw ev
      have he' : Epochs (uiStep s ev) := by
        rcases uiStep_eq s ev with h | h
        · rw [h]; exact he
        · rw [h]; exact optimistic_epochs_step hw he ev
      exact ih hw' he' (confirmed_uiStep hw he hc ev)

theorem confirmed_mount (initial : Item) (now : Nat) : Confirmed initial (mount initial now) :=
  ⟨fun _ => rfl, (fun h => by cases h),
   (fun _ h => by simp [mount, Browser.Timers.empty] at h),
   (fun _ h => by simp [mount] at h),
   (fun h => by cases h)⟩

end OptimisticList

/-- C22: the confirmed-value invariant.  The row runs under the gating of its
markup (checkbox disabled while `pending`, Undo button present while
`undoVisible`), with timers running and calls settling in any order; the
confirmed value is the initial item until a success whose guard holds accepts
the item then displayed.  In every state reached: when `status` is not
`pending` the item is the confirmed value, and when it is `pending` the item is
the confirmed value with `completed` negated; a failure whose guard holds
restores the confirmed value and keeps it confirmed, and a success whose guard
holds keeps the item and makes it the confirmed value. -/
theorem confirmed_value_invariant (initial : OptimisticList.Item) (now : Nat)
    (evs : List OptimisticList.Event) :
    ((OptimisticList.uiRun (OptimisticList.mount initial now, initial) evs).1.status ≠ .pending →
      (OptimisticList.uiRun (OptimisticList.mount initial now, initial) evs).1.item
        = (OptimisticList.uiRun (OptimisticList.mount initial now, initial) evs).2) ∧
    ((OptimisticList.uiRun (OptimisticList.mount initial now, initial) evs).1.status = .pending →
      (OptimisticList.uiRun (OptimisticList.mount initial now, initial) evs).1.item
        = { (OptimisticList.uiRun (OptimisticList.mount initial now, initial) evs).2 with
            completed :=
              !(OptimisticList.uiRun (OptimisticList.mount initial now, initial) evs).2.completed }) ∧
    (∀ a ∈ (OptimisticList.uiRun (OptimisticList.mount initial now, initial) evs).1.calls,
      (OptimisticList.uiRun (OptimisticList.mount initial now, initial) evs).1.mounted = true →
      a.requestId
        = (OptimisticList.uiRun (OptimisticList.mount initial now, initial) evs).1.requestIdRef →
      (OptimisticList.uiRun (OptimisticList.mount initial now, initial)
          (evs ++ [.settle a true])).1.item
        = (OptimisticList.uiRun (OptimisticList.mount initial now, initial) evs).2 ∧
      (OptimisticList.uiRun (OptimisticList.mount initial now, initial)
          (evs ++ [.settle a true])).2
        = (OptimisticList.uiRun (OptimisticList.mount initial now, initial) evs).2 ∧
      (OptimisticList.uiRun (OptimisticList.mount initial now, initial)
          (evs ++ [.settle a false])).1.item
        = (OptimisticList.uiRun (OptimisticList.mount initial now, initial) evs).1.item ∧
      (OptimisticList.uiRun (OptimisticList.mount initial now, initial)
          (evs ++ [.settle a false])).2
        = (OptimisticList.uiRun (OptimisticList.mount initial now, initial) evs).1.item) := by
  obtain ⟨hw, he, hc⟩ := OptimisticList.confirmed_uiRun evs
    (OptimisticList.wf_mount initial now) (OptimisticList.optimistic_epochs_mount initial now)
    (OptimisticList.confirmed_mount initial now)
  refine ⟨hc.settled, hc.proposed, ?_⟩
  intro a hmem hm hE
  have hrun : ∀ ev, OptimisticList.uiRun (OptimisticList.mount initial now, initial) (evs ++ [ev])
      = (OptimisticList.uiStep
          (OptimisticList.uiRun (OptimisticList.mount initial now, initial) evs).1 ev,
         OptimisticList.confirmedStep
          (OptimisticList.uiRun (OptimisticList.mount initial now, initial) evs).2
          (OptimisticList.uiRun (OptimisticList.mount initial now, initial) evs).1 ev) := by
    intro ev
    simp [OptimisticList.uiRun, List.foldl_append]
  rw [hrun, hrun]
  refine ⟨?_, rfl, ?_, ?_⟩
  · show (OptimisticList.settle a true _).item = _
    rw [OptimisticList.settle_guarded_failure a _ hmem hm hE]
    exact (hc.calls a hmem hE).1
  · show (OptimisticList.settle a false _).item = _
    rw [OptimisticList.settle_guarded_success a _ hmem hm hE]
  · show OptimisticList.confirmedStep _ _ (.settle a false) = _
    simp only [OptimisticList.confirmedStep]
    rw [if_pos ⟨hmem, hm, hE⟩]
